import Mathlib

/-!
Shallow embedding of the `depinj` dependency-injection package (src/depinj.go)
and proofs about its specification claims.

The Go package wires "pods" (components) together: each pod declares import,
export and filter entries on its struct fields.  `PodPool.resolve` runs three
resolution phases (ref-link resolution + export registration, import/filter
binding, DFS ordering with cycle detection); `PodPool.SetUp` then initializes
pods in the computed order with rollback on failure, and `PodPool.TearDown`
finalizes them in reverse order.

Modelling conventions:
* Go `reflect.Type` becomes the inductive `Ty` (a named base type or a pointer
  type); field values become the inductive `Val`.
* Machine state that Go holds in struct fields (entry ref ids, an export's
  filter list, the pods' Next/Prev links, the entry field values) is threaded
  explicitly through a `PoolSt` record, so that repeated resolution / repeated
  setup-teardown rounds can be expressed.
* User hooks (`Pod.SetUp`, filter methods, `Pod.TearDown`) are modelled by the
  documented contract (depinj.go lines 119-137): a setup hook reads fields and
  initializes the pod's own export fields, a filter hook transforms the
  filtered export value (reading fields), a teardown hook has no modelled
  field effect (its owner's entry fields are zeroed right afterwards anyway).
* Fallible code returns a `× Option DErr` pair (the state component is kept on
  errors, matching Go where partially mutated structures persist).
* `sort.Slice` (depinj.go line 379) with the comparator
  `FilterEntries[i].Priority >= FilterEntries[j].Priority` is embedded as
  `sortFilters` below: the insertion-sort path that Go's unstable
  quicksort takes for small slices (exact for at most 6 elements; between 7
  and 12 elements Go additionally performs one gap-6 Shell pass first).
  Note the comparator is non-strict, so equal-priority elements swap.
-/

namespace Depinj

/-- Go `reflect.Type`, as far as this package inspects it: a named base type
or a pointer type (`reflect.PtrTo` / `.Elem()`). -/
inductive Ty where
  | base : String → Ty
  | ptr : Ty → Ty
deriving DecidableEq, Repr

/-- A field value: an integer, a string, a pointer to an export field
(identified by owner pod index and export index), or a zero/nil value.
`reflect.Zero` of a type is modelled by `zeroOf`. -/
inductive Val where
  | intV : Int → Val
  | strV : String → Val
  | ptrV : Nat → Nat → Val
  | nilV : Val
deriving DecidableEq, Repr

/-- The zero `reflect.Value` of a type (depinj.go lines 296, 301, 306). -/
def zeroOf : Ty → Val
  | .base "int" => .intV 0
  | .base "string" => .strV ""
  | .base _ => .nilV
  | .ptr _ => .nilV

/-- Address of an entry field: entry kind, owning pod index, entry index
within that pod's entry list of this kind. -/
inductive FKey where
  | imp : Nat → Nat → FKey
  | exp : Nat → Nat → FKey
  | flt : Nat → Nat → FKey
deriving DecidableEq, Repr

/-- Common entry data after `entry.ParseField` (depinj.go lines 414-435):
diagnostic path, declared field type, and the ref id (args[0] of the tag). -/
structure EntryCore where
  path : String
  refID : String
  fieldTy : Ty
deriving DecidableEq, Repr

/-- An import entry (depinj.go lines 451-459), before resolution. -/
structure ImportE where
  core : EntryCore
deriving DecidableEq, Repr

/-- An export entry (depinj.go lines 514-522), before resolution. -/
structure ExportE where
  core : EntryCore
deriving DecidableEq, Repr

/-- A filter entry (depinj.go lines 562-571).  `hook` is the bound method
(field tag args[1]); it receives a field reader and the current value of the
filtered export and returns the new value or an error, per the contract that
a filter mutates the export value in place through its pointer field. -/
structure FilterE where
  core : EntryCore
  priority : Int
  hook : (FKey → Val) → Val → Except String Val

/-- A parsed pod (Go `pod` + its `Raw Pod` callbacks, depinj.go lines
119-137, 168-178).  `setupHook` returns the updates the user hook makes to
the pod's own export fields (indexed by export position), per the contract
"The fields of the export entries should be initialized within this method". -/
structure PodM where
  resolveRefLink : String → Option String
  setupHook : (FKey → Val) → Except String (List (Nat × Val))
  imports : List ImportE
  exports : List ExportE
  filters : List FilterE

/-- Errors of the package (the sentinel errors of depinj.go lines 154-161
plus the two wrapped hook failures of pod.SetUp and a fuel marker for the
embedded recursion of `doResolve3`; Go's recursion has no fuel, and we prove
the marker unreachable for the fuel the embedding supplies). -/
inductive DErr where
  | invalidPod : String → DErr
  | badImport : String → DErr
  | badExport : String → DErr
  | badFilter : String → DErr
  | circular : String → DErr
  | fuelOut : DErr
  | setupFailed : Nat → String → DErr
  | filterFailed : Nat → String → DErr
deriving DecidableEq, Repr

/-- Reference to a filter entry: owning pod index, filter index. -/
abbrev FilterRef := Nat × Nat

/-- Reference to an export entry: owning pod index, export index. -/
abbrev ExportRef := Nat × Nat

/-- A user-hook invocation, for stating lifecycle-ordering claims. -/
inductive Ev where
  | setupHook : Nat → Ev
  | filterHook : Nat → Nat → Ev
  | teardownHook : Nat → Ev
deriving DecidableEq, Repr

/-- Mutable pool state persisting across calls: the current ref id of every
entry (links get overwritten in place by `entry.ResolveRefLink`, depinj.go
line 445), every export's filter list (depinj.go line 673 and the in-place
sort at line 379), the head/tail linked order of the pool
(`firstPod`/`lastPod`, set at depinj.go lines 112-113), the entry field
values, and the log of invoked user hooks (newest first). -/
structure PoolSt where
  refIDs : FKey → String
  flists : Nat → Nat → List FilterRef
  linked : Option (List Nat)
  fields : FKey → Val
  events : List Ev

/-! ### Pod and entry accessors (with dummy defaults for out-of-range indices) -/

/-- The dummy pod used as the default of out-of-range accesses. -/
def dummyPodM : PodM where
  resolveRefLink := fun _ => none
  setupHook := fun _ => .ok []
  imports := []
  exports := []
  filters := []

/-- Pod at index `p` of the pool (the `pp.pods` slice). -/
def podAt (W : List PodM) (p : Nat) : PodM := W.getD p dummyPodM

/-- A default entry core. -/
def dummyCore : EntryCore := { path := "", refID := "", fieldTy := .base "" }

/-- Import entry `i` of pod `p`. -/
def impAt (W : List PodM) (p i : Nat) : ImportE :=
  (podAt W p).imports.getD i { core := dummyCore }

/-- Export entry `e` of pod `p`. -/
def expAt (W : List PodM) (p e : Nat) : ExportE :=
  (podAt W p).exports.getD e { core := dummyCore }

/-- A default filter entry. -/
def dummyFilter : FilterE :=
  { core := dummyCore, priority := 0, hook := fun _ v => .ok v }

/-- Filter entry `fi` of pod `p`. -/
def fltAt (W : List PodM) (p fi : Nat) : FilterE :=
  (podAt W p).filters.getD fi dummyFilter

/-- The entry core an `FKey` addresses. -/
def coreAt (W : List PodM) : FKey → EntryCore
  | .imp p i => (impAt W p i).core
  | .exp p e => (expAt W p e).core
  | .flt p fi => (fltAt W p fi).core

/-- Initial ref ids, as parsed from the field tags. -/
def initRefIDs (W : List PodM) (k : FKey) : String := (coreAt W k).refID

/-- The all-zero initial field assignment (Go struct fields start zeroed). -/
def initFields (W : List PodM) (k : FKey) : Val := zeroOf (coreAt W k).fieldTy

/-- Fresh pool state right after the pods are added. -/
def initPoolSt (W : List PodM) : PoolSt where
  refIDs := initRefIDs W
  flists := fun _ _ => []
  linked := none
  fields := initFields W
  events := []

/-- Pointwise update of a function map. -/
def upd [DecidableEq α] (f : α → β) (k : α) (v : β) : α → β :=
  fun x => if x = k then v else f x

/-- Update of a two-argument map (used for `flists`). -/
def upd2 (f : Nat → Nat → List FilterRef) (p e : Nat) (v : List FilterRef) :
    Nat → Nat → List FilterRef :=
  fun q d => if q = p ∧ d = e then v else f q d

/-- Fold a step function over a list, stopping at the first error while
keeping the state reached so far (the shape of every Go loop
`for ... { if err := ...; err != nil { return err } }` in this package). -/
def foldStop : List α → σ → (σ → α → σ × Option ε) → σ × Option ε
  | [], s, _ => (s, none)
  | a :: l, s, f =>
    let r := f s a
    match r.2 with
    | none => foldStop l r.1 f
    | some _ => r

/-- Go `isRefLink` (depinj.go lines 805-807): the ref id starts with `@`. -/
def isRefLink (s : String) : Bool :=
  match s.data with
  | [] => false
  | c :: _ => c = '@'

/-! ### The embedded `sort.Slice` call

`pod.doResolve3` (depinj.go lines 379-381) sorts an export's filter list
in place with `sort.Slice` and the NON-STRICT comparator
`FilterEntries[i].Priority >= FilterEntries[j].Priority`.  `sort.Slice` is
unstable; for slices of fewer than 13 elements Go runs plain insertion sort
(preceded, from 7 elements on, by one gap-6 Shell pass).  `sortFilters`
embeds that insertion sort: element `x` bubbles left past every neighbour
`y` with `x.priority ≥ y.priority`, i.e. it ends up before the first element
whose priority is not strictly greater.  Exact for lists of at most 6
filters, which covers every list in this development.  Because the
comparator is non-strict, a run of equal priorities comes out reversed. -/
def insertFilter (pri : FilterRef → Int) (x : FilterRef) :
    List FilterRef → List FilterRef
  | [] => [x]
  | y :: ys => if pri x ≥ pri y then x :: y :: ys else y :: insertFilter pri x ys

/-- See `insertFilter`: the insertion-sort path of the `sort.Slice` call at
depinj.go line 379, processing elements left to right. -/
def sortFilters (pri : FilterRef → Int) (l : List FilterRef) : List FilterRef :=
  l.foldl (fun acc x => insertFilter pri x acc) []

/-! ### Resolution phases 1 and 2 (depinj.go lines 80-99, 205-251) -/

/-- The `resolution12Context` maps (depinj.go lines 677-714), as association
lists: export entries registered by field type and by ref id. -/
structure R12Maps where
  byType : List (Ty × ExportRef)
  byID : List (String × ExportRef)

/-- Association-list lookup (Go map read). -/
def alGet [DecidableEq α] (m : List (α × β)) (k : α) : Option β :=
  match m with
  | [] => none
  | (k1, v) :: rest => if k = k1 then some v else alGet rest k

/-- State of phases 1-2: the persistent ref ids and filter lists, the
registration maps, and the import bindings resolved so far
(`importEntry.ExportEntry`, depinj.go line 458). -/
structure R12St where
  refIDs : FKey → String
  maps : R12Maps
  flists : Nat → Nat → List FilterRef
  impT : Nat → Nat → ExportRef

/-- `entry.ResolveRefLink` (depinj.go lines 437-449): if the current ref id
is a link, ask the owning pod to resolve it and overwrite it in place. -/
def resolveRefLinkStep (W : List PodM) (p : Nat) (k : FKey)
    (refIDs : FKey → String) : (FKey → String) × Bool :=
  let r := refIDs k
  if isRefLink r then
    match (podAt W p).resolveRefLink r with
    | none => (refIDs, false)
    | some id => (upd refIDs k id, true)
  else (refIDs, true)

/-- `importEntry.Resolve1` (depinj.go lines 476-485). -/
def importResolve1 (W : List PodM) (p i : Nat) (st : R12St) : R12St × Option DErr :=
  let r := resolveRefLinkStep W p (.imp p i) st.refIDs
  if r.2 then ({ st with refIDs := r.1 }, none)
  else ({ st with refIDs := r.1 }, some (.badImport (impAt W p i).core.path))

/-- `exportEntry.Resolve1` (depinj.go lines 539-560): resolve the link, then
register the export by field type (empty ref id) or by ref id; a duplicate
key is terminal. -/
def exportResolve1 (W : List PodM) (p e : Nat) (st : R12St) : R12St × Option DErr :=
  let r := resolveRefLinkStep W p (.exp p e) st.refIDs
  if ¬r.2 then ({ st with refIDs := r.1 }, some (.badExport (expAt W p e).core.path))
  else
    let st1 := { st with refIDs := r.1 }
    let refID := r.1 (.exp p e)
    if refID = "" then
      match alGet st1.maps.byType (expAt W p e).core.fieldTy with
      | some _ => (st1, some (.badExport (expAt W p e).core.path))
      | none =>
        ({ st1 with maps :=
            { st1.maps with
              byType := ((expAt W p e).core.fieldTy, (p, e)) :: st1.maps.byType } },
          none)
    else
      match alGet st1.maps.byID refID with
      | some _ => (st1, some (.badExport (expAt W p e).core.path))
      | none =>
        ({ st1 with maps :=
            { st1.maps with byID := (refID, (p, e)) :: st1.maps.byID } },
          none)

/-- `filterEntry.Resolve1` (depinj.go lines 628-637). -/
def filterResolve1 (W : List PodM) (p fi : Nat) (st : R12St) : R12St × Option DErr :=
  let r := resolveRefLinkStep W p (.flt p fi) st.refIDs
  if r.2 then ({ st with refIDs := r.1 }, none)
  else ({ st with refIDs := r.1 }, some (.badFilter (fltAt W p fi).core.path))

/-- `pod.Resolve1` (depinj.go lines 205-231): imports, then exports, then
filters of one pod. -/
def podResolve1 (W : List PodM) (p : Nat) (st : R12St) : R12St × Option DErr :=
  let r1 := foldStop (List.range (podAt W p).imports.length) st
    (fun st i => importResolve1 W p i st)
  match r1.2 with
  | some _ => r1
  | none =>
    let r2 := foldStop (List.range (podAt W p).exports.length) r1.1
      (fun st e => exportResolve1 W p e st)
    match r2.2 with
    | some _ => r2
    | none =>
      foldStop (List.range (podAt W p).filters.length) r2.1
        (fun st fi => filterResolve1 W p fi st)

/-- `importEntry.Resolve2` (depinj.go lines 487-512): look the target export
up by field type (empty ref id) or by ref id, checking the field type in the
ref-id case, and record the binding. -/
def importResolve2 (W : List PodM) (p i : Nat) (st : R12St) : R12St × Option DErr :=
  let refID := st.refIDs (.imp p i)
  if refID = "" then
    match alGet st.maps.byType (impAt W p i).core.fieldTy with
    | none => (st, some (.badImport (impAt W p i).core.path))
    | some tgt => ({ st with impT := fun q j => if q = p ∧ j = i then tgt else st.impT q j }, none)
  else
    match alGet st.maps.byID refID with
    | none => (st, some (.badImport (impAt W p i).core.path))
    | some tgt =>
      if (impAt W p i).core.fieldTy = (expAt W tgt.1 tgt.2).core.fieldTy then
        ({ st with impT := fun q j => if q = p ∧ j = i then tgt else st.impT q j }, none)
      else (st, some (.badImport (impAt W p i).core.path))

/-- `filterEntry.Resolve2` (depinj.go lines 639-675): look the target export
up by the dereferenced field type (empty ref id) or by ref id with a
pointer-type check, then append the filter to the export's filter list
unless it is already present (the "ensure idempotence" guard at line 667). -/
def filterResolve2 (W : List PodM) (p fi : Nat) (st : R12St) : R12St × Option DErr :=
  let refID := st.refIDs (.flt p fi)
  let bind : ExportRef → R12St × Option DErr := fun tgt =>
    let l := st.flists tgt.1 tgt.2
    if (p, fi) ∈ l then (st, none)
    else ({ st with flists := upd2 st.flists tgt.1 tgt.2 (l ++ [(p, fi)]) }, none)
  if refID = "" then
    let fieldTy :=
      match (fltAt W p fi).core.fieldTy with
      | .ptr t => t
      | t => t
    match alGet st.maps.byType fieldTy with
    | none => (st, some (.badFilter (fltAt W p fi).core.path))
    | some tgt => bind tgt
  else
    match alGet st.maps.byID refID with
    | none => (st, some (.badFilter (fltAt W p fi).core.path))
    | some tgt =>
      if (fltAt W p fi).core.fieldTy = .ptr (expAt W tgt.1 tgt.2).core.fieldTy then
        bind tgt
      else (st, some (.badFilter (fltAt W p fi).core.path))

/-- `pod.Resolve2` (depinj.go lines 233-251): imports then filters. -/
def podResolve2 (W : List PodM) (p : Nat) (st : R12St) : R12St × Option DErr :=
  let r1 := foldStop (List.range (podAt W p).imports.length) st
    (fun st i => importResolve2 W p i st)
  match r1.2 with
  | some _ => r1
  | none =>
    foldStop (List.range (podAt W p).filters.length) r1.1
      (fun st fi => filterResolve2 W p fi st)

/-- Phases 1 and 2 over the whole pool (depinj.go lines 81-99): `Resolve1`
for every pod, then `Resolve2` for every pod, sharing one context. -/
def resolve12 (W : List PodM) (refIDs : FKey → String)
    (flists : Nat → Nat → List FilterRef) : R12St × Option DErr :=
  let st0 : R12St :=
    { refIDs := refIDs, maps := { byType := [], byID := [] },
      flists := flists, impT := fun _ _ => (0, 0) }
  let r1 := foldStop (List.range W.length) st0 (fun st p => podResolve1 W p st)
  match r1.2 with
  | some _ => r1
  | none => foldStop (List.range W.length) r1.1 (fun st p => podResolve2 W p st)

/-! ### Resolution phase 3 (depinj.go lines 253-254, 356-397, 716-803) -/

/-- `resolution3PodState` (depinj.go lines 163-166): the zero value of the
`podStates` map means unvisited. -/
inductive PState where
  | unvisited
  | entered
  | left
deriving DecidableEq, Repr

/-- `resolution3StackFrame` (depinj.go lines 797-801). -/
structure Frame where
  pod : Nat
  target : String
  active : String
deriving DecidableEq, Repr

/-- State of the phase-3 traversal: the (mutable) filter lists, the
`podStates` map, the explicit frame stack (top at the head), and the
completion order built by `AppendPod` (Go links pods into a doubly linked
`Next`/`Prev` chain; the chain is exactly this append-order list). -/
structure R3 where
  flists : Nat → Nat → List FilterRef
  pstates : Nat → PState
  stack : List Frame
  order : List Nat

/-- The static view of the pool that `doResolve3` traverses, computed from
the pods and the phase-2 import bindings: for each pod its import edges
(import path, target pod, target export path), its exports (index and path),
and each filter's priority and path. -/
structure R3Cfg where
  n : Nat
  imps : Nat → List (String × Nat × String)
  exps : Nat → List (Nat × String)
  fprio : FilterRef → Int
  fpath : FilterRef → String

/-- Build the phase-3 view from the pods and the phase-2 import targets. -/
def mkCfg (W : List PodM) (impT : Nat → Nat → ExportRef) : R3Cfg where
  n := W.length
  imps := fun p =>
    ((podAt W p).imports.enum).map fun ie =>
      (ie.2.core.path, (impT p ie.1).1,
        (expAt W (impT p ie.1).1 (impT p ie.1).2).core.path)
  exps := fun p => ((podAt W p).exports.enum).map fun ee => (ee.1, ee.2.core.path)
  fprio := fun f => (fltAt W f.1 f.2).priority
  fpath := fun f => (fltAt W f.1 f.2).core.path

/-- `resolution3Context.EnterPod` (depinj.go lines 729-738): push a frame and
mark the pod entered.  (Go also returns the previous state; callers here
read it from the pre-state.) -/
def enterPod (st : R3) (p : Nat) (target : String) : R3 :=
  { st with
    stack := { pod := p, target := target, active := "" } :: st.stack
    pstates := upd st.pstates p .entered }

/-- `resolution3Context.LeavePod` (depinj.go lines 740-744): pop the top
frame and mark its pod left. -/
def leavePod (st : R3) : R3 :=
  match st.stack with
  | [] => st
  | f :: rest => { st with stack := rest, pstates := upd st.pstates f.pod .left }

/-- `resolution3Context.SetActiveEntryPath` (depinj.go lines 746-748). -/
def setActive (st : R3) (path : String) : R3 :=
  match st.stack with
  | [] => st
  | f :: rest => { st with stack := { f with active := path } :: rest }

/-- Rendering of one stack frame inside `DumpStack` (depinj.go lines
758-771): the triggering-entry path, then `" ... "` if both are nonempty,
then the active-entry path. -/
def frameStr (f : Frame) : String :=
  (if f.target = "" then "" else f.target) ++
    (if f.target ≠ "" ∧ f.active ≠ "" then " ... " else "") ++
    (if f.active = "" then "" else f.active)

/-- `resolution3Context.DumpStack` (depinj.go lines 750-775): frames bottom
to top, joined by `" ==> "`. -/
def dumpStack (st : R3) : String :=
  String.intercalate " ==> " (st.stack.reverse.map frameStr)

/-- `resolution3Context.AppendPod` (depinj.go lines 777-787): link the pod at
the end of the completion order. -/
def appendPod (st : R3) (p : Nat) : R3 :=
  { st with order := st.order ++ [p] }

/-- The import loop of `pod.doResolve3` (depinj.go lines 365-373): set the
active entry path to the import's path and recurse into the target export's
pod.  `rec` is the recursive call at the remaining fuel. -/
def r3Imports (C : R3Cfg) (rec : R3 → Nat → String → R3 × Option DErr)
    (st : R3) (p : Nat) : R3 × Option DErr :=
  foldStop (C.imps p) st fun st ed => rec (setActive st ed.1) ed.2.1 ed.2.2

/-- The inner filter loop of `pod.doResolve3` (depinj.go lines 383-391):
recurse into each filter's owner pod, skipping filters owned by `p` itself. -/
def r3Filters (C : R3Cfg) (rec : R3 → Nat → String → R3 × Option DErr)
    (st : R3) (p : Nat) (l : List FilterRef) : R3 × Option DErr :=
  foldStop l st fun st f => if f.1 = p then (st, none) else rec st f.1 (C.fpath f)

/-- One iteration of the export loop of `pod.doResolve3` (depinj.go lines
375-392): set the active entry path, sort the export's filter list in place
(the `sort.Slice` call), then run the filter loop over the sorted list. -/
def r3ExpStep (C : R3Cfg) (rec : R3 → Nat → String → R3 × Option DErr)
    (p : Nat) (st : R3) (ep : Nat × String) : R3 × Option DErr :=
  let st1 := setActive st ep.2
  let sorted := sortFilters C.fprio (st1.flists p ep.1)
  let st2 := { st1 with flists := upd2 st1.flists p ep.1 sorted }
  r3Filters C rec st2 p sorted

/-- The export loop of `pod.doResolve3` (depinj.go lines 375-392). -/
def r3Exports (C : R3Cfg) (rec : R3 → Nat → String → R3 × Option DErr)
    (st : R3) (p : Nat) : R3 × Option DErr :=
  foldStop (C.exps p) st (r3ExpStep C rec p)

/-- The body of `pod.doResolve3` once the pod is found unvisited: imports
loop, exports loop, then `LeavePod` and `AppendPod` (depinj.go lines
365-396). -/
def r3Body (C : R3Cfg) (rec : R3 → Nat → String → R3 × Option DErr)
    (st : R3) (p : Nat) : R3 × Option DErr :=
  let r1 := r3Imports C rec st p
  match r1.2 with
  | some _ => r1
  | none =>
    let r2 := r3Exports C rec r1.1 p
    match r2.2 with
    | some _ => r2
    | none => (appendPod (leavePod r2.1) p, none)

/-- `pod.doResolve3` (depinj.go lines 356-397).  Entering a pod already
left pops the frame again and returns; entering a pod already on the stack
is the terminal `CircularDependency` error carrying `DumpStack`; otherwise
the body runs.  The Go recursion carries no fuel; here one fuel unit is
consumed per body so that the recursion is structural, and the supplied
fuel exceeds the number of unvisited pods (see `doResolve3_no_fuelOut`). -/
def doResolve3 (C : R3Cfg) : Nat → R3 → Nat → String → R3 × Option DErr
  | fuel, st, p, target =>
    let st1 := enterPod st p target
    match st.pstates p with
    | .left => (leavePod st1, none)
    | .entered => (st1, some (.circular (dumpStack st1)))
    | .unvisited =>
      match fuel with
      | 0 => (st1, some .fuelOut)
      | Nat.succ f => r3Body C (fun st q t => doResolve3 C f st q t) st1 p

/-- The phase-3 pool loop (depinj.go lines 101-111): `pod.Resolve3` — that
is, `doResolve3` with an empty target entry path — for every pod in
registration order. -/
def r3Pool (C : R3Cfg) (fuel : Nat) (st : R3) : R3 × Option DErr :=
  foldStop (List.range C.n) st fun st p => doResolve3 C fuel st p ""

/-- The fresh phase-3 context (depinj.go line 102) over given filter lists. -/
def initR3 (flists : Nat → Nat → List FilterRef) : R3 where
  flists := flists
  pstates := fun _ => .unvisited
  stack := []
  order := []

/-- Phase 3 end to end: fresh context, pool loop.  Fuel `C.n + 1` strictly
exceeds the number of unvisited pods, so the fuel marker is unreachable. -/
def resolve3 (C : R3Cfg) (flists : Nat → Nat → List FilterRef) : R3 × Option DErr :=
  r3Pool C (C.n + 1) (initR3 flists)

/-- The output of a successful `PodPool.resolve`: the import bindings and
the completion order (`firstPod`..`lastPod` chain). -/
structure Resolved where
  impT : Nat → Nat → ExportRef
  order : List Nat

/-- `PodPool.resolve` (depinj.go lines 80-117): phases 1-2, then phase 3 on
a fresh context; `firstPod`/`lastPod` (the `linked` order) are set only when
all three phases succeed, while the in-place mutations of the entries (ref
ids, filter lists) persist even when resolution fails. -/
def resolve (W : List PodM) (ps : PoolSt) : PoolSt × Except DErr Resolved :=
  let r12 := resolve12 W ps.refIDs ps.flists
  match r12.2 with
  | some e =>
    ({ ps with refIDs := r12.1.refIDs, flists := r12.1.flists }, .error e)
  | none =>
    let r3 := resolve3 (mkCfg W r12.1.impT) r12.1.flists
    match r3.2 with
    | some e =>
      ({ ps with refIDs := r12.1.refIDs, flists := r3.1.flists }, .error e)
    | none =>
      let ps1 :=
        { ps with refIDs := r12.1.refIDs, flists := r3.1.flists,
                  linked := some r3.1.order }
      (ps1, .ok { impT := r12.1.impT, order := r3.1.order })

/-! ### Lifecycle: setup and teardown (depinj.go lines 42-78, 257-308) -/

/-- `pod.TearDown` (depinj.go lines 291-308): invoke the teardown hook, then
zero every import, export and filter field of the pod. -/
def podTearDown (W : List PodM) (p : Nat) (ps : PoolSt) : PoolSt :=
  let ps1 := { ps with events := Ev.teardownHook p :: ps.events }
  let f1 := (List.range (podAt W p).imports.length).foldl
    (fun f i => upd f (FKey.imp p i) (zeroOf (impAt W p i).core.fieldTy)) ps1.fields
  let f2 := (List.range (podAt W p).exports.length).foldl
    (fun f e => upd f (FKey.exp p e) (zeroOf (expAt W p e).core.fieldTy)) f1
  let f3 := (List.range (podAt W p).filters.length).foldl
    (fun f fi => upd f (FKey.flt p fi) (zeroOf (fltAt W p fi).core.fieldTy)) f2
  { ps1 with fields := f3 }

/-- One export's filter phase inside `pod.SetUp` (depinj.go lines 274-286):
write the export field's address into every attached filter field, then
invoke each filter hook in list order, feeding the export value through. -/
def runFilters (W : List PodM) (p e : Nat) (l : List FilterRef) (ps : PoolSt) :
    PoolSt × Option DErr :=
  let fields1 := l.foldl (fun f fr => upd f (FKey.flt fr.1 fr.2) (Val.ptrV p e)) ps.fields
  foldStop l { ps with fields := fields1 } fun ps fr =>
    let ps1 := { ps with events := Ev.filterHook fr.1 fr.2 :: ps.events }
    match (fltAt W fr.1 fr.2).hook ps1.fields (ps1.fields (FKey.exp p e)) with
    | .error m => (ps1, some (.filterFailed p m))
    | .ok v => ({ ps1 with fields := upd ps1.fields (FKey.exp p e) v }, none)

/-- `pod.SetUp` (depinj.go lines 257-289): copy each import's resolved
export value into the import field, invoke the setup hook (its error is
returned wrapped, with no self-teardown), apply the hook's export-field
initializations, then run the filter phase export by export; a filter hook
error tears this pod down (the deferred call at lines 268-272) and is
returned wrapped. -/
def podSetUp (W : List PodM) (impT : Nat → Nat → ExportRef) (p : Nat)
    (ps : PoolSt) : PoolSt × Option DErr :=
  let fields1 := (List.range (podAt W p).imports.length).foldl
    (fun f i =>
      upd f (FKey.imp p i) (f (FKey.exp (impT p i).1 (impT p i).2))) ps.fields
  let ps1 := { ps with fields := fields1, events := Ev.setupHook p :: ps.events }
  match (podAt W p).setupHook ps1.fields with
  | .error m => (ps1, some (.setupFailed p m))
  | .ok upds =>
    let fields2 := upds.foldl (fun f ev => upd f (FKey.exp p ev.1) ev.2) ps1.fields
    let ps2 := { ps1 with fields := fields2 }
    let r := foldStop (List.range (podAt W p).exports.length) ps2
      (fun ps e => runFilters W p e (ps.flists p e) ps)
    match r.2 with
    | some e => (podTearDown W p r.1, some e)
    | none => r

/-- The setup loop of `PodPool.SetUp` with its deferred rollback (depinj.go
lines 47-61): pods are set up along the linked order; on failure every pod
before the failing one (`done`, most recent first, exactly the `Prev` walk)
is torn down. -/
def poolSetupLoop (W : List PodM) (impT : Nat → Nat → ExportRef) :
    List Nat → List Nat → PoolSt → PoolSt × Option DErr
  | _, [], ps => (ps, none)
  | done, p :: rest, ps =>
    let r := podSetUp W impT p ps
    match r.2 with
    | none => poolSetupLoop W impT (p :: done) rest r.1
    | some e => (done.foldl (fun ps q => podTearDown W q ps) r.1, some e)

/-- `PodPool.SetUp` (depinj.go lines 42-64): resolve, then run the setup
loop over the computed order. -/
def poolSetUp (W : List PodM) (ps : PoolSt) : PoolSt × Option DErr :=
  let r := resolve W ps
  match r.2 with
  | .error e => (r.1, some e)
  | .ok res => poolSetupLoop W res.impT [] res.order r.1

/-- `PodPool.TearDown` (depinj.go lines 74-78): walk backward from the
current `lastPod`, tearing each pod down; a `nil` tail (no successful
resolution yet) makes this a no-op. -/
def poolTearDown (W : List PodM) (ps : PoolSt) : PoolSt :=
  match ps.linked with
  | none => ps
  | some L => L.reverse.foldl (fun ps p => podTearDown W p ps) ps

/-! ### Parsing a raw pod (depinj.go lines 180-203, 310-354, 422-435,
461-474, 524-537, 573-626)

The descriptor extractor walks the pod struct's fields.  A field is either
an anonymous (embedded) struct — recursed into, with the recursive call's
error DISCARDED (depinj.go line 321) — or a plain field carrying at most one
entry tag.  `RawFieldSpec` records what the reflective checks of the three
`ParseField` methods inspect: the tag kind and its comma-split arguments,
whether the field is unexported (`PkgPath != ""`), the field type, and for
filters whether the named method exists and has the signature
`func(context.Context) error`.  `strconv.Atoi` is modelled by
`String.toInt?`. -/

/-- Which entry tag a field carries (`import:"..."` etc.). -/
inductive TagKind where
  | importTag
  | exportTag
  | filterTag
deriving DecidableEq, Repr

/-- A plain struct field as the descriptor extractor sees it. -/
structure RawFieldSpec where
  name : String
  ty : Ty
  tag : Option (TagKind × List String)
  unexported : Bool
  methodDefined : Bool
  methodTyOk : Bool
deriving DecidableEq, Repr

/-- A struct field: embedded anonymous struct (with its own field name and
inner fields) or a plain field. -/
inductive RawField where
  | anon : String → List RawField → RawField
  | plain : RawFieldSpec → RawField
deriving Repr

/-- Entries accumulated into the pod's three entry slices
(`p.ImportEntries` etc.) while parsing. -/
structure ParsedPod where
  imps : List EntryCore
  exps : List EntryCore
  flts : List (EntryCore × Int)
deriving DecidableEq, Repr

/-- One parsed entry, before it is appended to its slice. -/
inductive PEntry where
  | imp : EntryCore → PEntry
  | exp : EntryCore → PEntry
  | flt : EntryCore → Int → PEntry
deriving DecidableEq, Repr

/-- Append a parsed entry to its slice. -/
def ParsedPod.add (acc : ParsedPod) : PEntry → ParsedPod
  | .imp c => { acc with imps := acc.imps ++ [c] }
  | .exp c => { acc with exps := acc.exps ++ [c] }
  | .flt c pr => { acc with flts := acc.flts ++ [(c, pr)] }

/-- The three `ParseField` methods tried in order on one plain field
(depinj.go lines 325-350 calling 461-474, 524-537, 573-626): `none` when the
field carries no entry tag, an entry on success, or a parse error. -/
def parseField (path : String) (s : RawFieldSpec) : Except DErr (Option PEntry) :=
  match s.tag with
  | none => .ok none
  | some (.importTag, args) =>
    if s.unexported then .error (.badImport path)
    else .ok (some (.imp { path := path, refID := args.headD "", fieldTy := s.ty }))
  | some (.exportTag, args) =>
    if s.unexported then .error (.badExport path)
    else .ok (some (.exp { path := path, refID := args.headD "", fieldTy := s.ty }))
  | some (.filterTag, args) =>
    if s.unexported then .error (.badFilter path)
    else
      match s.ty with
      | .base _ => .error (.badFilter path)
      | .ptr _ =>
        if args.length < 2 then .error (.badFilter path)
        else if ¬s.methodDefined then .error (.badFilter path)
        else if ¬s.methodTyOk then .error (.badFilter path)
        else if args.length < 3 then .error (.badFilter path)
        else
          match (args.getD 2 "").toInt? with
          | none => .error (.badFilter path)
          | some pr =>
            .ok (some (.flt { path := path, refID := args.headD "", fieldTy := s.ty } pr))

/-- `pod.parseStructure` (depinj.go lines 310-354).  For an anonymous struct
field the code calls itself recursively WITHOUT checking the returned error
(line 321): entries appended before the failing inner field survive, the
rest of the embedded group is dropped, and the outer loop continues.  A
plain field's parse error is returned. -/
def parseStructure (pre : String) :
    List RawField → ParsedPod → ParsedPod × Option DErr
  | [], acc => (acc, none)
  | .anon nm fs :: rest, acc =>
    let r := parseStructure (pre ++ "." ++ nm) fs acc
    parseStructure pre rest r.1
  | .plain s :: rest, acc =>
    match parseField (pre ++ "." ++ s.name) s with
    | .error e => (acc, some e)
    | .ok none => parseStructure pre rest acc
    | .ok (some pe) => parseStructure pre rest (acc.add pe)

/-- `pod.ParseRaw` (depinj.go lines 180-203) from the struct walk on: parse
the structure (a top-level error propagates), then reject a pod with zero
entries.  (The non-pointer / non-struct shape checks precede the walk and
are not modelled.) -/
def podParseRaw (tyName : String) (fields : List RawField) :
    Except DErr ParsedPod :=
  match parseStructure tyName fields { imps := [], exps := [], flts := [] } with
  | (_, some e) => .error e
  | (acc, none) =>
    if acc.imps.length + acc.exps.length + acc.flts.length = 0 then
      .error (.invalidPod tyName)
    else .ok acc

/-! ### Spec-level predicates -/

/-- One setup-then-teardown round on the pool (`SetUp` then `TearDown`). -/
def poolRound (W : List PodM) (ps : PoolSt) : PoolSt × Option DErr :=
  let r := poolSetUp W ps
  (poolTearDown W r.1, r.2)

/-- Iterated setup-teardown rounds. -/
def poolRounds (W : List PodM) : Nat → PoolSt → PoolSt
  | 0, ps => ps
  | k + 1, ps => poolRounds W k (poolRound W ps).1

/-- The dependency relation of the spec: pod `p` depends on pod `q` when
an import of `p` resolves to an export of `q` (an import edge of the
phase-3 view), or an export of `p` carries a filter owned by `q ≠ p`. -/
def depOn (C : R3Cfg) (fl : Nat → Nat → List FilterRef) (p q : Nat) : Prop :=
  (∃ ed ∈ C.imps p, ed.2.1 = q) ∨
    (∃ ep ∈ C.exps p, ∃ fi, (q, fi) ∈ fl p ep.1 ∧ q ≠ p)

/-- `L` is a topological order for the dependency relation: wherever a pod
occurs in `L`, every pod it depends on occurs strictly earlier. -/
def TopoOrd (C : R3Cfg) (fl : Nat → Nat → List FilterRef) (L : List Nat) : Prop :=
  ∀ l1 p l2, L = l1 ++ p :: l2 → ∀ q, depOn C fl p q → q ∈ l1

/-- `l` lists the pods of a dependency cycle: it is nonempty and each pod
depends on the next, cyclically. -/
def IsDepCycle (C : R3Cfg) (fl : Nat → Nat → List FilterRef) (l : List Nat) : Prop :=
  l ≠ [] ∧ List.Chain' (depOn C fl) (l ++ [l.headD 0])

/-- The dependency relation contains a cycle. -/
def HasDepCycle (C : R3Cfg) (fl : Nat → Nat → List FilterRef) : Prop :=
  ∃ l, IsDepCycle C fl l

/-- Well-formed phase-3 view: every dependency edge stays inside the pool
(phase 2 only ever binds to registered exports and filters of pool pods). -/
def WfDeps (C : R3Cfg) (fl : Nat → Nat → List FilterRef) : Prop :=
  ∀ p q, depOn C fl p q → q < C.n

/-- Filter lists in (weakly) descending priority order. -/
def PairwiseGe (C : R3Cfg) (l : List FilterRef) : Prop :=
  List.Pairwise (fun a b => C.fprio b ≤ C.fprio a) l

/-- Number of pool pods the traversal has not visited yet. -/
def UVcount (C : R3Cfg) (st : R3) : Nat :=
  ((List.range C.n).filter fun q => st.pstates q = .unvisited).length

/-- The traversal invariant of phase 3, relative to the phase-3 view `C`
and the filter lists `fl0` it started from:
* filter lists keep the same members (sorting permutes in place);
* the completion order holds exactly the pods marked left, without
  duplicates, and is topologically ordered;
* consecutive stack frames are linked by dependency edges (each frame's pod
  depends on the pod of the frame above it);
* a pod is marked entered exactly while a frame for it is on the stack, and
  stack pods are distinct;
* every export's filter list of a left pod is in descending priority order. -/
structure R3Inv (C : R3Cfg) (fl0 : Nat → Nat → List FilterRef) (st : R3) : Prop where
  mem : ∀ p e x, x ∈ st.flists p e ↔ x ∈ fl0 p e
  orderLeft : ∀ p, p ∈ st.order ↔ st.pstates p = .left
  nodup : st.order.Nodup
  topo : TopoOrd C fl0 st.order
  chain : List.Chain' (fun f g => depOn C fl0 g.pod f.pod) st.stack
  onStack : ∀ q, st.pstates q = .entered ↔ q ∈ st.stack.map Frame.pod
  stackNodup : (st.stack.map Frame.pod).Nodup
  leftSorted : ∀ p, st.pstates p = .left →
    ∀ ep ∈ C.exps p, PairwiseGe C (st.flists p ep.1)

/-- States only progress: no pod returns to unvisited. -/
def Mono (st st' : R3) : Prop :=
  ∀ q, st.pstates q ≠ .unvisited → st'.pstates q ≠ .unvisited

/-- Pods already left stay left. -/
def LeftM (st st' : R3) : Prop :=
  ∀ q, st.pstates q = .left → st'.pstates q = .left

/-- Filter-list rows of pods already visited are untouched. -/
def RowsU (st st' : R3) : Prop :=
  ∀ r, st.pstates r ≠ .unvisited → ∀ e, st'.flists r e = st.flists r e

/-- Filter-list rows of visited pods other than `p` are untouched. -/
def RowsUX (p : Nat) (st st' : R3) : Prop :=
  ∀ r, r ≠ p → st.pstates r ≠ .unvisited → ∀ e, st'.flists r e = st.flists r e

/-- Precondition of a `doResolve3` call: the target pod is in the pool and,
unless the call is a phase-3 root, the caller's pod (the top stack frame)
depends on the target. -/
def CallOK (C : R3Cfg) (fl0 : Nat → Nat → List FilterRef) (st : R3) (p : Nat) : Prop :=
  p < C.n ∧
    (st.stack = [] ∨ ∃ fr rest, st.stack = fr :: rest ∧ depOn C fl0 fr.pod p)

/-- Postcondition of a successful `doResolve3 p` call: the invariant is
preserved, `p` ends up left, the stack is restored, states and rows only
progress, and the completion order is extended. -/
def OkPost (C : R3Cfg) (fl0 : Nat → Nat → List FilterRef)
    (st : R3) (p : Nat) (st' : R3) : Prop :=
  R3Inv C fl0 st' ∧ st'.pstates p = .left ∧ st'.stack = st.stack ∧
    Mono st st' ∧ LeftM st st' ∧ RowsU st st' ∧ st.order <+: st'.order

/-- Postcondition of a failing phase-3 step: either the fuel marker — in
which case the fuel was at most the number of unvisited pods — or a
`CircularDependency` error, in which case the dependency relation really
has a cycle. -/
def ErrPost (C : R3Cfg) (fl0 : Nat → Nat → List FilterRef)
    (fuel : Nat) (st : R3) (e : DErr) : Prop :=
  (e = .fuelOut ∧ fuel < UVcount C st) ∨
    (∃ tr, e = .circular tr) ∧ HasDepCycle C fl0

/-- Induction package for the recursive call handed to the phase-3 loops. -/
def RecOK (C : R3Cfg) (fl0 : Nat → Nat → List FilterRef) (fuel : Nat)
    (rec : R3 → Nat → String → R3 × Option DErr) : Prop :=
  ∀ st p t, R3Inv C fl0 st → CallOK C fl0 st p →
    Mono st (rec st p t).1 ∧
    ((rec st p t).2 = none → OkPost C fl0 st p (rec st p t).1) ∧
    (∀ e, (rec st p t).2 = some e → ErrPost C fl0 fuel st e)

/-! ### Concrete pools used by witnesses and counterexamples -/

/-- Greeting scenario, pod A: exports the string `"Hi!"` under the
identifier `"the_greeting"`. -/
def gA : PodM where
  resolveRefLink := fun _ => none
  setupHook := fun _ => .ok [(0, .strV "Hi!")]
  imports := []
  exports := [{ core := { path := "A.G", refID := "the_greeting", fieldTy := .base "string" } }]
  filters := []

/-- Greeting scenario, pod B: imports `"the_greeting"`. -/
def gB : PodM where
  resolveRefLink := fun _ => none
  setupHook := fun _ => .ok []
  imports := [{ core := { path := "B.G", refID := "the_greeting", fieldTy := .base "string" } }]
  exports := []
  filters := []

/-- Greeting scenario, pod C: filters `"the_greeting"` at priority 0,
appending `" Jack!"`. -/
def gC : PodM where
  resolveRefLink := fun _ => none
  setupHook := fun _ => .ok []
  imports := []
  exports := []
  filters := [{ core := { path := "C.F", refID := "the_greeting", fieldTy := .ptr (.base "string") },
                priority := 0,
                hook := fun _ v =>
                  match v with
                  | .strV s => .ok (.strV (s ++ " Jack!"))
                  | _ => .error "not a string" }]

/-- The greeting pool of the spec scenario. -/
def gPool : List PodM := [gA, gB, gC]

/-- Pod exporting the int 10 under id `"x"`. -/
def eqX : PodM where
  resolveRefLink := fun _ => none
  setupHook := fun _ => .ok [(0, .intV 10)]
  imports := []
  exports := [{ core := { path := "X.v", refID := "x", fieldTy := .base "int" } }]
  filters := []

/-- Filter pod on `"x"` at priority 0 adding 1. -/
def eqF1 : PodM where
  resolveRefLink := fun _ => none
  setupHook := fun _ => .ok []
  imports := []
  exports := []
  filters := [{ core := { path := "F1.f", refID := "x", fieldTy := .ptr (.base "int") },
                priority := 0,
                hook := fun _ v =>
                  match v with
                  | .intV n => .ok (.intV (n + 1))
                  | _ => .error "not an int" }]

/-- Filter pod on `"x"` at priority 0 doubling. -/
def eqF2 : PodM where
  resolveRefLink := fun _ => none
  setupHook := fun _ => .ok []
  imports := []
  exports := []
  filters := [{ core := { path := "F2.f", refID := "x", fieldTy := .ptr (.base "int") },
                priority := 0,
                hook := fun _ v =>
                  match v with
                  | .intV n => .ok (.intV (n * 2))
                  | _ => .error "not an int" }]

/-- Pod importing `"x"`. -/
def eqB : PodM where
  resolveRefLink := fun _ => none
  setupHook := fun _ => .ok []
  imports := [{ core := { path := "B.v", refID := "x", fieldTy := .base "int" } }]
  exports := []
  filters := []

/-- Pool with two equal-priority filters on one export: their order is
sensitive to the non-strict sort comparator. -/
def eqPool : List PodM := [eqX, eqF1, eqF2, eqB]

/-- A pod importing its own export: the smallest circular wiring. -/
def sPod : PodM where
  resolveRefLink := fun _ => none
  setupHook := fun _ => .ok []
  imports := [{ core := { path := "S.i", refID := "s", fieldTy := .base "int" } }]
  exports := [{ core := { path := "S.e", refID := "s", fieldTy := .base "int" } }]
  filters := []

/-- Pool with the self-import cycle. -/
def sPool : List PodM := [sPod]

/-- Cycle-behind-equal-priority-filters, pod A: plain export `"a"`. -/
def cA : PodM where
  resolveRefLink := fun _ => none
  setupHook := fun _ => .ok []
  imports := []
  exports := [{ core := { path := "A.e", refID := "a", fieldTy := .base "int" } }]
  filters := []

/-- Pod B: filters `"a"`, imports `"c"`, exports `"b"`. -/
def cB : PodM where
  resolveRefLink := fun _ => none
  setupHook := fun _ => .ok []
  imports := [{ core := { path := "B.i", refID := "c", fieldTy := .base "int" } }]
  exports := [{ core := { path := "B.e", refID := "b", fieldTy := .base "int" } }]
  filters := [{ core := { path := "B.f", refID := "a", fieldTy := .ptr (.base "int") },
                priority := 0, hook := fun _ v => .ok v }]

/-- Pod C: filters `"a"`, imports `"b"`, exports `"c"`: B and C form
an import cycle reached through A's two equal-priority filters. -/
def cC : PodM where
  resolveRefLink := fun _ => none
  setupHook := fun _ => .ok []
  imports := [{ core := { path := "C.i", refID := "b", fieldTy := .base "int" } }]
  exports := [{ core := { path := "C.e", refID := "c", fieldTy := .base "int" } }]
  filters := [{ core := { path := "C.f", refID := "a", fieldTy := .ptr (.base "int") },
                priority := 0, hook := fun _ v => .ok v }]

/-- Pool whose cycle is reached through two equal-priority filters. -/
def cPool : List PodM := [cA, cB, cC]

/-- Pod whose setup hook fails. -/
def hD : PodM where
  resolveRefLink := fun _ => none
  setupHook := fun _ => .error "boom"
  imports := []
  exports := [{ core := { path := "D.e", refID := "d", fieldTy := .base "int" } }]
  filters := []

/-- One-pod pool that resolves fine but fails in its setup hook. -/
def hPool : List PodM := [hD]

/-- Pod exporting int `"f"` with value 7. -/
def fA : PodM where
  resolveRefLink := fun _ => none
  setupHook := fun _ => .ok [(0, .intV 7)]
  imports := []
  exports := [{ core := { path := "FA.e", refID := "f", fieldTy := .base "int" } }]
  filters := []

/-- Pod importing `"f"` whose setup hook fails. -/
def fB : PodM where
  resolveRefLink := fun _ => none
  setupHook := fun _ => .error "boom"
  imports := [{ core := { path := "FB.i", refID := "f", fieldTy := .base "int" } }]
  exports := []
  filters := []

/-- Two-pod pool whose second pod fails during setup (rollback scenario). -/
def fPool : List PodM := [fA, fB]

/-- Pod with a filter on a nonexistent identifier (resolution fails). -/
def nfPod : PodM where
  resolveRefLink := fun _ => none
  setupHook := fun _ => .ok []
  imports := []
  exports := [{ core := { path := "NF.e", refID := "e", fieldTy := .base "int" } }]
  filters := [{ core := { path := "NF.f", refID := "nope", fieldTy := .ptr (.base "int") },
                priority := 0, hook := fun _ v => .ok v }]

/-- Pool failing resolution with a filter-not-found error. -/
def nfPool : List PodM := [nfPod]

/-- Bare-type export: exports an `int` by type with value 1. -/
def bX : PodM where
  resolveRefLink := fun _ => none
  setupHook := fun _ => .ok [(0, .intV 1)]
  imports := []
  exports := [{ core := { path := "BX.e", refID := "", fieldTy := .base "int" } }]
  filters := []

/-- Filter by bare type on the `int` export, adding 1. -/
def bF : PodM where
  resolveRefLink := fun _ => none
  setupHook := fun _ => .ok []
  imports := []
  exports := []
  filters := [{ core := { path := "BF.f", refID := "", fieldTy := .ptr (.base "int") },
                priority := 0,
                hook := fun _ v =>
                  match v with
                  | .intV n => .ok (.intV (n + 1))
                  | _ => .error "not an int" }]

/-- Bare-type import of the `int` export. -/
def bB : PodM where
  resolveRefLink := fun _ => none
  setupHook := fun _ => .ok []
  imports := [{ core := { path := "BB.i", refID := "", fieldTy := .base "int" } }]
  exports := []
  filters := []

/-- Pool where A exports by bare type, a filter mutates the value, and B
imports by bare type. -/
def bPool : List PodM := [bX, bF, bB]

/-- A valid export field inside the embedded group. -/
def c10good : RawFieldSpec where
  name := "G"
  ty := .base "int"
  tag := some (.exportTag, ["g"])
  unexported := false
  methodDefined := false
  methodTyOk := false

/-- An invalid (unexported) import field inside the embedded group. -/
def c10bad : RawFieldSpec where
  name := "bad"
  ty := .base "int"
  tag := some (.importTag, ["b"])
  unexported := true
  methodDefined := false
  methodTyOk := false

/-- A second valid export field, after the invalid one. -/
def c10good2 : RawFieldSpec where
  name := "H"
  ty := .base "string"
  tag := some (.exportTag, ["h"])
  unexported := false
  methodDefined := false
  methodTyOk := false

/-- A pod struct whose only fields sit in an embedded group containing an
invalid entry between two valid ones. -/
def c10fields : List RawField :=
  [.anon "E" [.plain c10good, .plain c10bad, .plain c10good2]]

/-! ### Derived notions used by the pool-level theorems -/

/-- The pod a field key belongs to. -/
def FKey.podOf : FKey → Nat
  | .imp p _ => p
  | .exp p _ => p
  | .flt p _ => p

/-- The successful prefix of the setup loop: the pool state reached after
setting the listed pods up in order, `none` as soon as one fails. -/
def setupSeq (W : List PodM) (impT : Nat → Nat → ExportRef) :
    List Nat → PoolSt → Option PoolSt
  | [], ps => some ps
  | p :: rest, ps =>
    let r := podSetUp W impT p ps
    match r.2 with
    | none => setupSeq W impT rest r.1
    | some _ => none

/-- Position of the first occurrence of `q` in `L` (`L.length` when absent):
the rank function of the topological-order argument. -/
def rankIn : List Nat → Nat → Nat
  | [], _ => 0
  | a :: t, q => if a = q then 0 else rankIn t q + 1

/-- A two-pod acyclic phase-3 view: pod 1 imports pod 0's export, no
filters. -/
def wCfg : R3Cfg where
  n := 2
  imps := fun p => if p = 1 then [("B.i", 0, "A.e")] else []
  exps := fun p => if p = 0 then [(0, "A.e")] else []
  fprio := fun _ => 0
  fpath := fun _ => ""

/-- Empty filter lists. -/
def wFl : Nat → Nat → List FilterRef := fun _ _ => []

/-- A two-pod cyclic phase-3 view: pods 0 and 1 import each other. -/
def wcCfg : R3Cfg where
  n := 2
  imps := fun p =>
    if p = 0 then [("A.i", 1, "B.e")]
    else if p = 1 then [("B.i", 0, "A.e")] else []
  exps := fun _ => []
  fprio := fun _ => 0
  fpath := fun _ => ""

/-- The phase-1/2 context computed on the greeting pool. -/
def gR12 : R12St :=
  (resolve12 gPool (initPoolSt gPool).refIDs (initPoolSt gPool).flists).1

/-- The phase-3 view of the greeting pool. -/
def gCfg : R3Cfg := mkCfg gPool gR12.impT

/-! ## Supporting lemmas -/

theorem upd_same [DecidableEq α] (f : α → β) (k : α) (v : β) : upd f k v k = v := by
  simp [upd]

theorem upd_other [DecidableEq α] (f : α → β) (k x : α) (v : β) (h : x ≠ k) :
    upd f k v x = f x := by
  simp [upd, h]

theorem upd2_same (f : Nat → Nat → List FilterRef) (p e : Nat) (v : List FilterRef) :
    upd2 f p e v p e = v := by
  simp [upd2]

theorem upd2_other (f : Nat → Nat → List FilterRef) (p e q d : Nat)
    (v : List FilterRef) (h : ¬(q = p ∧ d = e)) : upd2 f p e v q d = f q d := by
  simp only [upd2, if_neg h]

theorem insertFilter_perm (pri : FilterRef → Int) (x : FilterRef) (l : List FilterRef) :
    (insertFilter pri x l).Perm (x :: l) := by
  induction l with
  | nil => exact List.Perm.refl _
  | cons y ys ih =>
    by_cases h : pri x ≥ pri y
    · simp [insertFilter, h]
    · simp only [insertFilter, if_neg h]
      exact (ih.cons y).trans (List.Perm.swap x y ys)

theorem sortFilters_aux_perm (pri : FilterRef → Int) (l acc : List FilterRef) :
    (l.foldl (fun acc x => insertFilter pri x acc) acc).Perm (acc ++ l) := by
  induction l generalizing acc with
  | nil => simp
  | cons x xs ih =>
    simp only [List.foldl_cons]
    refine (ih (insertFilter pri x acc)).trans ?_
    refine (((insertFilter_perm pri x acc).append_right xs).trans ?_)
    simpa using (@List.perm_middle _ x acc xs).symm

theorem sortFilters_perm (pri : FilterRef → Int) (l : List FilterRef) :
    (sortFilters pri l).Perm l := by
  simpa using sortFilters_aux_perm pri l []

theorem sortFilters_mem (pri : FilterRef → Int) (l : List FilterRef) (x : FilterRef) :
    x ∈ sortFilters pri l ↔ x ∈ l :=
  (sortFilters_perm pri l).mem_iff

theorem sortFilters_countP (pri : FilterRef → Int) (l : List FilterRef)
    (P : FilterRef → Bool) : (sortFilters pri l).countP P = l.countP P :=
  (sortFilters_perm pri l).countP_eq P

theorem insertFilter_pairwiseGe (pri : FilterRef → Int) (x : FilterRef)
    (l : List FilterRef) (h : l.Pairwise fun a b => pri b ≤ pri a) :
    (insertFilter pri x l).Pairwise fun a b => pri b ≤ pri a := by
  induction l with
  | nil => simp [insertFilter]
  | cons y ys ih =>
    rcases List.pairwise_cons.mp h with ⟨hy, hys⟩
    by_cases hx : pri x ≥ pri y
    · simp only [insertFilter, if_pos hx]
      refine List.pairwise_cons.mpr ⟨?_, h⟩
      intro z hz
      rcases List.mem_cons.mp hz with rfl | hz
      · exact hx
      · exact le_trans (hy z hz) hx
    · simp only [insertFilter, if_neg hx]
      refine List.pairwise_cons.mpr ⟨?_, ih hys⟩
      intro z hz
      rcases List.mem_cons.mp ((insertFilter_perm pri x ys).mem_iff.mp hz) with rfl | hz
      · exact le_of_lt (lt_of_not_ge hx)
      · exact hy z hz

theorem sortFilters_aux_pairwiseGe (pri : FilterRef → Int) (l acc : List FilterRef)
    (h : acc.Pairwise fun a b => pri b ≤ pri a) :
    (l.foldl (fun acc x => insertFilter pri x acc) acc).Pairwise
      fun a b => pri b ≤ pri a := by
  induction l generalizing acc with
  | nil => simpa using h
  | cons x xs ih => exact ih _ (insertFilter_pairwiseGe pri x acc h)

theorem sortFilters_pairwiseGe (pri : FilterRef → Int) (l : List FilterRef) :
    (sortFilters pri l).Pairwise fun a b => pri b ≤ pri a :=
  sortFilters_aux_pairwiseGe pri l [] (List.Pairwise.nil)

theorem insertFilter_append_of_gt (pri : FilterRef → Int) (x : FilterRef)
    (l : List FilterRef) (h : ∀ a ∈ l, pri x < pri a) :
    insertFilter pri x l = l ++ [x] := by
  induction l with
  | nil => rfl
  | cons y ys ih =>
    have hy : pri x < pri y := h y (List.mem_cons_self y ys)
    have : ¬pri x ≥ pri y := not_le.mpr hy
    simp only [insertFilter, if_neg this, List.cons_append, List.cons.injEq, true_and]
    exact ih fun a ha => h a (List.mem_cons_of_mem y ha)

theorem sortFilters_aux_eq_of_gt (pri : FilterRef → Int) (l acc : List FilterRef)
    (hacc : acc.Pairwise fun a b => pri b < pri a)
    (hl : l.Pairwise fun a b => pri b < pri a)
    (hcross : ∀ y ∈ l, ∀ a ∈ acc, pri y < pri a) :
    l.foldl (fun acc x => insertFilter pri x acc) acc = acc ++ l := by
  induction l generalizing acc with
  | nil => simp
  | cons x xs ih =>
    rcases List.pairwise_cons.mp hl with ⟨hx, hxs⟩
    simp only [List.foldl_cons]
    rw [insertFilter_append_of_gt pri x acc
      (fun a ha => hcross x (List.mem_cons_self x xs) a ha)]
    have hacc' : (acc ++ [x]).Pairwise fun a b => pri b < pri a := by
      refine List.pairwise_append.mpr ⟨hacc, by simp, ?_⟩
      intro a ha b hb
      simp only [List.mem_singleton] at hb
      rw [hb]
      exact hcross x (List.mem_cons_self x xs) a ha
    have hcross' : ∀ y ∈ xs, ∀ a ∈ acc ++ [x], pri y < pri a := by
      intro y hy a ha
      rcases List.mem_append.mp ha with ha | ha
      · exact hcross y (List.mem_cons_of_mem x hy) a ha
      · simp only [List.mem_singleton] at ha
        rw [ha]
        exact hx y hy
    rw [ih (acc ++ [x]) hacc' hxs hcross']
    simp

/-- Sorting a strictly-descending list leaves it unchanged; hence the sort
is idempotent on lists whose members carry pairwise distinct priorities. -/
theorem sortFilters_eq_of_gt (pri : FilterRef → Int) (l : List FilterRef)
    (h : l.Pairwise fun a b => pri b < pri a) : sortFilters pri l = l := by
  simpa using sortFilters_aux_eq_of_gt pri l [] List.Pairwise.nil h (by simp)

theorem sortFilters_idem_of_ne (pri : FilterRef → Int) (l : List FilterRef)
    (h : l.Pairwise fun a b => pri a ≠ pri b) :
    sortFilters pri (sortFilters pri l) = sortFilters pri l := by
  refine sortFilters_eq_of_gt pri _ ?_
  have hne : (sortFilters pri l).Pairwise fun a b => pri a ≠ pri b := by
    refine ((sortFilters_perm pri l).pairwise_iff ?_).mpr h
    intro a b hab
    exact hab.symm
  have hge := sortFilters_pairwiseGe pri l
  exact (hge.and hne).imp fun hab => lt_of_le_of_ne hab.1 (Ne.symm hab.2)

theorem Mono.rfl {st : R3} : Mono st st := fun _ h => h

theorem Mono.trans {s1 s2 s3 : R3} (h1 : Mono s1 s2) (h2 : Mono s2 s3) :
    Mono s1 s3 := fun q h => h2 q (h1 q h)

theorem LeftM.lrefl {st : R3} : LeftM st st := fun _ h => h

theorem LeftM.ltrans {s1 s2 s3 : R3} (h1 : LeftM s1 s2) (h2 : LeftM s2 s3) :
    LeftM s1 s3 := fun q h => h2 q (h1 q h)

theorem RowsU.urefl {st : R3} : RowsU st st := fun _ _ _ => Eq.refl _

theorem RowsU.utrans {s1 s2 s3 : R3} (hm : Mono s1 s2) (h1 : RowsU s1 s2)
    (h2 : RowsU s2 s3) : RowsU s1 s3 := by
  intro r hr e
  rw [h2 r (hm r hr) e, h1 r hr e]

theorem RowsUX_of_RowsU {p : Nat} {s1 s2 : R3} (h : RowsU s1 s2) : RowsUX p s1 s2 :=
  fun r _ hr e => h r hr e

theorem RowsUX.xtrans {p : Nat} {s1 s2 s3 : R3} (hm : Mono s1 s2) (h1 : RowsUX p s1 s2)
    (h2 : RowsUX p s2 s3) : RowsUX p s1 s3 := by
  intro r hrp hr e
  rw [h2 r hrp (hm r hr) e, h1 r hrp hr e]

theorem filterCount_mono (P Q : Nat → Prop) [DecidablePred P] [DecidablePred Q]
    (h : ∀ a, P a → Q a) :
    ∀ l : List Nat, (l.filter fun a => P a).length ≤ (l.filter fun a => Q a).length := by
  intro l
  induction l with
  | nil => simp
  | cons a l ih =>
    by_cases hq : Q a
    · by_cases hp : P a <;> simp [List.filter_cons, hp, hq] <;> omega
    · have hp : ¬P a := fun hpa => hq (h a hpa)
      simp [List.filter_cons, hp, hq]
      exact ih

theorem UV_mono_le (C : R3Cfg) {st st' : R3} (h : Mono st st') :
    UVcount C st' ≤ UVcount C st := by
  refine filterCount_mono _ _ ?_ (List.range C.n)
  intro a ha
  by_contra hne
  exact (h a hne) ha

theorem UV_pos (C : R3Cfg) {st : R3} {p : Nat} (hp : p < C.n)
    (hu : st.pstates p = .unvisited) : 0 < UVcount C st := by
  unfold UVcount
  have hmem : p ∈ (List.range C.n).filter fun q => st.pstates q = .unvisited := by
    refine List.mem_filter.mpr ⟨List.mem_range.mpr hp, by simp [hu]⟩
  exact List.length_pos.mpr fun hnil => by simp [hnil] at hmem

theorem filterCount_flip (st : R3) (p : Nat) (hu : st.pstates p = .unvisited)
    (s : PState) (hs : s ≠ .unvisited) :
    ∀ l : List Nat, l.Nodup → p ∈ l →
      ((l.filter fun q => upd st.pstates p s q = .unvisited).length + 1 =
        (l.filter fun q => st.pstates q = .unvisited).length) := by
  intro l
  induction l with
  | nil => intro _ h; simp at h
  | cons a l ih =>
    intro hnd hmem
    rcases List.mem_cons.mp hmem with heq | hmem
    · have hnotin : p ∉ l := heq ▸ (List.nodup_cons.mp hnd).1
      have hfe : (l.filter fun q => upd st.pstates p s q = .unvisited) =
          l.filter fun q => st.pstates q = .unvisited := by
        refine List.filter_congr ?_
        intro x hx
        have hxa : x ≠ p := fun hh => hnotin (hh ▸ hx)
        simp [upd_other _ _ _ _ hxa]
      rw [← heq]
      simp only [List.filter_cons]
      rw [hfe]
      simp [hu, upd_same, hs]
    · have ih1 := ih (List.nodup_cons.mp hnd).2 hmem
      by_cases ha : a = p
      · exact absurd (ha ▸ hmem) (List.nodup_cons.mp hnd).1
      · simp only [List.filter_cons, upd_other _ _ _ _ ha]
        by_cases hsa : st.pstates a = .unvisited <;> simp [hsa] <;> omega

theorem UV_enter (C : R3Cfg) (st : R3) (p : Nat) (t : String) (hp : p < C.n)
    (hu : st.pstates p = .unvisited) :
    UVcount C (enterPod st p t) + 1 = UVcount C st := by
  unfold UVcount enterPod
  exact filterCount_flip st p hu .entered (by simp) (List.range C.n)
    (List.nodup_range C.n) (List.mem_range.mpr hp)

theorem setActive_flists (st : R3) (s : String) : (setActive st s).flists = st.flists := by
  cases h : st.stack <;> simp [setActive, h]

theorem setActive_pstates (st : R3) (s : String) :
    (setActive st s).pstates = st.pstates := by
  cases h : st.stack <;> simp [setActive, h]

theorem setActive_order (st : R3) (s : String) : (setActive st s).order = st.order := by
  cases h : st.stack <;> simp [setActive, h]

theorem setActive_stack_cons (st : R3) (s : String) (fr : Frame) (rest : List Frame)
    (h : st.stack = fr :: rest) :
    (setActive st s).stack = { fr with active := s } :: rest := by
  simp [setActive, h]

theorem setActive_stack_pods (st : R3) (s : String) :
    (setActive st s).stack.map Frame.pod = st.stack.map Frame.pod := by
  cases h : st.stack <;> simp [setActive, h]

theorem R3Inv_setActive (C : R3Cfg) (fl0 : Nat → Nat → List FilterRef) (st : R3)
    (s : String) (h : R3Inv C fl0 st) : R3Inv C fl0 (setActive st s) := by
  cases hs : st.stack with
  | nil =>
    have he : setActive st s = st := by simp [setActive, hs]
    rwa [he]
  | cons fr rest =>
    obtain ⟨hmem, hord, hnd, htp, hch, hos, hsn, hls⟩ := h
    refine ⟨?_, ?_, ?_, ?_, ?_, ?_, ?_, ?_⟩
    · simpa [setActive_flists] using hmem
    · simpa [setActive_order, setActive_pstates] using hord
    · simpa [setActive_order] using hnd
    · simpa [setActive_order] using htp
    · rw [setActive_stack_cons st s fr rest hs]
      rw [hs] at hch
      cases rest with
      | nil => simp
      | cons g t =>
        rcases List.chain'_cons.mp hch with ⟨hfg, hgt⟩
        exact List.chain'_cons.mpr ⟨hfg, hgt⟩
    · intro q
      rw [setActive_pstates, setActive_stack_pods]
      exact hos q
    · simpa [setActive_stack_pods] using hsn
    · intro p hp ep hep
      rw [setActive_pstates] at hp
      rw [setActive_flists]
      exact hls p hp ep hep

theorem enterPod_pstates (st : R3) (p : Nat) (t : String) :
    (enterPod st p t).pstates = upd st.pstates p .entered := rfl

theorem enterPod_stack (st : R3) (p : Nat) (t : String) :
    (enterPod st p t).stack = { pod := p, target := t, active := "" } :: st.stack := rfl

theorem enterPod_flists (st : R3) (p : Nat) (t : String) :
    (enterPod st p t).flists = st.flists := rfl

theorem enterPod_order (st : R3) (p : Nat) (t : String) :
    (enterPod st p t).order = st.order := rfl

theorem leavePod_of_stack (st : R3) (fr : Frame) (rest : List Frame)
    (h : st.stack = fr :: rest) :
    leavePod st = { st with stack := rest, pstates := upd st.pstates fr.pod .left } := by
  simp [leavePod, h]

theorem appendPod_order (st : R3) (p : Nat) : (appendPod st p).order = st.order ++ [p] := rfl

/-- Extracting a dependency cycle from the DFS stack: if the frames form a
dependency chain and the pod of the top frame occurs again below, the
dependency relation has a cycle. -/
theorem cycle_of_stack (C : R3Cfg) (fl0 : Nat → Nat → List FilterRef)
    (f0 : Frame) (s : List Frame)
    (hch : List.Chain' (fun f g => depOn C fl0 g.pod f.pod) (f0 :: s))
    (hmem : f0.pod ∈ s.map Frame.pod) : HasDepCycle C fl0 := by
  have hchain : List.Chain' (fun a b => depOn C fl0 b a)
      ((f0 :: s).map Frame.pod) := by
    rw [List.chain'_map]
    exact hch
  have hrev : List.Chain' (depOn C fl0) ((f0 :: s).map Frame.pod).reverse := by
    rw [List.chain'_reverse]
    exact hchain
  rcases List.append_of_mem (List.mem_reverse.mpr hmem) with ⟨m1, m2, hm⟩
  have hsplit : ((f0 :: s).map Frame.pod).reverse =
      m1 ++ (f0.pod :: (m2 ++ [f0.pod])) := by
    simp only [List.map_cons, List.reverse_cons, hm]
    simp
  rw [hsplit] at hrev
  have hc : List.Chain' (depOn C fl0) (f0.pod :: (m2 ++ [f0.pod])) :=
    hrev.right_of_append
  exact ⟨f0.pod :: m2, by simp, by simpa using hc⟩

theorem Mono_setActive (st : R3) (s : String) : Mono st (setActive st s) := by
  intro q
  rw [setActive_pstates]
  exact id

theorem UV_setActive (C : R3Cfg) (st : R3) (s : String) :
    UVcount C (setActive st s) = UVcount C st := by
  unfold UVcount
  rw [setActive_pstates]

theorem ErrPost_weaken (C : R3Cfg) (fl0 : Nat → Nat → List FilterRef) (fuel : Nat)
    {st st' : R3} (hm : Mono st st') {e : DErr}
    (h : ErrPost C fl0 fuel st' e) : ErrPost C fl0 fuel st e := by
  rcases h with ⟨he, hlt⟩ | hr
  · exact Or.inl ⟨he, lt_of_lt_of_le hlt (UV_mono_le C hm)⟩
  · exact Or.inr hr

/-- Specification of the filter loop of `doResolve3`: given a well-behaved
recursive call, the loop preserves the invariant and the stack, marks every
non-self filter owner in the list left, and fails only per `ErrPost`. -/
theorem r3Filters_spec (C : R3Cfg) (fl0 : Nat → Nat → List FilterRef)
    (hWf : WfDeps C fl0) (fuel : Nat)
    (rec : R3 → Nat → String → R3 × Option DErr) (hrec : RecOK C fl0 fuel rec)
    (p : Nat) :
    ∀ (l : List FilterRef) (st : R3), R3Inv C fl0 st →
      (∀ f ∈ l, f.1 ≠ p → depOn C fl0 p f.1) →
      (∃ fr rest, st.stack = fr :: rest ∧ fr.pod = p) →
      Mono st (r3Filters C rec st p l).1 ∧
      ((r3Filters C rec st p l).2 = none →
        R3Inv C fl0 (r3Filters C rec st p l).1 ∧
        (r3Filters C rec st p l).1.stack = st.stack ∧
        LeftM st (r3Filters C rec st p l).1 ∧
        RowsU st (r3Filters C rec st p l).1 ∧
        st.order <+: (r3Filters C rec st p l).1.order ∧
        ∀ f ∈ l, f.1 ≠ p → (r3Filters C rec st p l).1.pstates f.1 = .left) ∧
      (∀ e, (r3Filters C rec st p l).2 = some e → ErrPost C fl0 fuel st e) := by
  intro l
  induction l with
  | nil =>
    intro st hInv _ _
    refine ⟨Mono.rfl, ?_, ?_⟩
    · intro _
      exact ⟨hInv, Eq.refl _, LeftM.lrefl, RowsU.urefl, List.prefix_rfl, by simp⟩
    · intro e he
      simp [r3Filters, foldStop] at he
  | cons f l ih =>
    intro st hInv hl hfr
    by_cases hfp : f.1 = p
    · have hstep : r3Filters C rec st p (f :: l) = r3Filters C rec st p l := by
        simp only [r3Filters, foldStop, if_pos hfp]
      rw [hstep]
      have := ih st hInv (fun g hg => hl g (List.mem_cons_of_mem f hg)) hfr
      refine ⟨this.1, ?_, this.2.2⟩
      intro hn
      obtain ⟨a, b, c, d, e2, f2⟩ := this.2.1 hn
      refine ⟨a, b, c, d, e2, ?_⟩
      intro g hg hgp
      rcases List.mem_cons.mp hg with heq | hg
      · exact absurd hfp (heq ▸ hgp)
      · exact f2 g hg hgp
    · have hdep : depOn C fl0 p f.1 := hl f (List.mem_cons_self f l) hfp
      have hcall : CallOK C fl0 st f.1 := by
        obtain ⟨fr, rest, hst, hpod⟩ := hfr
        exact ⟨hWf p f.1 hdep, Or.inr ⟨fr, rest, hst, hpod ▸ hdep⟩⟩
      obtain ⟨hm1, hok1, herr1⟩ := hrec st f.1 (C.fpath f) hInv hcall
      cases hres : (rec st f.1 (C.fpath f)).2 with
      | some e =>
        have hstep : r3Filters C rec st p (f :: l) = rec st f.1 (C.fpath f) := by
          simp only [r3Filters, foldStop, if_neg hfp, hres]
        rw [hstep]
        refine ⟨hm1, ?_, ?_⟩
        · intro h
          rw [hres] at h
          simp at h
        · intro e2 he2
          rw [hres] at he2
          rw [← Option.some.inj he2]
          exact herr1 e hres
      | none =>
        have hstep : r3Filters C rec st p (f :: l) =
            r3Filters C rec (rec st f.1 (C.fpath f)).1 p l := by
          simp only [r3Filters, foldStop, if_neg hfp, hres]
        rw [hstep]
        obtain ⟨hInv1, hleft1, hstk1, hm1b, hlm1, hru1, hpre1⟩ := hok1 hres
        have hfr1 : ∃ fr rest, (rec st f.1 (C.fpath f)).1.stack = fr :: rest ∧
            fr.pod = p := by
          obtain ⟨fr, rest, hst, hpod⟩ := hfr
          exact ⟨fr, rest, hstk1 ▸ hst, hpod⟩
        have := ih (rec st f.1 (C.fpath f)).1 hInv1
          (fun g hg => hl g (List.mem_cons_of_mem f hg)) hfr1
        refine ⟨hm1.trans this.1, ?_, ?_⟩
        · intro hn
          obtain ⟨a, hstk2, c, d, e2, f2⟩ := this.2.1 hn
          refine ⟨a, by rw [hstk2, hstk1], hlm1.ltrans c, RowsU.utrans hm1 hru1 d,
            hpre1.trans e2, ?_⟩
          intro g hg hgp
          rcases List.mem_cons.mp hg with heq | hg
          · rw [heq]
            exact c f.1 hleft1
          · exact f2 g hg hgp
        · intro e he
          exact ErrPost_weaken C fl0 fuel hm1 (this.2.2 e he)

theorem RowsU_setActive (st : R3) (s : String) : RowsU st (setActive st s) := by
  intro r _ e
  rw [setActive_flists]

/-- Specification of the import loop of `doResolve3`. -/
theorem r3ImportsAux_spec (C : R3Cfg) (fl0 : Nat → Nat → List FilterRef)
    (hWf : WfDeps C fl0) (fuel : Nat)
    (rec : R3 → Nat → String → R3 × Option DErr) (hrec : RecOK C fl0 fuel rec)
    (p : Nat) :
    ∀ (l : List (String × Nat × String)) (st : R3), R3Inv C fl0 st →
      (∀ ed ∈ l, depOn C fl0 p ed.2.1) →
      ∀ fr rest, st.stack = fr :: rest → fr.pod = p →
      Mono st (foldStop l st fun st ed => rec (setActive st ed.1) ed.2.1 ed.2.2).1 ∧
      ((foldStop l st fun st ed => rec (setActive st ed.1) ed.2.1 ed.2.2).2 = none →
        R3Inv C fl0 (foldStop l st fun st ed => rec (setActive st ed.1) ed.2.1 ed.2.2).1 ∧
        (∃ fr2, (foldStop l st fun st ed =>
            rec (setActive st ed.1) ed.2.1 ed.2.2).1.stack = fr2 :: rest ∧
          fr2.pod = p) ∧
        LeftM st (foldStop l st fun st ed => rec (setActive st ed.1) ed.2.1 ed.2.2).1 ∧
        RowsU st (foldStop l st fun st ed => rec (setActive st ed.1) ed.2.1 ed.2.2).1 ∧
        st.order <+:
          (foldStop l st fun st ed => rec (setActive st ed.1) ed.2.1 ed.2.2).1.order ∧
        ∀ ed ∈ l, (foldStop l st fun st ed =>
            rec (setActive st ed.1) ed.2.1 ed.2.2).1.pstates ed.2.1 = .left) ∧
      (∀ e, (foldStop l st fun st ed =>
          rec (setActive st ed.1) ed.2.1 ed.2.2).2 = some e →
        ErrPost C fl0 fuel st e) := by
  intro l
  induction l with
  | nil =>
    intro st hInv _ fr rest hst hpod
    refine ⟨Mono.rfl, ?_, ?_⟩
    · intro _
      exact ⟨hInv, ⟨fr, hst, hpod⟩, LeftM.lrefl, RowsU.urefl, List.prefix_rfl, by simp⟩
    · intro e he
      simp [foldStop] at he
  | cons ed l ih =>
    intro st hInv hl fr rest hst hpod
    have hInv1 : R3Inv C fl0 (setActive st ed.1) := R3Inv_setActive C fl0 st ed.1 hInv
    have hst1 : (setActive st ed.1).stack = { fr with active := ed.1 } :: rest :=
      setActive_stack_cons st ed.1 fr rest hst
    have hdep : depOn C fl0 p ed.2.1 := hl ed (List.mem_cons_self ed l)
    have hcall : CallOK C fl0 (setActive st ed.1) ed.2.1 := by
      refine ⟨hWf p ed.2.1 hdep, Or.inr ⟨{ fr with active := ed.1 }, rest, hst1, ?_⟩⟩
      show depOn C fl0 fr.pod ed.2.1
      rw [hpod]
      exact hdep
    obtain ⟨hm1, hok1, herr1⟩ := hrec (setActive st ed.1) ed.2.1 ed.2.2 hInv1 hcall
    have hmst1 : Mono st (setActive st ed.1) := Mono_setActive st ed.1
    cases hres : (rec (setActive st ed.1) ed.2.1 ed.2.2).2 with
    | some e =>
      have hstep : (foldStop (ed :: l) st fun st ed =>
          rec (setActive st ed.1) ed.2.1 ed.2.2) =
          rec (setActive st ed.1) ed.2.1 ed.2.2 := by
        simp only [foldStop, hres]
      rw [hstep]
      refine ⟨hmst1.trans hm1, ?_, ?_⟩
      · intro h
        rw [hres] at h
        simp at h
      · intro e2 he2
        rw [hres] at he2
        rw [← Option.some.inj he2]
        exact ErrPost_weaken C fl0 fuel hmst1 (herr1 e hres)
    | none =>
      have hstep : (foldStop (ed :: l) st fun st ed =>
          rec (setActive st ed.1) ed.2.1 ed.2.2) =
          foldStop l (rec (setActive st ed.1) ed.2.1 ed.2.2).1 fun st ed =>
            rec (setActive st ed.1) ed.2.1 ed.2.2 := by
        simp only [foldStop, hres]
      rw [hstep]
      obtain ⟨hInv1b, hleft1, hstk1, hm1b, hlm1, hru1, hpre1⟩ := hok1 hres
      have := ih (rec (setActive st ed.1) ed.2.1 ed.2.2).1 hInv1b
        (fun g hg => hl g (List.mem_cons_of_mem ed hg))
        { fr with active := ed.1 } rest (by rw [hstk1, hst1]) hpod
      have hmall : Mono st (rec (setActive st ed.1) ed.2.1 ed.2.2).1 :=
        hmst1.trans hm1
      have hrust : RowsU st (rec (setActive st ed.1) ed.2.1 ed.2.2).1 :=
        RowsU.utrans hmst1 (RowsU_setActive st ed.1) hru1
      have hlmst : LeftM st (rec (setActive st ed.1) ed.2.1 ed.2.2).1 := by
        intro q hq
        refine hlm1 q ?_
        rw [setActive_pstates]
        exact hq
      refine ⟨hmall.trans this.1, ?_, ?_⟩
      · intro hn
        obtain ⟨a, ⟨fr2, hstk2, hpod2⟩, c, d, e2, f2⟩ := this.2.1 hn
        refine ⟨a, ⟨fr2, hstk2, hpod2⟩, hlmst.ltrans c, RowsU.utrans hmall hrust d,
          ?_, ?_⟩
        · have : st.order = (setActive st ed.1).order := (setActive_order st ed.1).symm
          rw [this]
          exact hpre1.trans e2
        · intro g hg
          rcases List.mem_cons.mp hg with heq | hg
          · rw [heq]
            exact c ed.2.1 hleft1
          · exact f2 g hg
      · intro e he
        exact ErrPost_weaken C fl0 fuel hmall (this.2.2 e he)

/-- Sorting one filter-list row in place preserves the traversal invariant
(the members are unchanged and the row comes out descending). -/
theorem R3Inv_sortRow (C : R3Cfg) (fl0 : Nat → Nat → List FilterRef) (st : R3)
    (p e : Nat) (h : R3Inv C fl0 st) :
    R3Inv C fl0
      { st with flists := upd2 st.flists p e (sortFilters C.fprio (st.flists p e)) } := by
  obtain ⟨hmem, hord, hnd, htp, hch, hos, hsn, hls⟩ := h
  refine ⟨?_, hord, hnd, htp, hch, hos, hsn, ?_⟩
  · intro q d x
    show x ∈ upd2 st.flists p e (sortFilters C.fprio (st.flists p e)) q d ↔ x ∈ fl0 q d
    by_cases hqd : q = p ∧ d = e
    · rw [hqd.1, hqd.2, upd2_same, sortFilters_mem]
      exact hmem p e x
    · rw [upd2_other _ _ _ _ _ _ hqd]
      exact hmem q d x
  · intro r hr ep2 hep2
    show PairwiseGe C (upd2 st.flists p e (sortFilters C.fprio (st.flists p e)) r ep2.1)
    by_cases hqd : r = p ∧ ep2.1 = e
    · rw [hqd.1, hqd.2, upd2_same]
      exact sortFilters_pairwiseGe C.fprio _
    · rw [upd2_other _ _ _ _ _ _ hqd]
      exact hls r hr ep2 hep2

/-- A pod whose frame is on top of the stack is in the entered state. -/
theorem entered_of_top (C : R3Cfg) (fl0 : Nat → Nat → List FilterRef) (st : R3)
    (h : R3Inv C fl0 st) (fr : Frame) (rest : List Frame)
    (hst : st.stack = fr :: rest) : st.pstates fr.pod = .entered := by
  refine (h.onStack fr.pod).mpr ?_
  rw [hst]
  exact List.mem_cons_self _ _

/-- Specification of one export-loop iteration of `doResolve3`. -/
theorem r3ExpStep_spec (C : R3Cfg) (fl0 : Nat → Nat → List FilterRef)
    (hWf : WfDeps C fl0) (fuel : Nat)
    (rec : R3 → Nat → String → R3 × Option DErr) (hrec : RecOK C fl0 fuel rec)
    (p : Nat) (ep : Nat × String) (st : R3) (hInv : R3Inv C fl0 st)
    (hep : ep ∈ C.exps p) (fr : Frame) (rest : List Frame)
    (hst : st.stack = fr :: rest) (hpod : fr.pod = p) :
    Mono st (r3ExpStep C rec p st ep).1 ∧
    ((r3ExpStep C rec p st ep).2 = none →
      R3Inv C fl0 (r3ExpStep C rec p st ep).1 ∧
      (∃ fr2, (r3ExpStep C rec p st ep).1.stack = fr2 :: rest ∧ fr2.pod = p) ∧
      LeftM st (r3ExpStep C rec p st ep).1 ∧
      RowsUX p st (r3ExpStep C rec p st ep).1 ∧
      st.order <+: (r3ExpStep C rec p st ep).1.order ∧
      (∀ e, PairwiseGe C (st.flists p e) →
        PairwiseGe C ((r3ExpStep C rec p st ep).1.flists p e)) ∧
      PairwiseGe C ((r3ExpStep C rec p st ep).1.flists p ep.1) ∧
      (∀ x ∈ fl0 p ep.1, x.1 ≠ p →
        (r3ExpStep C rec p st ep).1.pstates x.1 = .left)) ∧
    (∀ e, (r3ExpStep C rec p st ep).2 = some e → ErrPost C fl0 fuel st e) := by
  have hdef : r3ExpStep C rec p st ep =
      r3Filters C rec
        { setActive st ep.2 with
          flists := upd2 (setActive st ep.2).flists p ep.1
            (sortFilters C.fprio ((setActive st ep.2).flists p ep.1)) }
        p (sortFilters C.fprio ((setActive st ep.2).flists p ep.1)) := rfl
  have hInv1 : R3Inv C fl0 (setActive st ep.2) := R3Inv_setActive C fl0 st ep.2 hInv
  have hst1 : (setActive st ep.2).stack = { fr with active := ep.2 } :: rest :=
    setActive_stack_cons st ep.2 fr rest hst
  have hInv2 : R3Inv C fl0
      { setActive st ep.2 with
        flists := upd2 (setActive st ep.2).flists p ep.1
          (sortFilters C.fprio ((setActive st ep.2).flists p ep.1)) } :=
    R3Inv_sortRow C fl0 (setActive st ep.2) p ep.1 hInv1
  have hst2 : ({ setActive st ep.2 with
      flists := upd2 (setActive st ep.2).flists p ep.1
        (sortFilters C.fprio ((setActive st ep.2).flists p ep.1)) } : R3).stack =
      { fr with active := ep.2 } :: rest := hst1
  have hrow2 : ({ setActive st ep.2 with
      flists := upd2 (setActive st ep.2).flists p ep.1
        (sortFilters C.fprio ((setActive st ep.2).flists p ep.1)) } : R3).flists p ep.1 =
      sortFilters C.fprio ((setActive st ep.2).flists p ep.1) := upd2_same _ _ _ _
  have hpent : ({ setActive st ep.2 with
      flists := upd2 (setActive st ep.2).flists p ep.1
        (sortFilters C.fprio ((setActive st ep.2).flists p ep.1)) } : R3).pstates p =
      .entered := by
    have := entered_of_top C fl0 _ hInv2 { fr with active := ep.2 } rest hst2
    rwa [show ({ fr with active := ep.2 } : Frame).pod = p from hpod] at this
  have hlF : ∀ f ∈ sortFilters C.fprio ((setActive st ep.2).flists p ep.1),
      f.1 ≠ p → depOn C fl0 p f.1 := by
    intro f hf hfp
    have hf1 : f ∈ (setActive st ep.2).flists p ep.1 :=
      (sortFilters_mem _ _ f).mp hf
    have hf0 : f ∈ fl0 p ep.1 := (hInv1.mem p ep.1 f).mp hf1
    exact Or.inr ⟨ep, hep, f.2, by rw [Prod.mk.eta]; exact hf0, hfp⟩
  have hfil := r3Filters_spec C fl0 hWf fuel rec hrec p
    (sortFilters C.fprio ((setActive st ep.2).flists p ep.1))
    { setActive st ep.2 with
      flists := upd2 (setActive st ep.2).flists p ep.1
        (sortFilters C.fprio ((setActive st ep.2).flists p ep.1)) }
    hInv2 hlF ⟨{ fr with active := ep.2 }, rest, hst2, hpod⟩
  have hmst2 : Mono st
      { setActive st ep.2 with
        flists := upd2 (setActive st ep.2).flists p ep.1
          (sortFilters C.fprio ((setActive st ep.2).flists p ep.1)) } := by
    intro q hq
    show (setActive st ep.2).pstates q ≠ .unvisited
    rw [setActive_pstates]
    exact hq
  rw [hdef]
  refine ⟨hmst2.trans hfil.1, ?_, ?_⟩
  · intro hn
    obtain ⟨hInvr, hstkr, hlmr, hrur, hprer, htgt⟩ := hfil.2.1 hn
    have hrowr : (r3Filters C rec
        { setActive st ep.2 with
          flists := upd2 (setActive st ep.2).flists p ep.1
            (sortFilters C.fprio ((setActive st ep.2).flists p ep.1)) }
        p (sortFilters C.fprio ((setActive st ep.2).flists p ep.1))).1.flists p ep.1 =
        sortFilters C.fprio ((setActive st ep.2).flists p ep.1) := by
      rw [hrur p (by rw [hpent]; simp) ep.1, hrow2]
    refine ⟨hInvr, ⟨{ fr with active := ep.2 }, by rw [hstkr, hst2], hpod⟩, ?_, ?_,
      ?_, ?_, ?_, ?_⟩
    · intro q hq
      refine hlmr q ?_
      show (setActive st ep.2).pstates q = .left
      rw [setActive_pstates]
      exact hq
    · intro r hrp hr e
      rw [hrur r ?hh e]
      · show upd2 (setActive st ep.2).flists p ep.1
            (sortFilters C.fprio ((setActive st ep.2).flists p ep.1)) r e =
          st.flists r e
        rw [upd2_other _ _ _ _ _ _ (by intro hc; exact hrp hc.1), setActive_flists]
      case hh =>
        show (setActive st ep.2).pstates r ≠ .unvisited
        rw [setActive_pstates]
        exact hr
    · have h1 : st.order = (setActive st ep.2).order := (setActive_order st ep.2).symm
      rw [h1]
      exact hprer
    · intro e hge
      rw [hrur p (by rw [hpent]; simp) e]
      show PairwiseGe C (upd2 (setActive st ep.2).flists p ep.1
        (sortFilters C.fprio ((setActive st ep.2).flists p ep.1)) p e)
      by_cases hee : e = ep.1
      · rw [hee, upd2_same]
        exact sortFilters_pairwiseGe _ _
      · rw [upd2_other _ _ _ _ _ _ (by intro hc; exact hee hc.2), setActive_flists]
        exact hge
    · rw [hrowr]
      exact sortFilters_pairwiseGe _ _
    · intro x hx hxp
      refine htgt x ?_ hxp
      refine (sortFilters_mem _ _ x).mpr ?_
      refine (hInv1.mem p ep.1 x).mpr hx
  · intro e he
    exact ErrPost_weaken C fl0 fuel hmst2 (hfil.2.2 e he)

/-- Specification of the export loop of `doResolve3`. -/
theorem r3ExportsAux_spec (C : R3Cfg) (fl0 : Nat → Nat → List FilterRef)
    (hWf : WfDeps C fl0) (fuel : Nat)
    (rec : R3 → Nat → String → R3 × Option DErr) (hrec : RecOK C fl0 fuel rec)
    (p : Nat) :
    ∀ (l : List (Nat × String)) (st : R3), R3Inv C fl0 st →
      (∀ ep ∈ l, ep ∈ C.exps p) →
      ∀ fr rest, st.stack = fr :: rest → fr.pod = p →
      Mono st (foldStop l st (r3ExpStep C rec p)).1 ∧
      ((foldStop l st (r3ExpStep C rec p)).2 = none →
        R3Inv C fl0 (foldStop l st (r3ExpStep C rec p)).1 ∧
        (∃ fr2, (foldStop l st (r3ExpStep C rec p)).1.stack = fr2 :: rest ∧
          fr2.pod = p) ∧
        LeftM st (foldStop l st (r3ExpStep C rec p)).1 ∧
        RowsUX p st (foldStop l st (r3ExpStep C rec p)).1 ∧
        st.order <+: (foldStop l st (r3ExpStep C rec p)).1.order ∧
        (∀ e, PairwiseGe C (st.flists p e) →
          PairwiseGe C ((foldStop l st (r3ExpStep C rec p)).1.flists p e)) ∧
        (∀ ep ∈ l,
          PairwiseGe C ((foldStop l st (r3ExpStep C rec p)).1.flists p ep.1) ∧
          ∀ x ∈ fl0 p ep.1, x.1 ≠ p →
            (foldStop l st (r3ExpStep C rec p)).1.pstates x.1 = .left)) ∧
      (∀ e, (foldStop l st (r3ExpStep C rec p)).2 = some e →
        ErrPost C fl0 fuel st e) := by
  intro l
  induction l with
  | nil =>
    intro st hInv _ fr rest hst hpod
    refine ⟨Mono.rfl, ?_, ?_⟩
    · intro _
      exact ⟨hInv, ⟨fr, hst, hpod⟩, LeftM.lrefl, RowsUX_of_RowsU RowsU.urefl,
        List.prefix_rfl, fun _ h => h, by simp⟩
    · intro e he
      simp [foldStop] at he
  | cons ep l ih =>
    intro st hInv hl fr rest hst hpod
    have hstep := r3ExpStep_spec C fl0 hWf fuel rec hrec p ep st hInv
      (hl ep (List.mem_cons_self ep l)) fr rest hst hpod
    cases hres : (r3ExpStep C rec p st ep).2 with
    | some e =>
      have heq : foldStop (ep :: l) st (r3ExpStep C rec p) = r3ExpStep C rec p st ep := by
        simp only [foldStop, hres]
      rw [heq]
      refine ⟨hstep.1, ?_, ?_⟩
      · intro h
        rw [hres] at h
        simp at h
      · intro e2 he2
        rw [hres] at he2
        rw [← Option.some.inj he2]
        exact hstep.2.2 e hres
    | none =>
      have heq : foldStop (ep :: l) st (r3ExpStep C rec p) =
          foldStop l (r3ExpStep C rec p st ep).1 (r3ExpStep C rec p) := by
        simp only [foldStop, hres]
      rw [heq]
      obtain ⟨hInv1, ⟨fr2, hstk1, hpod2⟩, hlm1, hrux1, hpre1, hsortp1, hge1, htg1⟩ :=
        hstep.2.1 hres
      have := ih (r3ExpStep C rec p st ep).1 hInv1
        (fun g hg => hl g (List.mem_cons_of_mem ep hg)) fr2 rest hstk1 hpod2
      refine ⟨hstep.1.trans this.1, ?_, ?_⟩
      · intro hn
        obtain ⟨a, b, c, d, e2, f2, g2⟩ := this.2.1 hn
        refine ⟨a, b, hlm1.ltrans c, RowsUX.xtrans hstep.1 hrux1 d, hpre1.trans e2, ?_, ?_⟩
        · intro e hge
          exact f2 e (hsortp1 e hge)
        · intro g hg
          rcases List.mem_cons.mp hg with hgeq | hg
          · constructor
            · rw [hgeq]
              exact f2 ep.1 hge1
            · intro x hx hxp
              rw [hgeq] at hx
              exact c x.1 (htg1 x hx hxp)
          · exact g2 g hg
      · intro e he
        exact ErrPost_weaken C fl0 fuel hstep.1 (this.2.2 e he)

/-- The invariant transfers along pointwise-equal states. -/
theorem R3Inv_pointwise (C : R3Cfg) (fl0 : Nat → Nat → List FilterRef) (st st' : R3)
    (h : R3Inv C fl0 st) (hfl : st'.flists = st.flists) (hstk : st'.stack = st.stack)
    (hord : st'.order = st.order) (hps : ∀ q, st'.pstates q = st.pstates q) :
    R3Inv C fl0 st' := by
  obtain ⟨hmem, hordL, hnd, htp, hch, hos, hsn, hls⟩ := h
  refine ⟨?_, ?_, ?_, ?_, ?_, ?_, ?_, ?_⟩
  · rw [hfl]; exact hmem
  · intro q; rw [hord, hps q]; exact hordL q
  · rw [hord]; exact hnd
  · rw [hord]; exact htp
  · rw [hstk]; exact hch
  · intro q; rw [hps q, hstk]; exact hos q
  · rw [hstk]; exact hsn
  · intro q hq ep hep
    rw [hps q] at hq
    rw [hfl]
    exact hls q hq ep hep

/-- Entering an unvisited pod from a well-formed call preserves the
invariant. -/
theorem R3Inv_enter (C : R3Cfg) (fl0 : Nat → Nat → List FilterRef) (st : R3)
    (p : Nat) (t : String) (hInv : R3Inv C fl0 st)
    (hu : st.pstates p = .unvisited)
    (hcall : st.stack = [] ∨ ∃ fr rest, st.stack = fr :: rest ∧ depOn C fl0 fr.pod p) :
    R3Inv C fl0 (enterPod st p t) := by
  obtain ⟨hmem, hordL, hnd, htp, hch, hos, hsn, hls⟩ := hInv
  have hpnotin : p ∉ st.stack.map Frame.pod := by
    intro hin
    rw [(hos p).mpr hin] at hu
    cases hu
  refine ⟨hmem, ?_, hnd, htp, ?_, ?_, ?_, ?_⟩
  · intro q
    show q ∈ st.order ↔ upd st.pstates p .entered q = .left
    by_cases hq : q = p
    · rw [hq, upd_same]
      constructor
      · intro hin
        rw [(hordL p).mp hin] at hu
        cases hu
      · intro h
        cases h
    · rw [upd_other _ _ _ _ hq]
      exact hordL q
  · show List.Chain' _ ({ pod := p, target := t, active := "" } :: st.stack)
    rcases hcall with hnil | ⟨fr, rest, hst, hdep⟩
    · rw [hnil]
      simp
    · rw [hst]
      rw [hst] at hch
      exact List.chain'_cons.mpr ⟨hdep, hch⟩
  · intro q
    show upd st.pstates p .entered q = .entered ↔
      q ∈ ({ pod := p, target := t, active := "" } :: st.stack).map Frame.pod
    by_cases hq : q = p
    · rw [hq, upd_same]
      simp
    · rw [upd_other _ _ _ _ hq]
      simp only [List.map_cons, List.mem_cons]
      constructor
      · intro h
        exact Or.inr ((hos q).mp h)
      · intro h
        rcases h with h | h
        · exact absurd h hq
        · exact (hos q).mpr h
  · show (({ pod := p, target := t, active := "" } :: st.stack).map Frame.pod).Nodup
    simp only [List.map_cons]
    exact List.nodup_cons.mpr ⟨hpnotin, hsn⟩
  · intro q hq ep hep
    show PairwiseGe C (st.flists q ep.1)
    by_cases hqp : q = p
    · rw [hqp] at hq
      have : upd st.pstates p .entered p = .left := hq
      rw [upd_same] at this
      cases this
    · have : upd st.pstates p .entered q = .left := hq
      rw [upd_other _ _ _ _ hqp] at this
      exact hls q this ep hep

/-- Decomposing a snoc list around a chosen element. -/
theorem snoc_decomp (L : List Nat) (p : Nat) (l1 : List Nat) (q : Nat) (l2 : List Nat)
    (h : L ++ [p] = l1 ++ q :: l2) :
    (l1 = L ∧ q = p ∧ l2 = []) ∨ ∃ l2', l2 = l2' ++ [p] ∧ L = l1 ++ q :: l2' := by
  rcases List.eq_nil_or_concat l2 with h2 | ⟨l2', a, h2⟩
  · subst h2
    have := List.append_inj' h (by simp)
    refine Or.inl ⟨this.1.symm, ?_, rfl⟩
    have := this.2
    simpa using this.symm
  · subst h2
    rw [List.concat_eq_append] at h ⊢
    have hre : l1 ++ q :: (l2' ++ [a]) = (l1 ++ q :: l2') ++ [a] := by simp
    rw [hre] at h
    have := List.append_inj' h (by simp)
    have ha : p = a := by simpa using this.2
    exact Or.inr ⟨l2', by rw [ha], this.1⟩

/-- The heart of the phase-3 correctness proof: `doResolve3` satisfies its
induction package at every fuel. -/
theorem doResolve3_ok (C : R3Cfg) (fl0 : Nat → Nat → List FilterRef)
    (hWf : WfDeps C fl0) :
    ∀ fuel, RecOK C fl0 fuel (doResolve3 C fuel) := by
  intro fuel
  induction fuel with
  | zero =>
    intro st p target hInv hcall
    cases hps : st.pstates p with
    | left =>
      have heq : doResolve3 C 0 st p target = (leavePod (enterPod st p target), none) := by
        simp only [doResolve3, hps]
      rw [heq]
      have hfin : leavePod (enterPod st p target) =
          { st with pstates := upd (upd st.pstates p .entered) p .left } := by
        simp [leavePod, enterPod]
      have hpw : ∀ q, upd (upd st.pstates p .entered) p .left q = st.pstates q := by
        intro q
        by_cases hq : q = p
        · rw [hq, upd_same, hps]
        · rw [upd_other _ _ _ _ hq, upd_other _ _ _ _ hq]
      refine ⟨?_, ?_, ?_⟩
      · intro q hq
        rw [hfin]
        show ¬upd (upd st.pstates p .entered) p .left q = .unvisited
        rw [hpw q]
        exact hq
      · intro _
        rw [hfin]
        refine ⟨R3Inv_pointwise C fl0 st _ hInv rfl rfl rfl hpw, ?_, rfl, ?_, ?_, ?_, ?_⟩
        · show upd (upd st.pstates p .entered) p .left p = .left
          rw [upd_same]
        · intro q hq
          show ¬upd (upd st.pstates p .entered) p .left q = .unvisited
          rw [hpw q]
          exact hq
        · intro q hq
          show upd (upd st.pstates p .entered) p .left q = .left
          rw [hpw q]
          exact hq
        · intro r _ e
          rfl
        · exact List.prefix_rfl
      · intro e he
        simp at he
    | entered =>
      have heq : doResolve3 C 0 st p target =
          (enterPod st p target, some (.circular (dumpStack (enterPod st p target)))) := by
        simp only [doResolve3, hps]
      rw [heq]
      have hpin : p ∈ st.stack.map Frame.pod := (hInv.onStack p).mp hps
      rcases hcall.2 with hnil | ⟨fr, rest, hst, hdep⟩
      · rw [hnil] at hpin
        simp at hpin
      · refine ⟨?_, ?_, ?_⟩
        · intro q hq
          show ¬upd st.pstates p .entered q = .unvisited
          by_cases hqp : q = p
          · rw [hqp, upd_same]
            simp
          · rw [upd_other _ _ _ _ hqp]
            exact hq
        · intro h
          simp at h
        · intro e he
          have hch0 := hInv.chain
          rw [hst] at hch0
          have hch1 : List.Chain' (fun f g => depOn C fl0 g.pod f.pod)
              ({ pod := p, target := target, active := "" } :: st.stack) := by
            rw [hst]
            exact List.chain'_cons.mpr ⟨hdep, hch0⟩
          refine Or.inr ⟨⟨dumpStack (enterPod st p target), by
            rw [← Option.some.inj he]⟩, ?_⟩
          exact cycle_of_stack C fl0 _ st.stack hch1 hpin
    | unvisited =>
      have heq : doResolve3 C 0 st p target = (enterPod st p target, some .fuelOut) := by
        simp only [doResolve3, hps]
      rw [heq]
      refine ⟨?_, ?_, ?_⟩
      · intro q hq
        show ¬upd st.pstates p .entered q = .unvisited
        by_cases hqp : q = p
        · rw [hqp, upd_same]
          simp
        · rw [upd_other _ _ _ _ hqp]
          exact hq
      · intro h
        simp at h
      · intro e he
        refine Or.inl ⟨(Option.some.inj he).symm, UV_pos C hcall.1 hps⟩
  | succ f ihf =>
    intro st p target hInv hcall
    cases hps : st.pstates p with
    | left =>
      have heq : doResolve3 C (f + 1) st p target =
          (leavePod (enterPod st p target), none) := by
        simp only [doResolve3, hps]
      rw [heq]
      have hfin : leavePod (enterPod st p target) =
          { st with pstates := upd (upd st.pstates p .entered) p .left } := by
        simp [leavePod, enterPod]
      have hpw : ∀ q, upd (upd st.pstates p .entered) p .left q = st.pstates q := by
        intro q
        by_cases hq : q = p
        · rw [hq, upd_same, hps]
        · rw [upd_other _ _ _ _ hq, upd_other _ _ _ _ hq]
      refine ⟨?_, ?_, ?_⟩
      · intro q hq
        rw [hfin]
        show ¬upd (upd st.pstates p .entered) p .left q = .unvisited
        rw [hpw q]
        exact hq
      · intro _
        rw [hfin]
        refine ⟨R3Inv_pointwise C fl0 st _ hInv rfl rfl rfl hpw, ?_, rfl, ?_, ?_, ?_, ?_⟩
        · show upd (upd st.pstates p .entered) p .left p = .left
          rw [upd_same]
        · intro q hq
          show ¬upd (upd st.pstates p .entered) p .left q = .unvisited
          rw [hpw q]
          exact hq
        · intro q hq
          show upd (upd st.pstates p .entered) p .left q = .left
          rw [hpw q]
          exact hq
        · intro r _ e
          rfl
        · exact List.prefix_rfl
      · intro e he
        simp at he
    | entered =>
      have heq : doResolve3 C (f + 1) st p target =
          (enterPod st p target, some (.circular (dumpStack (enterPod st p target)))) := by
        simp only [doResolve3, hps]
      rw [heq]
      have hpin : p ∈ st.stack.map Frame.pod := (hInv.onStack p).mp hps
      rcases hcall.2 with hnil | ⟨fr, rest, hst, hdep⟩
      · rw [hnil] at hpin
        simp at hpin
      · refine ⟨?_, ?_, ?_⟩
        · intro q hq
          show ¬upd st.pstates p .entered q = .unvisited
          by_cases hqp : q = p
          · rw [hqp, upd_same]
            simp
          · rw [upd_other _ _ _ _ hqp]
            exact hq
        · intro h
          simp at h
        · intro e he
          have hch0 := hInv.chain
          rw [hst] at hch0
          have hch1 : List.Chain' (fun f g => depOn C fl0 g.pod f.pod)
              ({ pod := p, target := target, active := "" } :: st.stack) := by
            rw [hst]
            exact List.chain'_cons.mpr ⟨hdep, hch0⟩
          refine Or.inr ⟨⟨dumpStack (enterPod st p target), by
            rw [← Option.some.inj he]⟩, ?_⟩
          exact cycle_of_stack C fl0 _ st.stack hch1 hpin
    | unvisited =>
      have heq : doResolve3 C (f + 1) st p target =
          r3Body C (fun st q t => doResolve3 C f st q t) (enterPod st p target) p := by
        simp only [doResolve3, hps]
      have hInv1 : R3Inv C fl0 (enterPod st p target) :=
        R3Inv_enter C fl0 st p target hInv hps hcall.2
      have hUV1 : UVcount C (enterPod st p target) + 1 = UVcount C st :=
        UV_enter C st p target hcall.1 hps
      have hm01 : Mono st (enterPod st p target) := by
        intro q hq
        show ¬upd st.pstates p .entered q = .unvisited
        by_cases hqp : q = p
        · rw [hqp, upd_same]
          simp
        · rw [upd_other _ _ _ _ hqp]
          exact hq
      have hlm01 : LeftM st (enterPod st p target) := by
        intro q hq
        show upd st.pstates p .entered q = .left
        by_cases hqp : q = p
        · rw [hqp] at hq
          rw [hq] at hps
          cases hps
        · rw [upd_other _ _ _ _ hqp]
          exact hq
      have hru01 : RowsU st (enterPod st p target) := fun _ _ _ => rfl
      have hstk1 : (enterPod st p target).stack =
          { pod := p, target := target, active := "" } :: st.stack := rfl
      have hImps := r3ImportsAux_spec C fl0 hWf f
        (fun st q t => doResolve3 C f st q t) ihf p (C.imps p) (enterPod st p target)
        hInv1 (fun ed hed => Or.inl ⟨ed, hed, rfl⟩)
        { pod := p, target := target, active := "" } st.stack hstk1 rfl
      have hErrLift : ∀ st2 e, Mono (enterPod st p target) st2 →
          ErrPost C fl0 f st2 e → ErrPost C fl0 (f + 1) st e := by
        intro st2 e hm he
        rcases he with ⟨hfe, hlt⟩ | hr
        · refine Or.inl ⟨hfe, ?_⟩
          have h1 : UVcount C st2 ≤ UVcount C (enterPod st p target) := UV_mono_le C hm
          omega
        · exact Or.inr hr
      rw [heq]
      cases hres1 : (r3Imports C (fun st q t => doResolve3 C f st q t)
          (enterPod st p target) p).2 with
      | some e =>
        have hbody : r3Body C (fun st q t => doResolve3 C f st q t)
            (enterPod st p target) p =
            r3Imports C (fun st q t => doResolve3 C f st q t) (enterPod st p target) p := by
          simp only [r3Body, hres1]
        rw [hbody]
        refine ⟨hm01.trans hImps.1, ?_, ?_⟩
        · intro h
          rw [hres1] at h
          simp at h
        · intro e2 he2
          rw [hres1] at he2
          rw [← Option.some.inj he2]
          exact hErrLift _ e Mono.rfl (hImps.2.2 e hres1)
      | none =>
        obtain ⟨hInv2, ⟨fr2, hstk2, hpod2⟩, hlm2, hru2, hpre2, htgt2⟩ := hImps.2.1 hres1
        have hInv2 : R3Inv C fl0 (r3Imports C (fun st q t => doResolve3 C f st q t)
            (enterPod st p target) p).1 := hInv2
        have hstk2 : (r3Imports C (fun st q t => doResolve3 C f st q t)
            (enterPod st p target) p).1.stack = fr2 :: st.stack := hstk2
        have hlm2 : LeftM (enterPod st p target)
            (r3Imports C (fun st q t => doResolve3 C f st q t)
              (enterPod st p target) p).1 := hlm2
        have hru2 : RowsU (enterPod st p target)
            (r3Imports C (fun st q t => doResolve3 C f st q t)
              (enterPod st p target) p).1 := hru2
        have hpre2 : (enterPod st p target).order <+:
            (r3Imports C (fun st q t => doResolve3 C f st q t)
              (enterPod st p target) p).1.order := hpre2
        have htgt2 : ∀ ed ∈ C.imps p,
            (r3Imports C (fun st q t => doResolve3 C f st q t)
              (enterPod st p target) p).1.pstates ed.2.1 = .left := htgt2
        have hmImps : Mono (enterPod st p target)
            (r3Imports C (fun st q t => doResolve3 C f st q t)
              (enterPod st p target) p).1 := hImps.1
        have hExps := r3ExportsAux_spec C fl0 hWf f
          (fun st q t => doResolve3 C f st q t) ihf p (C.exps p)
          (r3Imports C (fun st q t => doResolve3 C f st q t) (enterPod st p target) p).1
          hInv2 (fun ep h => h) fr2 st.stack hstk2 hpod2
        cases hres2 : (r3Exports C (fun st q t => doResolve3 C f st q t)
            (r3Imports C (fun st q t => doResolve3 C f st q t)
              (enterPod st p target) p).1 p).2 with
        | some e =>
          have hbody : r3Body C (fun st q t => doResolve3 C f st q t)
              (enterPod st p target) p =
              r3Exports C (fun st q t => doResolve3 C f st q t)
                (r3Imports C (fun st q t => doResolve3 C f st q t)
                  (enterPod st p target) p).1 p := by
            simp only [r3Body, hres1, hres2]
          rw [hbody]
          refine ⟨(hm01.trans hImps.1).trans hExps.1, ?_, ?_⟩
          · intro h
            rw [hres2] at h
            simp at h
          · intro e2 he2
            rw [hres2] at he2
            rw [← Option.some.inj he2]
            exact hErrLift _ e hImps.1 (hExps.2.2 e hres2)
        | none =>
          have hbody : r3Body C (fun st q t => doResolve3 C f st q t)
              (enterPod st p target) p =
              (appendPod (leavePod (r3Exports C (fun st q t => doResolve3 C f st q t)
                (r3Imports C (fun st q t => doResolve3 C f st q t)
                  (enterPod st p target) p).1 p).1) p, none) := by
            simp only [r3Body, hres1, hres2]
          obtain ⟨hInv3, ⟨fr3, hstk3, hpod3⟩, hlm3, hrux3, hpre3, hsortp3, hexp3⟩ :=
            hExps.2.1 hres2
          rw [hbody]
          set st3 := (r3Exports C (fun st q t => doResolve3 C f st q t)
            (r3Imports C (fun st q t => doResolve3 C f st q t)
              (enterPod st p target) p).1 p).1 with hst3def
          have hInv3 : R3Inv C fl0 st3 := hInv3
          have hstk3 : st3.stack = fr3 :: st.stack := hstk3
          have hlm3 : LeftM (r3Imports C (fun st q t => doResolve3 C f st q t)
              (enterPod st p target) p).1 st3 := hlm3
          have hrux3 : RowsUX p (r3Imports C (fun st q t => doResolve3 C f st q t)
              (enterPod st p target) p).1 st3 := hrux3
          have hpre3 : (r3Imports C (fun st q t => doResolve3 C f st q t)
              (enterPod st p target) p).1.order <+: st3.order := hpre3
          have hexp3 : ∀ ep ∈ C.exps p, PairwiseGe C (st3.flists p ep.1) ∧
              ∀ x ∈ fl0 p ep.1, x.1 ≠ p → st3.pstates x.1 = .left := hexp3
          have hlv : leavePod st3 =
              { st3 with
                stack := st.stack
                pstates := upd st3.pstates p .left } := by
            rw [leavePod_of_stack st3 fr3 st.stack hstk3, hpod3]
          have hfinal : appendPod (leavePod st3) p =
              { st3 with
                stack := st.stack
                pstates := upd st3.pstates p .left
                order := st3.order ++ [p] } := by
            rw [hlv]
            rfl
          rw [hfinal]
          have hpent3 : st3.pstates p = .entered := by
            have := entered_of_top C fl0 st3 hInv3 fr3 st.stack hstk3
            rwa [hpod3] at this
          have hmono03 : Mono st st3 := (hm01.trans hImps.1).trans hExps.1
          have hdepleft : ∀ q, depOn C fl0 p q → st3.pstates q = .left := by
            intro q hdep
            rcases hdep with ⟨ed, hed, hedq⟩ | ⟨ep, hep, fi, hfi, hqp⟩
            · have := htgt2 ed hed
              rw [hedq] at this
              exact hlm3 q this
            · exact (hexp3 ep hep).2 (q, fi) hfi hqp
          have hdepord : ∀ q, depOn C fl0 p q → q ∈ st3.order := by
            intro q hdep
            exact (hInv3.orderLeft q).mpr (hdepleft q hdep)
          have hpnotord : p ∉ st3.order := by
            intro hin
            rw [(hInv3.orderLeft p).mp hin] at hpent3
            cases hpent3
          refine ⟨?_, ?_, ?_⟩
          · intro q hq
            show ¬upd st3.pstates p .left q = .unvisited
            by_cases hqp : q = p
            · rw [hqp, upd_same]
              simp
            · rw [upd_other _ _ _ _ hqp]
              exact hmono03 q hq
          · intro _
            refine ⟨?_, ?_, rfl, ?_, ?_, ?_, ?_⟩
            · -- the invariant for the final state
              obtain ⟨hmem3, hord3, hnd3, htp3, hch3, hos3, hsn3, hls3⟩ := hInv3
              refine ⟨hmem3, ?_, ?_, ?_, ?_, ?_, ?_, ?_⟩
              · intro q
                show q ∈ st3.order ++ [p] ↔ upd st3.pstates p .left q = .left
                by_cases hqp : q = p
                · rw [hqp, upd_same]
                  simp
                · rw [upd_other _ _ _ _ hqp]
                  simp only [List.mem_append, List.mem_singleton]
                  constructor
                  · intro h
                    rcases h with h | h
                    · exact (hord3 q).mp h
                    · exact absurd h hqp
                  · intro h
                    exact Or.inl ((hord3 q).mpr h)
              · show (st3.order ++ [p]).Nodup
                refine List.Nodup.append hnd3 (by simp) ?_
                intro a ha hb
                simp only [List.mem_singleton] at hb
                exact hpnotord (hb ▸ ha)
              · show TopoOrd C fl0 (st3.order ++ [p])
                intro l1 q l2 hdec r hdep
                rcases snoc_decomp st3.order p l1 q l2 hdec with
                  ⟨hl1, hqp, _⟩ | ⟨l2', _, hL⟩
                · rw [hl1]
                  rw [hqp] at hdep
                  exact hdepord r hdep
                · exact htp3 l1 q l2' hL r hdep
              · show List.Chain' _ st.stack
                rw [hstk3] at hch3
                exact hch3.tail
              · intro q
                show upd st3.pstates p .left q = .entered ↔ q ∈ st.stack.map Frame.pod
                by_cases hqp : q = p
                · rw [hqp, upd_same]
                  constructor
                  · intro h
                    cases h
                  · intro h
                    have hpst : p ∈ st.stack.map Frame.pod := h
                    have := (hInv.onStack p).mpr hpst
                    rw [hps] at this
                    cases this
                · rw [upd_other _ _ _ _ hqp]
                  have := hos3 q
                  rw [hstk3] at this
                  simp only [List.map_cons, List.mem_cons] at this
                  constructor
                  · intro h
                    rcases this.mp h with h2 | h2
                    · exact absurd (h2.trans hpod3) hqp
                    · exact h2
                  · intro h
                    exact this.mpr (Or.inr h)
              · have := hsn3
                rw [hstk3] at this
                simp only [List.map_cons] at this
                exact (List.nodup_cons.mp this).2
              · intro q hq ep hep
                show PairwiseGe C (st3.flists q ep.1)
                by_cases hqp : q = p
                · rw [hqp]
                  exact (hexp3 ep (hqp ▸ hep)).1
                · have hql : upd st3.pstates p .left q = .left := hq
                  rw [upd_other _ _ _ _ hqp] at hql
                  exact hls3 q hql ep hep
            · show upd st3.pstates p .left p = .left
              rw [upd_same]
            · intro q hq
              show ¬upd st3.pstates p .left q = .unvisited
              by_cases hqp : q = p
              · rw [hqp, upd_same]
                simp
              · rw [upd_other _ _ _ _ hqp]
                exact hmono03 q hq
            · intro q hq
              show upd st3.pstates p .left q = .left
              by_cases hqp : q = p
              · rw [hqp, upd_same]
              · rw [upd_other _ _ _ _ hqp]
                exact (hlm2.ltrans hlm3) q (hlm01 q hq)
            · intro r hr e
              show st3.flists r e = st.flists r e
              have hrp : r ≠ p := by
                intro hrp
                rw [hrp] at hr
                exact hr hps
              have h1 : st3.flists r e =
                  (r3Imports C (fun st q t => doResolve3 C f st q t)
                    (enterPod st p target) p).1.flists r e :=
                hrux3 r hrp (hmImps r (hm01 r hr)) e
              rw [h1, hru2 r (hm01 r hr) e]
              rfl
            · show st.order <+: st3.order ++ [p]
              have h0 : st.order = (enterPod st p target).order := rfl
              rw [h0]
              exact (hpre2.trans hpre3).trans (List.prefix_append _ _)
          · intro e he
            simp at he

/-! ## Fold and rank lemmas -/

theorem foldStop_nil {α σ ε : Type _} (f : σ → α → σ × Option ε) (s : σ) :
    foldStop ([] : List α) s f = (s, none) := rfl

theorem foldStop_cons {α σ ε : Type _} (f : σ → α → σ × Option ε) (a : α)
    (l : List α) (s : σ) :
    foldStop (a :: l) s f =
      match (f s a).2 with
      | none => foldStop l (f s a).1 f
      | some _ => f s a := rfl

theorem foldStop_cons_none {α σ ε : Type _} (f : σ → α → σ × Option ε) (a : α)
    (l : List α) (s : σ) (h : (f s a).2 = none) :
    foldStop (a :: l) s f = foldStop l (f s a).1 f := by
  rw [foldStop_cons, h]

theorem foldStop_cons_some {α σ ε : Type _} (f : σ → α → σ × Option ε) (a : α)
    (l : List α) (s : σ) (e : ε) (h : (f s a).2 = some e) :
    foldStop (a :: l) s f = f s a := by
  rw [foldStop_cons, h]

theorem foldStop_inv {α σ ε : Type _} (f : σ → α → σ × Option ε) (I : σ → Prop)
    (hf : ∀ s a, I s → I (f s a).1) :
    ∀ (l : List α) (s : σ), I s → I (foldStop l s f).1 := by
  intro l
  induction l with
  | nil => intro s h; exact h
  | cons a l ih =>
    intro s h
    cases hr : (f s a).2 with
    | none => rw [foldStop_cons_none f a l s hr]; exact ih _ (hf s a h)
    | some e => rw [foldStop_cons_some f a l s e hr]; exact hf s a h

theorem foldStop_err {α σ ε : Type _} (f : σ → α → σ × Option ε) (P : ε → Prop)
    (hf : ∀ s a e, (f s a).2 = some e → P e) :
    ∀ (l : List α) (s : σ) (e : ε), (foldStop l s f).2 = some e → P e := by
  intro l
  induction l with
  | nil => intro s e h; rw [foldStop_nil] at h; exact absurd h (by simp)
  | cons a l ih =>
    intro s e h
    cases hr : (f s a).2 with
    | none => rw [foldStop_cons_none f a l s hr] at h; exact ih _ e h
    | some e' => rw [foldStop_cons_some f a l s e' hr] at h; exact hf s a e h

theorem foldStop_pres {α σ ε β : Type _} (f : σ → α → σ × Option ε) (proj : σ → β)
    (hf : ∀ s a, proj (f s a).1 = proj s) :
    ∀ (l : List α) (s : σ), proj (foldStop l s f).1 = proj s := by
  intro l
  induction l with
  | nil => intro s; rfl
  | cons a l ih =>
    intro s
    cases hr : (f s a).2 with
    | none => rw [foldStop_cons_none f a l s hr, ih, hf]
    | some e => rw [foldStop_cons_some f a l s e hr, hf]

theorem foldStop_rows_perm {α : Type _} (f : R3 → α → R3 × Option DErr)
    (hf : ∀ s a q e, ((f s a).1.flists q e).Perm (s.flists q e)) :
    ∀ (l : List α) (s : R3) (q e : Nat),
      ((foldStop l s f).1.flists q e).Perm (s.flists q e) := by
  intro l
  induction l with
  | nil => intro s q e; exact List.Perm.refl _
  | cons a l ih =>
    intro s q e
    cases hr : (f s a).2 with
    | none =>
      rw [foldStop_cons_none f a l s hr]
      exact (ih (f s a).1 q e).trans (hf s a q e)
    | some er =>
      rw [foldStop_cons_some f a l s er hr]
      exact hf s a q e

theorem foldl_write_get_ne {α : Type _} (g : (FKey → Val) → α → FKey → Val)
    (key : α → FKey) (hg : ∀ f j k, key j ≠ k → g f j k = f k) :
    ∀ (l : List α) (f : FKey → Val) (k : FKey), (∀ j ∈ l, key j ≠ k) →
      (l.foldl g f) k = f k := by
  intro l
  induction l with
  | nil => intro f k _; rfl
  | cons a l ih =>
    intro f k h
    rw [List.foldl_cons, ih _ k (fun j hj => h j (List.mem_cons_of_mem a hj))]
    exact hg f a k (h a (List.mem_cons_self a l))

theorem foldl_write_get_mem {α : Type _} [DecidableEq α]
    (g : (FKey → Val) → α → FKey → Val) (key : α → FKey) (c : α → Val)
    (hg : ∀ f j k, key j ≠ k → g f j k = f k)
    (hw : ∀ f j, g f j (key j) = c j)
    (hinj : ∀ a b, key a = key b → a = b) :
    ∀ (l : List α) (f : FKey → Val) (i : α), i ∈ l →
      (l.foldl g f) (key i) = c i := by
  intro l
  induction l with
  | nil => intro f i hi; exact absurd hi (by simp)
  | cons a l ih =>
    intro f i hi
    rw [List.foldl_cons]
    by_cases hmem : i ∈ l
    · exact ih _ i hmem
    · have hia : i = a := by
        rcases List.mem_cons.mp hi with h | h
        · exact h
        · exact absurd h hmem
      subst hia
      rw [foldl_write_get_ne g key hg l _ (key i)
        (fun j hj heq => absurd ((hinj j i heq) ▸ hj) hmem)]
      exact hw f i

theorem importCopy_get (W : List PodM) (impT : Nat → Nat → ExportRef) (p : Nat) :
    ∀ (l : List Nat) (f : FKey → Val) (i : Nat), i ∈ l →
      (l.foldl (fun f i =>
          upd f (FKey.imp p i) (f (FKey.exp (impT p i).1 (impT p i).2))) f)
        (FKey.imp p i) = f (FKey.exp (impT p i).1 (impT p i).2) := by
  intro l
  induction l with
  | nil => intro f i hi; exact absurd hi (by simp)
  | cons a l ih =>
    intro f i hi
    rw [List.foldl_cons]
    by_cases hmem : i ∈ l
    · rw [ih _ i hmem]
      exact upd_other _ _ _ _ (by simp)
    · have hia : i = a := by
        rcases List.mem_cons.mp hi with h | h
        · exact h
        · exact absurd h hmem
      subst hia
      rw [foldl_write_get_ne
        (fun f j => upd f (FKey.imp p j) (f (FKey.exp (impT p j).1 (impT p j).2)))
        (fun j => FKey.imp p j)
        (fun f j k hk => upd_other _ _ _ _ (Ne.symm hk)) l _ (FKey.imp p i)
        (fun j hj heq => absurd (((FKey.imp.inj heq).2) ▸ hj) hmem)]
      exact upd_same _ _ _

theorem rankIn_lt_length (q : Nat) : ∀ L : List Nat, q ∈ L → rankIn L q < L.length := by
  intro L
  induction L with
  | nil => intro h; exact absurd h (by simp)
  | cons a t ih =>
    intro h
    by_cases ha : a = q
    · simp [rankIn, ha]
    · have hq : q ∈ t := by
        rcases List.mem_cons.mp h with h1 | h1
        · exact absurd h1.symm ha
        · exact h1
      have := ih hq
      simp only [rankIn, if_neg ha, List.length_cons]
      omega

theorem rankIn_append_left (q : Nat) : ∀ s u : List Nat, q ∈ s →
    rankIn (s ++ u) q = rankIn s q := by
  intro s
  induction s with
  | nil => intro u h; exact absurd h (by simp)
  | cons a t ih =>
    intro u h
    by_cases ha : a = q
    · simp [rankIn, ha]
    · have hq : q ∈ t := by
        rcases List.mem_cons.mp h with h1 | h1
        · exact absurd h1.symm ha
        · exact h1
      simp only [List.cons_append, rankIn, if_neg ha]
      show rankIn (t ++ u) q + 1 = rankIn t q + 1
      rw [ih u hq]

theorem rankIn_append_mid (a : Nat) : ∀ s t : List Nat, a ∉ s →
    rankIn (s ++ a :: t) a = s.length := by
  intro s
  induction s with
  | nil => intro t _; simp [rankIn]
  | cons x s ih =>
    intro t h
    have hxa : x ≠ a := fun hh => h (hh ▸ List.mem_cons_self x s)
    simp only [List.cons_append, rankIn, if_neg hxa, List.length_cons]
    show rankIn (s ++ a :: t) a + 1 = s.length + 1
    rw [ih t (fun hm => h (List.mem_cons_of_mem x hm))]

theorem rankIn_notMem (q : Nat) : ∀ L : List Nat, q ∉ L → rankIn L q = L.length := by
  intro L
  induction L with
  | nil => intro _; rfl
  | cons a t ih =>
    intro h
    have ha : a ≠ q := fun hh => h (hh ▸ List.mem_cons_self a t)
    simp only [rankIn, if_neg ha, List.length_cons,
      ih (fun hm => h (List.mem_cons_of_mem a hm))]

theorem chain_rank {R : Nat → Nat → Prop} (rank : Nat → Nat)
    (hR : ∀ a b, R a b → rank b < rank a) :
    ∀ (l : List Nat) (a : Nat), List.Chain R a l → ∀ b ∈ l, rank b < rank a := by
  intro l
  induction l with
  | nil => intro a _ b hb; exact absurd hb (by simp)
  | cons x l ih =>
    intro a hch b hb
    rcases List.chain_cons.mp hch with ⟨hax, hxl⟩
    rcases List.mem_cons.mp hb with hbx | hbl
    · exact hbx ▸ hR a x hax
    · exact lt_trans (ih x hxl b hbl) (hR a x hax)

/-- A topologically ordered, duplicate-free completion order containing
every pool pod rules out a dependency cycle. -/
theorem no_cycle_of_complete (C : R3Cfg) (fl : Nat → Nat → List FilterRef)
    (L : List Nat) (hN : L.Nodup) (hT : TopoOrd C fl L) (hWf : WfDeps C fl)
    (hAll : ∀ p, p < C.n → p ∈ L) : ¬ HasDepCycle C fl := by
  rintro ⟨l, hne, hch⟩
  have hR : ∀ a b, depOn C fl a b → rankIn L b < rankIn L a := by
    intro a b hdep
    have hbL : b ∈ L := hAll b (hWf a b hdep)
    by_cases haL : a ∈ L
    · rcases List.append_of_mem haL with ⟨s, t, hdec⟩
      have hbs : b ∈ s := hT s a t hdec b hdep
      have haS : a ∉ s := by
        intro haS
        have hdisj := List.disjoint_of_nodup_append (hdec ▸ hN)
        exact hdisj haS (List.mem_cons_self a t)
      rw [hdec, rankIn_append_left b s (a :: t) hbs, rankIn_append_mid a s t haS]
      exact rankIn_lt_length b s hbs
    · rw [rankIn_notMem a L haL]
      exact rankIn_lt_length b L hbL
  cases l with
  | nil => exact hne rfl
  | cons p0 tail =>
    have hchain : List.Chain (depOn C fl) p0 (tail ++ [p0]) := by
      simpa using hch
    have hmem : p0 ∈ tail ++ [p0] :=
      List.mem_append_right _ (List.mem_singleton.mpr rfl)
    exact absurd (chain_rank (rankIn L) hR (tail ++ [p0]) p0 hchain p0 hmem)
      (lt_irrefl _)

/-! ## Pool-level corollaries of the phase-3 induction -/

theorem UVcount_le (C : R3Cfg) (st : R3) : UVcount C st ≤ C.n := by
  unfold UVcount
  calc ((List.range C.n).filter fun q => st.pstates q = .unvisited).length
      ≤ (List.range C.n).length := List.length_filter_le _ _
    _ = C.n := List.length_range C.n

theorem initR3_inv (C : R3Cfg) (fl0 : Nat → Nat → List FilterRef) :
    R3Inv C fl0 (initR3 fl0) := by
  refine ⟨fun p e x => Iff.rfl, ?_, List.nodup_nil, ?_, List.chain'_nil, ?_,
    List.nodup_nil, ?_⟩
  · intro p
    simp [initR3]
  · intro l1 p l2 h
    exact absurd h (by simp [initR3])
  · intro q
    simp [initR3]
  · intro p hp
    simp [initR3] at hp

/-- The phase-3 root loop: starting from an empty stack and the invariant,
it preserves both on success, marks every listed pod left, and fails only
per `ErrPost`. -/
theorem r3Pool_fold_spec (C : R3Cfg) (fl0 : Nat → Nat → List FilterRef)
    (hWf : WfDeps C fl0) (fuel : Nat) :
    ∀ (l : List Nat) (st : R3), R3Inv C fl0 st → st.stack = [] →
      (∀ p ∈ l, p < C.n) →
      ((foldStop l st fun st p => doResolve3 C fuel st p "").2 = none →
        R3Inv C fl0 (foldStop l st fun st p => doResolve3 C fuel st p "").1 ∧
        (foldStop l st fun st p => doResolve3 C fuel st p "").1.stack = [] ∧
        LeftM st (foldStop l st fun st p => doResolve3 C fuel st p "").1 ∧
        ∀ p ∈ l,
          (foldStop l st fun st p => doResolve3 C fuel st p "").1.pstates p = .left) ∧
      ∀ e, (foldStop l st fun st p => doResolve3 C fuel st p "").2 = some e →
        ErrPost C fl0 fuel st e := by
  intro l
  induction l with
  | nil =>
    intro st hInv hstk _
    refine ⟨fun _ => ⟨hInv, hstk, LeftM.lrefl, by simp⟩, ?_⟩
    intro e he
    rw [foldStop_nil] at he
    exact absurd he (by simp)
  | cons p l ih =>
    intro st hInv hstk hl
    have hcall : CallOK C fl0 st p := ⟨hl p (List.mem_cons_self p l), Or.inl hstk⟩
    have hrec := doResolve3_ok C fl0 hWf fuel st p "" hInv hcall
    cases hr : (doResolve3 C fuel st p "").2 with
    | some e =>
      rw [foldStop_cons_some (fun st p => doResolve3 C fuel st p "") p l st e hr]
      refine ⟨?_, ?_⟩
      · intro hnone
        rw [hr] at hnone
        exact absurd hnone (by simp)
      · intro e' he'
        rw [hr] at he'
        exact (Option.some.inj he') ▸ hrec.2.2 e hr
    | none =>
      obtain ⟨hInv1, hleftp, hstk1, hmono, hlm, hrows, hpre⟩ := hrec.2.1 hr
      rw [foldStop_cons_none (fun st p => doResolve3 C fuel st p "") p l st hr]
      have hstk1' : (doResolve3 C fuel st p "").1.stack = [] := by rw [hstk1, hstk]
      have hih := ih (doResolve3 C fuel st p "").1 hInv1 hstk1'
        (fun q hq => hl q (List.mem_cons_of_mem p hq))
      refine ⟨?_, ?_⟩
      · intro hnone
        obtain ⟨hInv2, hstk2, hlm2, hleft2⟩ := hih.1 hnone
        refine ⟨hInv2, hstk2, hlm.ltrans hlm2, ?_⟩
        intro q hq
        rcases List.mem_cons.mp hq with rfl | hq'
        · exact hlm2 q hleftp
        · exact hleft2 q hq'
      · intro e he
        exact ErrPost_weaken C fl0 fuel hmono (hih.2 e he)

/-- On success, phase 3 ends with the invariant and every pool pod left. -/
theorem resolve3_ok_spec (C : R3Cfg) (fl0 : Nat → Nat → List FilterRef)
    (hWf : WfDeps C fl0) (h : (resolve3 C fl0).2 = none) :
    R3Inv C fl0 (resolve3 C fl0).1 ∧
      ∀ p, p < C.n → (resolve3 C fl0).1.pstates p = .left := by
  have hspec := r3Pool_fold_spec C fl0 hWf (C.n + 1) (List.range C.n) (initR3 fl0)
    (initR3_inv C fl0) rfl (fun p hp => List.mem_range.mp hp)
  have hsucc := hspec.1 h
  exact ⟨hsucc.1, fun p hp => hsucc.2.2.2 p (List.mem_range.mpr hp)⟩

/-- On failure, phase 3 can only report a circular dependency (the fuel
marker is unreachable at fuel `C.n + 1`), and the dependency relation then
really has a cycle. -/
theorem resolve3_err_spec (C : R3Cfg) (fl0 : Nat → Nat → List FilterRef)
    (hWf : WfDeps C fl0) (e : DErr) (h : (resolve3 C fl0).2 = some e) :
    (∃ tr, e = .circular tr) ∧ HasDepCycle C fl0 := by
  have hspec := r3Pool_fold_spec C fl0 hWf (C.n + 1) (List.range C.n) (initR3 fl0)
    (initR3_inv C fl0) rfl (fun p hp => List.mem_range.mp hp)
  rcases hspec.2 e h with ⟨_, hlt⟩ | hr
  · exact absurd hlt (by have := UVcount_le C (initR3 fl0); omega)
  · exact hr

/-! ## Concrete phase-3 views: well-formedness, acyclicity, cyclicity -/

theorem wCfg_wf : WfDeps wCfg wFl := by
  intro p q h
  rcases h with ⟨ed, hed, hq⟩ | ⟨ep, hep, fi, hfi, hne⟩
  · have himps : wCfg.imps p = if p = 1 then [("B.i", 0, "A.e")] else [] := rfl
    rw [himps] at hed
    by_cases hp : p = 1
    · rw [if_pos hp, List.mem_singleton] at hed
      rw [hed] at hq
      have hq0 : q = 0 := by simpa using hq.symm
      rw [hq0]
      decide
    · rw [if_neg hp] at hed
      exact absurd hed (by simp)
  · have hrow : wFl p ep.1 = [] := rfl
    rw [hrow] at hfi
    exact absurd hfi (by simp)

theorem wCfg_acyc : ¬ HasDepCycle wCfg wFl := by
  have h := resolve3_ok_spec wCfg wFl wCfg_wf rfl
  exact no_cycle_of_complete wCfg wFl (resolve3 wCfg wFl).1.order h.1.nodup h.1.topo
    wCfg_wf (fun p hp => (h.1.orderLeft p).mpr (h.2 p hp))

theorem wcCfg_wf : WfDeps wcCfg wFl := by
  intro p q h
  rcases h with ⟨ed, hed, hq⟩ | ⟨ep, hep, fi, hfi, hne⟩
  · have himps : wcCfg.imps p =
        if p = 0 then [("A.i", 1, "B.e")]
        else if p = 1 then [("B.i", 0, "A.e")] else [] := rfl
    rw [himps] at hed
    by_cases hp0 : p = 0
    · rw [if_pos hp0, List.mem_singleton] at hed
      rw [hed] at hq
      have hq1 : q = 1 := by simpa using hq.symm
      rw [hq1]
      decide
    · rw [if_neg hp0] at hed
      by_cases hp1 : p = 1
      · rw [if_pos hp1, List.mem_singleton] at hed
        rw [hed] at hq
        have hq0 : q = 0 := by simpa using hq.symm
        rw [hq0]
        decide
      · rw [if_neg hp1] at hed
        exact absurd hed (by simp)
  · have hrow : wFl p ep.1 = [] := rfl
    rw [hrow] at hfi
    exact absurd hfi (by simp)

theorem wcCfg_cyc : HasDepCycle wcCfg wFl := by
  refine ⟨[0, 1], by simp, ?_⟩
  have e01 : depOn wcCfg wFl 0 1 := Or.inl ⟨("A.i", 1, "B.e"), by decide, rfl⟩
  have e10 : depOn wcCfg wFl 1 0 := Or.inl ⟨("B.i", 0, "A.e"), by decide, rfl⟩
  show List.Chain' (depOn wcCfg wFl) [0, 1, 0]
  exact List.chain'_cons.mpr ⟨e01, List.chain'_cons.mpr ⟨e10, List.chain'_singleton 0⟩⟩

/-- Each successful filter-hook step prepends its event to the log. -/
theorem foldStop_events {α : Type _} (f : PoolSt → α → PoolSt × Option DErr)
    (g : α → Ev) (hf : ∀ s a, (f s a).2 = none → (f s a).1.events = g a :: s.events) :
    ∀ (l : List α) (s : PoolSt), (foldStop l s f).2 = none →
      (foldStop l s f).1.events = (l.map g).reverse ++ s.events := by
  intro l
  induction l with
  | nil => intro s _; simp [foldStop_nil]
  | cons a l ih =>
    intro s h
    cases hr : (f s a).2 with
    | none =>
      rw [foldStop_cons_none f a l s hr] at h ⊢
      rw [ih _ h, hf s a hr]
      simp
    | some e =>
      rw [foldStop_cons_some f a l s e hr, hr] at h
      exact absurd h (by simp)

/-- A successful filter pass invokes the hooks in exactly the order of the
filter list, logging them newest first. -/
theorem runFilters_events (W : List PodM) (p e : Nat) (l : List FilterRef)
    (ps : PoolSt) (h : (runFilters W p e l ps).2 = none) :
    (runFilters W p e l ps).1.events =
      (l.map fun fr => Ev.filterHook fr.1 fr.2).reverse ++ ps.events := by
  refine foldStop_events _ (fun fr => Ev.filterHook fr.1 fr.2) ?_ l _ h
  intro s fr hnone
  revert hnone
  show (match (fltAt W fr.1 fr.2).hook s.fields (s.fields (FKey.exp p e)) with
      | .error m => ({ s with events := Ev.filterHook fr.1 fr.2 :: s.events },
          some (DErr.filterFailed p m))
      | .ok v => ({ s with
          events := Ev.filterHook fr.1 fr.2 :: s.events
          fields := upd s.fields (FKey.exp p e) v }, none)).2 = none →
    (match (fltAt W fr.1 fr.2).hook s.fields (s.fields (FKey.exp p e)) with
      | .error m => ({ s with events := Ev.filterHook fr.1 fr.2 :: s.events },
          some (DErr.filterFailed p m))
      | .ok v => ({ s with
          events := Ev.filterHook fr.1 fr.2 :: s.events
          fields := upd s.fields (FKey.exp p e) v }, none)).1.events =
      Ev.filterHook fr.1 fr.2 :: s.events
  cases hk : (fltAt W fr.1 fr.2).hook s.fields (s.fields (FKey.exp p e)) with
  | error m => intro hnone; exact absurd hnone (by simp)
  | ok v => intro _; rfl

/-! ## Claim theorems -/

/-- C4: for every well-formed acyclic wiring, resolution phase 3 succeeds
and the completion order it links (`firstPod`..`lastPod`) is a valid
topological order of the dependency relation — every pod appears after each
pod one of its imports resolved to and after each distinct pod owning a
filter attached to one of its exports — and the order contains every pool
pod. -/
theorem claim_C4 (C : R3Cfg) (fl0 : Nat → Nat → List FilterRef)
    (hWf : WfDeps C fl0) (hAcyc : ¬ HasDepCycle C fl0) :
    (resolve3 C fl0).2 = none ∧
    TopoOrd C fl0 (resolve3 C fl0).1.order ∧
    ∀ p, p < C.n → p ∈ (resolve3 C fl0).1.order := by
  cases hres : (resolve3 C fl0).2 with
  | some e => exact absurd (resolve3_err_spec C fl0 hWf e hres).2 hAcyc
  | none =>
    obtain ⟨hInv, hleft⟩ := resolve3_ok_spec C fl0 hWf hres
    exact ⟨rfl, hInv.topo, fun p hp => (hInv.orderLeft p).mpr (hleft p hp)⟩

/-- Witness for C4 on the concrete two-pod acyclic view `wCfg`. -/
theorem claim_C4_witness :
    (resolve3 wCfg wFl).2 = none ∧ 1 ∈ (resolve3 wCfg wFl).1.order :=
  ⟨(claim_C4 wCfg wFl wCfg_wf wCfg_acyc).1,
   (claim_C4 wCfg wFl wCfg_wf wCfg_acyc).2.2 1 (by decide)⟩

/-- C5 (amended): for every well-formed wiring whose dependency relation
contains a cycle, resolution phase 3 fails with a `CircularDependency`
error, whose trace `DumpStack` builds per frame from the triggering-entry
path and the active-entry path, frames joined by an arrow; the trace is NOT
in general identical across repeated resolutions of the same pool, because
the in-place re-sort can flip equal-priority filters and change the
traversal (see the counterexample). -/
theorem claim_C5 (C : R3Cfg) (fl0 : Nat → Nat → List FilterRef)
    (hWf : WfDeps C fl0) (hCyc : HasDepCycle C fl0) :
    ∃ tr, (resolve3 C fl0).2 = some (.circular tr) := by
  cases hres : (resolve3 C fl0).2 with
  | none =>
    obtain ⟨hInv, hleft⟩ := resolve3_ok_spec C fl0 hWf hres
    exact absurd hCyc (no_cycle_of_complete C fl0 (resolve3 C fl0).1.order
      hInv.nodup hInv.topo hWf (fun p hp => (hInv.orderLeft p).mpr (hleft p hp)))
  | some e =>
    obtain ⟨⟨tr, htr⟩, _⟩ := resolve3_err_spec C fl0 hWf e hres
    exact ⟨tr, by rw [htr]⟩

/-- Witness for C5 on the concrete two-pod cyclic view `wcCfg`. -/
theorem claim_C5_witness :
    ∃ tr, (resolve3 wcCfg wFl).2 = some (.circular tr) :=
  claim_C5 wcCfg wFl wcCfg_wf wcCfg_cyc

/-- C2 (amended): after a successful resolution every export's filter list
is sorted by descending priority — non-strictly on ties; an equal-priority
run does NOT keep its discovery order (the non-strict unstable sort reverses
it, see the counterexample) — and a successful setup filter pass invokes
the filter hooks in exactly the order of that list. -/
theorem claim_C2 (C : R3Cfg) (fl0 : Nat → Nat → List FilterRef)
    (hWf : WfDeps C fl0) (hok : (resolve3 C fl0).2 = none) :
    (∀ p, p < C.n → ∀ ep ∈ C.exps p,
      PairwiseGe C ((resolve3 C fl0).1.flists p ep.1)) ∧
    ∀ (W : List PodM) (p e : Nat) (l : List FilterRef) (ps : PoolSt),
      (runFilters W p e l ps).2 = none →
      (runFilters W p e l ps).1.events =
        (l.map fun fr => Ev.filterHook fr.1 fr.2).reverse ++ ps.events := by
  obtain ⟨hInv, hleft⟩ := resolve3_ok_spec C fl0 hWf hok
  exact ⟨fun p hp ep hep => hInv.leftSorted p (hleft p hp) ep hep,
    fun W p e l ps h => runFilters_events W p e l ps h⟩

/-- Witness for C2: the sorted filter row of `wCfg` and the hook order of a
one-filter run on the greeting pool. -/
theorem claim_C2_witness :
    PairwiseGe wCfg ((resolve3 wCfg wFl).1.flists 0 0) ∧
    (runFilters gPool 0 0 [(2, 0)] (initPoolSt gPool)).1.events =
      (([(2, 0)] : List FilterRef).map fun fr => Ev.filterHook fr.1 fr.2).reverse ++
        (initPoolSt gPool).events :=
  ⟨(claim_C2 wCfg wFl wCfg_wf rfl).1 0 (by decide) (0, "A.e") (by decide),
   (claim_C2 wCfg wFl wCfg_wf rfl).2 gPool 0 0 [(2, 0)] (initPoolSt gPool) rfl⟩

/-- A filter pass never writes an import field. -/
theorem runFilters_fields_ne (W : List PodM) (p e : Nat) (l : List FilterRef)
    (ps : PoolSt) (a b : Nat) :
    (runFilters W p e l ps).1.fields (FKey.imp a b) = ps.fields (FKey.imp a b) := by
  have hstep : ∀ (s : PoolSt) (fr : FilterRef),
      ((fun (s : PoolSt) (fr : FilterRef) =>
        let s1 : PoolSt := { s with events := Ev.filterHook fr.1 fr.2 :: s.events }
        match (fltAt W fr.1 fr.2).hook s1.fields (s1.fields (FKey.exp p e)) with
        | .error m => (s1, some (DErr.filterFailed p m))
        | .ok v => ({ s1 with fields := upd s1.fields (FKey.exp p e) v }, none)) s
        fr).1.fields (FKey.imp a b) = s.fields (FKey.imp a b) := by
    intro s fr
    show (match (fltAt W fr.1 fr.2).hook s.fields (s.fields (FKey.exp p e)) with
      | .error m => ({ s with events := Ev.filterHook fr.1 fr.2 :: s.events },
          some (DErr.filterFailed p m))
      | .ok v => ({ s with
          events := Ev.filterHook fr.1 fr.2 :: s.events
          fields := upd s.fields (FKey.exp p e) v }, none)).1.fields (FKey.imp a b) =
      s.fields (FKey.imp a b)
    cases hk : (fltAt W fr.1 fr.2).hook s.fields (s.fields (FKey.exp p e)) with
    | error m => rfl
    | ok v => exact upd_other s.fields (FKey.exp p e) (FKey.imp a b) v (by simp)
  refine (foldStop_pres _ (fun s : PoolSt => s.fields (FKey.imp a b)) hstep l _).trans ?_
  show (l.foldl (fun f fr => upd f (FKey.flt fr.1 fr.2) (Val.ptrV p e)) ps.fields)
      (FKey.imp a b) = ps.fields (FKey.imp a b)
  exact foldl_write_get_ne _ (fun fr => FKey.flt fr.1 fr.2)
    (fun f j k hk => upd_other _ _ _ _ (Ne.symm hk)) l ps.fields (FKey.imp a b)
    (fun fr hfr => by simp)

/-- A failing filter pass reports a wrapped filter-hook error of its pod. -/
theorem runFilters_err (W : List PodM) (p e : Nat) (l : List FilterRef)
    (ps : PoolSt) (er : DErr) (h : (runFilters W p e l ps).2 = some er) :
    ∃ m, er = .filterFailed p m := by
  refine foldStop_err _ (fun er => ∃ m, er = DErr.filterFailed p m) ?_ l _ er h
  intro s fr er' h'
  revert h'
  show (match (fltAt W fr.1 fr.2).hook s.fields (s.fields (FKey.exp p e)) with
    | .error m => ({ s with events := Ev.filterHook fr.1 fr.2 :: s.events },
        some (DErr.filterFailed p m))
    | .ok v => ({ s with
        events := Ev.filterHook fr.1 fr.2 :: s.events
        fields := upd s.fields (FKey.exp p e) v }, none)).2 = some er' →
    ∃ m, er' = DErr.filterFailed p m
  cases hk : (fltAt W fr.1 fr.2).hook s.fields (s.fields (FKey.exp p e)) with
  | error m =>
    intro h'
    exact ⟨m, (Option.some.inj h').symm⟩
  | ok v =>
    intro h'
    exact absurd h' (by simp)

/-- A failing `pod.SetUp` returns the failing hook's error wrapped as a
setup or filter failure of that pod — never swallowed. -/
theorem podSetUp_err (W : List PodM) (impT : Nat → Nat → ExportRef) (p : Nat)
    (ps : PoolSt) (e : DErr) (h : (podSetUp W impT p ps).2 = some e) :
    (∃ m, e = .setupFailed p m) ∨ ∃ m, e = .filterFailed p m := by
  cases hk : (podAt W p).setupHook
      ((List.range (podAt W p).imports.length).foldl
        (fun f i => upd f (FKey.imp p i) (f (FKey.exp (impT p i).1 (impT p i).2)))
        ps.fields) with
  | error m =>
    have hres : (podSetUp W impT p ps).2 = some (.setupFailed p m) := by
      simp only [podSetUp, hk]
    rw [hres] at h
    exact Or.inl ⟨m, (Option.some.inj h).symm⟩
  | ok upds =>
    cases hr : (foldStop (List.range (podAt W p).exports.length)
        ({ ps with
            fields := upds.foldl (fun f ev => upd f (FKey.exp p ev.1) ev.2)
              ((List.range (podAt W p).imports.length).foldl
                (fun f i =>
                  upd f (FKey.imp p i) (f (FKey.exp (impT p i).1 (impT p i).2)))
                ps.fields)
            events := Ev.setupHook p :: ps.events })
        fun ps e => runFilters W p e (ps.flists p e) ps).2 with
    | none =>
      have hres : (podSetUp W impT p ps).2 = none := by
        simp only [podSetUp, hk, hr]
      rw [hres] at h
      exact absurd h (by simp)
    | some er =>
      have hres : (podSetUp W impT p ps).2 = some er := by
        simp only [podSetUp, hk, hr]
      rw [hres] at h
      have her := foldStop_err
        (fun (s : PoolSt) (e' : Nat) => runFilters W p e' (s.flists p e') s)
        (fun er => ∃ m, er = DErr.filterFailed p m)
        (fun s e' er' h' => runFilters_err W p e' (s.flists p e') s er' h')
        (List.range (podAt W p).exports.length) _ er hr
      exact Or.inr ((Option.some.inj h) ▸ her)

/-- C3 (amended): when a pod is set up, each of its import fields receives
the value its resolved target export field holds at that moment — i.e.
AFTER any filter hooks that already ran on the exporting pod (for wirings
where the exporter precedes the importer), not the value the export held
when the exporter's setup hook returned (see the counterexample). -/
theorem claim_C3 (W : List PodM) (impT : Nat → Nat → ExportRef) (p : Nat)
    (ps : PoolSt) (i : Nat) (hi : i < (podAt W p).imports.length)
    (hok : (podSetUp W impT p ps).2 = none) :
    (podSetUp W impT p ps).1.fields (FKey.imp p i) =
      ps.fields (FKey.exp (impT p i).1 (impT p i).2) := by
  cases hk : (podAt W p).setupHook
      ((List.range (podAt W p).imports.length).foldl
        (fun f i => upd f (FKey.imp p i) (f (FKey.exp (impT p i).1 (impT p i).2)))
        ps.fields) with
  | error m =>
    have hres : (podSetUp W impT p ps).2 = some (.setupFailed p m) := by
      simp only [podSetUp, hk]
    rw [hres] at hok
    exact absurd hok (by simp)
  | ok upds =>
    cases hr : (foldStop (List.range (podAt W p).exports.length)
        ({ ps with
            fields := upds.foldl (fun f ev => upd f (FKey.exp p ev.1) ev.2)
              ((List.range (podAt W p).imports.length).foldl
                (fun f i =>
                  upd f (FKey.imp p i) (f (FKey.exp (impT p i).1 (impT p i).2)))
                ps.fields)
            events := Ev.setupHook p :: ps.events })
        fun ps e => runFilters W p e (ps.flists p e) ps).2 with
    | some er =>
      have hres : (podSetUp W impT p ps).2 = some er := by
        simp only [podSetUp, hk, hr]
      rw [hres] at hok
      exact absurd hok (by simp)
    | none =>
      have hres : (podSetUp W impT p ps).1 =
          (foldStop (List.range (podAt W p).exports.length)
            ({ ps with
                fields := upds.foldl (fun f ev => upd f (FKey.exp p ev.1) ev.2)
                  ((List.range (podAt W p).imports.length).foldl
                    (fun f i =>
                      upd f (FKey.imp p i) (f (FKey.exp (impT p i).1 (impT p i).2)))
                    ps.fields)
                events := Ev.setupHook p :: ps.events })
            fun ps e => runFilters W p e (ps.flists p e) ps).1 := by
        simp only [podSetUp, hk, hr]
      rw [hres]
      refine (foldStop_pres _ (fun s => s.fields (FKey.imp p i))
        (fun s e => runFilters_fields_ne W p e (s.flists p e) s p i) _ _).trans ?_
      show (upds.foldl (fun f ev => upd f (FKey.exp p ev.1) ev.2)
          ((List.range (podAt W p).imports.length).foldl
            (fun f i =>
              upd f (FKey.imp p i) (f (FKey.exp (impT p i).1 (impT p i).2)))
            ps.fields)) (FKey.imp p i) =
        ps.fields (FKey.exp (impT p i).1 (impT p i).2)
      rw [foldl_write_get_ne _ (fun ev => FKey.exp p ev.1)
        (fun f j k hk => upd_other _ _ _ _ (Ne.symm hk)) upds _ (FKey.imp p i)
        (fun ev hev => by simp)]
      exact importCopy_get W impT p (List.range (podAt W p).imports.length)
        ps.fields i (List.mem_range.mpr hi)

/-- Witness for C3 on the greeting pool: setting pod B up copies pod A's
current export field into B's import field. -/
theorem claim_C3_witness :
    (podSetUp gPool (fun _ _ => (0, 0)) 1 (initPoolSt gPool)).1.fields (FKey.imp 1 0) =
      (initPoolSt gPool).fields (FKey.exp 0 0) :=
  claim_C3 gPool (fun _ _ => (0, 0)) 1 (initPoolSt gPool) 0 (by decide) rfl

theorem poolSetupLoop_nil (W : List PodM) (impT : Nat → Nat → ExportRef)
    (done : List Nat) (ps : PoolSt) :
    poolSetupLoop W impT done [] ps = (ps, none) := rfl

theorem poolSetupLoop_cons_ok (W : List PodM) (impT : Nat → Nat → ExportRef)
    (done : List Nat) (p : Nat) (rest : List Nat) (ps : PoolSt)
    (h : (podSetUp W impT p ps).2 = none) :
    poolSetupLoop W impT done (p :: rest) ps =
      poolSetupLoop W impT (p :: done) rest (podSetUp W impT p ps).1 := by
  show (match (podSetUp W impT p ps).2 with
    | none => poolSetupLoop W impT (p :: done) rest (podSetUp W impT p ps).1
    | some e =>
      (done.foldl (fun ps q => podTearDown W q ps) (podSetUp W impT p ps).1,
        some e)) = _
  rw [h]

theorem poolSetupLoop_cons_err (W : List PodM) (impT : Nat → Nat → ExportRef)
    (done : List Nat) (p : Nat) (rest : List Nat) (ps : PoolSt) (e : DErr)
    (h : (podSetUp W impT p ps).2 = some e) :
    poolSetupLoop W impT done (p :: rest) ps =
      (done.foldl (fun ps q => podTearDown W q ps) (podSetUp W impT p ps).1,
        some e) := by
  show (match (podSetUp W impT p ps).2 with
    | none => poolSetupLoop W impT (p :: done) rest (podSetUp W impT p ps).1
    | some e =>
      (done.foldl (fun ps q => podTearDown W q ps) (podSetUp W impT p ps).1,
        some e)) = _
  rw [h]

theorem setupSeq_nil (W : List PodM) (impT : Nat → Nat → ExportRef) (ps : PoolSt) :
    setupSeq W impT [] ps = some ps := rfl

theorem setupSeq_cons_ok (W : List PodM) (impT : Nat → Nat → ExportRef)
    (p : Nat) (rest : List Nat) (ps : PoolSt)
    (h : (podSetUp W impT p ps).2 = none) :
    setupSeq W impT (p :: rest) ps = setupSeq W impT rest (podSetUp W impT p ps).1 := by
  show (match (podSetUp W impT p ps).2 with
    | none => setupSeq W impT rest (podSetUp W impT p ps).1
    | some _ => none) = _
  rw [h]

/-- C6: if a pod's setup or filter hook fails during the setup loop, the
loop stops at that pod — splitting the schedule as `pre ++ p :: suf` with
every pod of `pre` fully set up and nothing of `suf` ever entered (the
result does not depend on `suf`) — returns the hook's error wrapped as a
setup/filter failure of the failing pod, and tears the completed pods down
in exact reverse completion order (`pre.reverse`, then the pods completed
before the loop). -/
theorem claim_C6 (W : List PodM) (impT : Nat → Nat → ExportRef) :
    ∀ (rest done : List Nat) (ps : PoolSt) (e : DErr),
      (poolSetupLoop W impT done rest ps).2 = some e →
      ∃ pre p suf ps', rest = pre ++ p :: suf ∧
        setupSeq W impT pre ps = some ps' ∧
        (podSetUp W impT p ps').2 = some e ∧
        ((∃ m, e = .setupFailed p m) ∨ ∃ m, e = .filterFailed p m) ∧
        (poolSetupLoop W impT done rest ps).1 =
          (pre.reverse ++ done).foldl (fun s q => podTearDown W q s)
            (podSetUp W impT p ps').1 := by
  intro rest
  induction rest with
  | nil =>
    intro done ps e h
    rw [poolSetupLoop_nil] at h
    exact absurd h (by simp)
  | cons p rest ih =>
    intro done ps e h
    cases hr : (podSetUp W impT p ps).2 with
    | some e' =>
      rw [poolSetupLoop_cons_err W impT done p rest ps e' hr] at h ⊢
      have he : e' = e := Option.some.inj h
      subst he
      refine ⟨[], p, rest, ps, rfl, rfl, hr, podSetUp_err W impT p ps e' hr, ?_⟩
      simp
    | none =>
      rw [poolSetupLoop_cons_ok W impT done p rest ps hr] at h ⊢
      obtain ⟨pre, p', suf, ps', hsplit, hseq, herr, hshape, hstate⟩ :=
        ih (p :: done) (podSetUp W impT p ps).1 e h
      refine ⟨p :: pre, p', suf, ps', by rw [hsplit]; rfl, ?_, herr, hshape, ?_⟩
      · rw [setupSeq_cons_ok W impT p pre ps hr]
        exact hseq
      · rw [hstate]
        have hl : pre.reverse ++ (p :: done) = (p :: pre).reverse ++ done := by simp
        rw [hl]

/-- Witness for C6 on `fPool`: pod 1's setup hook fails, pod 0 was set up
before it and is rolled back. -/
theorem claim_C6_witness :
    ∃ pre p suf ps', ([0, 1] : List Nat) = pre ++ p :: suf ∧
      setupSeq fPool (fun _ _ => (0, 0)) pre (initPoolSt fPool) = some ps' ∧
      (podSetUp fPool (fun _ _ => (0, 0)) p ps').2 = some (.setupFailed 1 "boom") ∧
      ((∃ m, (DErr.setupFailed 1 "boom") = .setupFailed p m) ∨
        ∃ m, (DErr.setupFailed 1 "boom") = .filterFailed p m) ∧
      (poolSetupLoop fPool (fun _ _ => (0, 0)) [] [0, 1] (initPoolSt fPool)).1 =
        (pre.reverse ++ []).foldl (fun s q => podTearDown fPool q s)
          (podSetUp fPool (fun _ _ => (0, 0)) p ps').1 :=
  claim_C6 fPool (fun _ _ => (0, 0)) [0, 1] [] (initPoolSt fPool)
    (.setupFailed 1 "boom") rfl

theorem podTearDown_linked (W : List PodM) (p : Nat) (ps : PoolSt) :
    (podTearDown W p ps).linked = ps.linked := rfl

theorem podTearDown_events (W : List PodM) (p : Nat) (ps : PoolSt) :
    (podTearDown W p ps).events = Ev.teardownHook p :: ps.events := rfl

theorem tearFoldl_linked (W : List PodM) :
    ∀ (l : List Nat) (ps : PoolSt),
      (l.foldl (fun ps q => podTearDown W q ps) ps).linked = ps.linked := by
  intro l
  induction l with
  | nil => intro ps; rfl
  | cons q l ih => intro ps; rw [List.foldl_cons, ih, podTearDown_linked]

/-- A filter pass never changes the linked order. -/
theorem runFilters_linked (W : List PodM) (p e : Nat) (l : List FilterRef)
    (ps : PoolSt) : (runFilters W p e l ps).1.linked = ps.linked := by
  have hstep : ∀ (s : PoolSt) (fr : FilterRef),
      ((fun (s : PoolSt) (fr : FilterRef) =>
        let s1 : PoolSt := { s with events := Ev.filterHook fr.1 fr.2 :: s.events }
        match (fltAt W fr.1 fr.2).hook s1.fields (s1.fields (FKey.exp p e)) with
        | .error m => (s1, some (DErr.filterFailed p m))
        | .ok v => ({ s1 with fields := upd s1.fields (FKey.exp p e) v }, none)) s
        fr).1.linked = s.linked := by
    intro s fr
    show (match (fltAt W fr.1 fr.2).hook s.fields (s.fields (FKey.exp p e)) with
      | .error m => ({ s with events := Ev.filterHook fr.1 fr.2 :: s.events },
          some (DErr.filterFailed p m))
      | .ok v => ({ s with
          events := Ev.filterHook fr.1 fr.2 :: s.events
          fields := upd s.fields (FKey.exp p e) v }, none)).1.linked = s.linked
    cases hk : (fltAt W fr.1 fr.2).hook s.fields (s.fields (FKey.exp p e)) with
    | error m => rfl
    | ok v => rfl
  exact foldStop_pres _ (fun s : PoolSt => s.linked) hstep l _

/-- Setting one pod up never changes the linked order. -/
theorem podSetUp_linked (W : List PodM) (impT : Nat → Nat → ExportRef) (p : Nat)
    (ps : PoolSt) : (podSetUp W impT p ps).1.linked = ps.linked := by
  cases hk : (podAt W p).setupHook
      ((List.range (podAt W p).imports.length).foldl
        (fun f i => upd f (FKey.imp p i) (f (FKey.exp (impT p i).1 (impT p i).2)))
        ps.fields) with
  | error m =>
    have hres : (podSetUp W impT p ps).1 =
        { ps with
            fields := (List.range (podAt W p).imports.length).foldl
              (fun f i =>
                upd f (FKey.imp p i) (f (FKey.exp (impT p i).1 (impT p i).2)))
              ps.fields
            events := Ev.setupHook p :: ps.events } := by
      simp only [podSetUp, hk]
    rw [hres]
  | ok upds =>
    cases hr : (foldStop (List.range (podAt W p).exports.length)
        ({ ps with
            fields := upds.foldl (fun f ev => upd f (FKey.exp p ev.1) ev.2)
              ((List.range (podAt W p).imports.length).foldl
                (fun f i =>
                  upd f (FKey.imp p i) (f (FKey.exp (impT p i).1 (impT p i).2)))
                ps.fields)
            events := Ev.setupHook p :: ps.events })
        fun ps e => runFilters W p e (ps.flists p e) ps).2 with
    | some er =>
      have hres : (podSetUp W impT p ps).1 =
          podTearDown W p (foldStop (List.range (podAt W p).exports.length)
            ({ ps with
                fields := upds.foldl (fun f ev => upd f (FKey.exp p ev.1) ev.2)
                  ((List.range (podAt W p).imports.length).foldl
                    (fun f i =>
                      upd f (FKey.imp p i) (f (FKey.exp (impT p i).1 (impT p i).2)))
                    ps.fields)
                events := Ev.setupHook p :: ps.events })
            fun ps e => runFilters W p e (ps.flists p e) ps).1 := by
        simp only [podSetUp, hk, hr]
      rw [hres, podTearDown_linked]
      exact foldStop_pres _ (fun s : PoolSt => s.linked)
        (fun s e => runFilters_linked W p e (s.flists p e) s) _ _
    | none =>
      have hres : (podSetUp W impT p ps).1 =
          (foldStop (List.range (podAt W p).exports.length)
            ({ ps with
                fields := upds.foldl (fun f ev => upd f (FKey.exp p ev.1) ev.2)
                  ((List.range (podAt W p).imports.length).foldl
                    (fun f i =>
                      upd f (FKey.imp p i) (f (FKey.exp (impT p i).1 (impT p i).2)))
                    ps.fields)
                events := Ev.setupHook p :: ps.events })
            fun ps e => runFilters W p e (ps.flists p e) ps).1 := by
        simp only [podSetUp, hk, hr]
      rw [hres]
      exact foldStop_pres _ (fun s : PoolSt => s.linked)
        (fun s e => runFilters_linked W p e (s.flists p e) s) _ _

/-- The setup loop never changes the linked order. -/
theorem poolSetupLoop_linked (W : List PodM) (impT : Nat → Nat → ExportRef) :
    ∀ (rest done : List Nat) (ps : PoolSt),
      (poolSetupLoop W impT done rest ps).1.linked = ps.linked := by
  intro rest
  induction rest with
  | nil => intro done ps; rw [poolSetupLoop_nil]
  | cons p rest ih =>
    intro done ps
    cases hr : (podSetUp W impT p ps).2 with
    | none =>
      rw [poolSetupLoop_cons_ok W impT done p rest ps hr, ih, podSetUp_linked]
    | some e =>
      rw [poolSetupLoop_cons_err W impT done p rest ps e hr]
      show (done.foldl (fun ps q => podTearDown W q ps)
        (podSetUp W impT p ps).1).linked = ps.linked
      rw [tearFoldl_linked W done, podSetUp_linked]

theorem poolSetUp_of_resolve_err (W : List PodM) (ps : PoolSt) (e : DErr)
    (h : (resolve W ps).2 = .error e) :
    poolSetUp W ps = ((resolve W ps).1, some e) := by
  show (match (resolve W ps).2 with
    | .error e => ((resolve W ps).1, some e)
    | .ok res => poolSetupLoop W res.impT [] res.order (resolve W ps).1) = _
  rw [h]

theorem poolSetUp_of_resolve_ok (W : List PodM) (ps : PoolSt) (res : Resolved)
    (h : (resolve W ps).2 = .ok res) :
    poolSetUp W ps = poolSetupLoop W res.impT [] res.order (resolve W ps).1 := by
  show (match (resolve W ps).2 with
    | .error e => ((resolve W ps).1, some e)
    | .ok res => poolSetupLoop W res.impT [] res.order (resolve W ps).1) = _
  rw [h]

/-- A failing resolution leaves the linked order untouched. -/
theorem resolve_err_linked (W : List PodM) (ps : PoolSt) (e : DErr)
    (h : (resolve W ps).2 = .error e) : (resolve W ps).1.linked = ps.linked := by
  cases h12 : (resolve12 W ps.refIDs ps.flists).2 with
  | some e' =>
    have hres : (resolve W ps).1 =
        { ps with refIDs := (resolve12 W ps.refIDs ps.flists).1.refIDs
                  flists := (resolve12 W ps.refIDs ps.flists).1.flists } := by
      simp only [resolve, h12]
    rw [hres]
  | none =>
    cases h3 : (resolve3 (mkCfg W (resolve12 W ps.refIDs ps.flists).1.impT)
        (resolve12 W ps.refIDs ps.flists).1.flists).2 with
    | some e' =>
      have hres : (resolve W ps).1 =
          { ps with refIDs := (resolve12 W ps.refIDs ps.flists).1.refIDs
                    flists := (resolve3 (mkCfg W (resolve12 W ps.refIDs ps.flists).1.impT)
                      (resolve12 W ps.refIDs ps.flists).1.flists).1.flists } := by
        simp only [resolve, h12, h3]
      rw [hres]
    | none =>
      have hres : (resolve W ps).2 = .ok
          { impT := (resolve12 W ps.refIDs ps.flists).1.impT
            order := (resolve3 (mkCfg W (resolve12 W ps.refIDs ps.flists).1.impT)
              (resolve12 W ps.refIDs ps.flists).1.flists).1.order } := by
        simp only [resolve, h12, h3]
      rw [hres] at h
      exact absurd h (by simp)

/-- A successful resolution links the completion order of phase 3 and both
earlier phases succeeded. -/
theorem resolve_ok_state (W : List PodM) (ps : PoolSt) (res : Resolved)
    (h : (resolve W ps).2 = .ok res) :
    (resolve W ps).1.linked = some res.order ∧
    (resolve12 W ps.refIDs ps.flists).2 = none ∧
    (resolve3 (mkCfg W (resolve12 W ps.refIDs ps.flists).1.impT)
      (resolve12 W ps.refIDs ps.flists).1.flists).2 = none ∧
    res.order = (resolve3 (mkCfg W (resolve12 W ps.refIDs ps.flists).1.impT)
      (resolve12 W ps.refIDs ps.flists).1.flists).1.order := by
  cases h12 : (resolve12 W ps.refIDs ps.flists).2 with
  | some e' =>
    have hres : (resolve W ps).2 = .error e' := by
      simp only [resolve, h12]
    rw [hres] at h
    exact absurd h (by simp)
  | none =>
    cases h3 : (resolve3 (mkCfg W (resolve12 W ps.refIDs ps.flists).1.impT)
        (resolve12 W ps.refIDs ps.flists).1.flists).2 with
    | some e' =>
      have hres : (resolve W ps).2 = .error e' := by
        simp only [resolve, h12, h3]
      rw [hres] at h
      exact absurd h (by simp)
    | none =>
      have hres1 : (resolve W ps).1 =
          { ps with refIDs := (resolve12 W ps.refIDs ps.flists).1.refIDs
                    flists := (resolve3 (mkCfg W (resolve12 W ps.refIDs ps.flists).1.impT)
                      (resolve12 W ps.refIDs ps.flists).1.flists).1.flists
                    linked := some (resolve3 (mkCfg W (resolve12 W ps.refIDs ps.flists).1.impT)
                      (resolve12 W ps.refIDs ps.flists).1.flists).1.order } := by
        simp only [resolve, h12, h3]
      have hres2 : (resolve W ps).2 = .ok
          { impT := (resolve12 W ps.refIDs ps.flists).1.impT
            order := (resolve3 (mkCfg W (resolve12 W ps.refIDs ps.flists).1.impT)
              (resolve12 W ps.refIDs ps.flists).1.flists).1.order } := by
        simp only [resolve, h12, h3]
      rw [hres2] at h
      have hinj := Except.ok.inj h
      refine ⟨?_, rfl, rfl, ?_⟩
      · rw [hres1, ← hinj]
      · rw [← hinj]

/-- C1 (amended): `TearDown` before any successful resolution
(`linked = none`) is a no-op — the pool state is returned untouched, no
teardown hook runs and no field changes; a `SetUp` whose RESOLUTION fails
returns that error and leaves `linked` unchanged, so `TearDown` stays a
no-op; but `SetUp` sets the head/tail chain (`linked`) as soon as
resolution succeeds — even when a setup or filter hook fails afterwards
(see the counterexample), after which `TearDown` is no longer a no-op. -/
theorem claim_C1 (W : List PodM) (ps : PoolSt) :
    (ps.linked = none → poolTearDown W ps = ps) ∧
    (∀ e, (resolve W ps).2 = .error e →
      (poolSetUp W ps).2 = some e ∧ (poolSetUp W ps).1.linked = ps.linked) ∧
    ∀ res, (resolve W ps).2 = .ok res →
      (poolSetUp W ps).1.linked = some res.order := by
  refine ⟨?_, ?_, ?_⟩
  · intro h
    show (match ps.linked with
      | none => ps
      | some L => L.reverse.foldl (fun ps p => podTearDown W p ps) ps) = ps
    rw [h]
  · intro e he
    rw [poolSetUp_of_resolve_err W ps e he]
    exact ⟨rfl, resolve_err_linked W ps e he⟩
  · intro res hres
    rw [poolSetUp_of_resolve_ok W ps res hres, poolSetupLoop_linked,
      (resolve_ok_state W ps res hres).1]

/-- Witness for C1 on `nfPool`, whose resolution fails with a filter
not-found error: teardown is a no-op and `linked` stays unset. -/
theorem claim_C1_witness :
    (poolTearDown nfPool (initPoolSt nfPool) = initPoolSt nfPool) ∧
    (poolSetUp nfPool (initPoolSt nfPool)).2 = some (.badFilter "NF.f") ∧
    (poolSetUp nfPool (initPoolSt nfPool)).1.linked = (initPoolSt nfPool).linked :=
  ⟨(claim_C1 nfPool (initPoolSt nfPool)).1 rfl,
   ((claim_C1 nfPool (initPoolSt nfPool)).2.1 (.badFilter "NF.f") rfl).1,
   ((claim_C1 nfPool (initPoolSt nfPool)).2.1 (.badFilter "NF.f") rfl).2⟩

/-- Tearing a pod down zeroes each of its import fields. -/
theorem podTearDown_fields_imp (W : List PodM) (p : Nat) (ps : PoolSt) (i : Nat)
    (hi : i < (podAt W p).imports.length) :
    (podTearDown W p ps).fields (FKey.imp p i) = zeroOf (impAt W p i).core.fieldTy := by
  show ((List.range (podAt W p).filters.length).foldl
      (fun f fi => upd f (FKey.flt p fi) (zeroOf (fltAt W p fi).core.fieldTy))
      ((List.range (podAt W p).exports.length).foldl
        (fun f e => upd f (FKey.exp p e) (zeroOf (expAt W p e).core.fieldTy))
        ((List.range (podAt W p).imports.length).foldl
          (fun f i => upd f (FKey.imp p i) (zeroOf (impAt W p i).core.fieldTy))
          ps.fields))) (FKey.imp p i) = zeroOf (impAt W p i).core.fieldTy
  rw [foldl_write_get_ne _ (fun fi => FKey.flt p fi)
      (fun f j k hk => upd_other _ _ _ _ (Ne.symm hk)) _ _ (FKey.imp p i)
      (fun j hj => by simp),
    foldl_write_get_ne _ (fun e => FKey.exp p e)
      (fun f j k hk => upd_other _ _ _ _ (Ne.symm hk)) _ _ (FKey.imp p i)
      (fun j hj => by simp)]
  exact foldl_write_get_mem _ (fun i => FKey.imp p i)
    (fun i => zeroOf (impAt W p i).core.fieldTy)
    (fun f j k hk => upd_other _ _ _ _ (Ne.symm hk))
    (fun f j => upd_same _ _ _)
    (fun a b hab => (FKey.imp.inj hab).2)
    (List.range (podAt W p).imports.length) ps.fields i (List.mem_range.mpr hi)

/-- Tearing a pod down zeroes each of its export fields. -/
theorem podTearDown_fields_exp (W : List PodM) (p : Nat) (ps : PoolSt) (e : Nat)
    (he : e < (podAt W p).exports.length) :
    (podTearDown W p ps).fields (FKey.exp p e) = zeroOf (expAt W p e).core.fieldTy := by
  show ((List.range (podAt W p).filters.length).foldl
      (fun f fi => upd f (FKey.flt p fi) (zeroOf (fltAt W p fi).core.fieldTy))
      ((List.range (podAt W p).exports.length).foldl
        (fun f e => upd f (FKey.exp p e) (zeroOf (expAt W p e).core.fieldTy))
        ((List.range (podAt W p).imports.length).foldl
          (fun f i => upd f (FKey.imp p i) (zeroOf (impAt W p i).core.fieldTy))
          ps.fields))) (FKey.exp p e) = zeroOf (expAt W p e).core.fieldTy
  rw [foldl_write_get_ne _ (fun fi => FKey.flt p fi)
      (fun f j k hk => upd_other _ _ _ _ (Ne.symm hk)) _ _ (FKey.exp p e)
      (fun j hj => by simp)]
  exact foldl_write_get_mem _ (fun e => FKey.exp p e)
    (fun e => zeroOf (expAt W p e).core.fieldTy)
    (fun f j k hk => upd_other _ _ _ _ (Ne.symm hk))
    (fun f j => upd_same _ _ _)
    (fun a b hab => (FKey.exp.inj hab).2)
    (List.range (podAt W p).exports.length) _ e (List.mem_range.mpr he)

/-- Tearing a pod down zeroes each of its filter fields. -/
theorem podTearDown_fields_flt (W : List PodM) (p : Nat) (ps : PoolSt) (fi : Nat)
    (hf : fi < (podAt W p).filters.length) :
    (podTearDown W p ps).fields (FKey.flt p fi) = zeroOf (fltAt W p fi).core.fieldTy := by
  show ((List.range (podAt W p).filters.length).foldl
      (fun f fi => upd f (FKey.flt p fi) (zeroOf (fltAt W p fi).core.fieldTy))
      ((List.range (podAt W p).exports.length).foldl
        (fun f e => upd f (FKey.exp p e) (zeroOf (expAt W p e).core.fieldTy))
        ((List.range (podAt W p).imports.length).foldl
          (fun f i => upd f (FKey.imp p i) (zeroOf (impAt W p i).core.fieldTy))
          ps.fields))) (FKey.flt p fi) = zeroOf (fltAt W p fi).core.fieldTy
  exact foldl_write_get_mem _ (fun fi => FKey.flt p fi)
    (fun fi => zeroOf (fltAt W p fi).core.fieldTy)
    (fun f j k hk => upd_other _ _ _ _ (Ne.symm hk))
    (fun f j => upd_same _ _ _)
    (fun a b hab => (FKey.flt.inj hab).2)
    (List.range (podAt W p).filters.length) _ fi (List.mem_range.mpr hf)

/-- Tearing one pod down leaves every other pod's fields untouched. -/
theorem podTearDown_fields_other (W : List PodM) (q : Nat) (ps : PoolSt) (k : FKey)
    (h : k.podOf ≠ q) : (podTearDown W q ps).fields k = ps.fields k := by
  show ((List.range (podAt W q).filters.length).foldl
      (fun f fi => upd f (FKey.flt q fi) (zeroOf (fltAt W q fi).core.fieldTy))
      ((List.range (podAt W q).exports.length).foldl
        (fun f e => upd f (FKey.exp q e) (zeroOf (expAt W q e).core.fieldTy))
        ((List.range (podAt W q).imports.length).foldl
          (fun f i => upd f (FKey.imp q i) (zeroOf (impAt W q i).core.fieldTy))
          ps.fields))) k = ps.fields k
  rw [foldl_write_get_ne _ (fun fi => FKey.flt q fi)
      (fun f j k hk => upd_other _ _ _ _ (Ne.symm hk)) _ _ k
      (fun j hj heq => h (heq ▸ rfl)),
    foldl_write_get_ne _ (fun e => FKey.exp q e)
      (fun f j k hk => upd_other _ _ _ _ (Ne.symm hk)) _ _ k
      (fun j hj heq => h (heq ▸ rfl)),
    foldl_write_get_ne _ (fun i => FKey.imp q i)
      (fun f j k hk => upd_other _ _ _ _ (Ne.symm hk)) _ _ k
      (fun j hj heq => h (heq ▸ rfl))]

theorem tearFoldl_fields_pres (W : List PodM) (k : FKey) :
    ∀ (l : List Nat) (ps : PoolSt), k.podOf ∉ l →
      (l.foldl (fun s q => podTearDown W q s) ps).fields k = ps.fields k := by
  intro l
  induction l with
  | nil => intro ps _; rfl
  | cons q l ih =>
    intro ps h
    rw [List.foldl_cons, ih _ (fun hm => h (List.mem_cons_of_mem q hm)),
      podTearDown_fields_other W q ps k
        (fun he => h (by rw [he]; exact List.mem_cons_self q l))]

/-- Folding teardown over a list containing `p` zeroes `p`'s keys. -/
theorem tearFoldl_fields_zero (W : List PodM) (p : Nat) (k : FKey) (z : Val)
    (hk : k.podOf = p) (hz : ∀ ps : PoolSt, (podTearDown W p ps).fields k = z) :
    ∀ (l : List Nat) (ps : PoolSt), p ∈ l →
      (l.foldl (fun s q => podTearDown W q s) ps).fields k = z := by
  intro l
  induction l with
  | nil => intro ps h; exact absurd h (by simp)
  | cons q l ih =>
    intro ps h
    rw [List.foldl_cons]
    by_cases hm : p ∈ l
    · exact ih _ hm
    · have hq : q = p := by
        rcases List.mem_cons.mp h with h1 | h1
        · exact h1.symm
        · exact absurd h1 hm
      subst hq
      rw [tearFoldl_fields_pres W k l _ (by rw [hk]; exact hm)]
      exact hz ps

theorem tearFoldl_events_mono (W : List PodM) :
    ∀ (l : List Nat) (ps : PoolSt) (ev : Ev), ev ∈ ps.events →
      ev ∈ (l.foldl (fun s q => podTearDown W q s) ps).events := by
  intro l
  induction l with
  | nil => intro ps ev h; exact h
  | cons q l ih =>
    intro ps ev h
    rw [List.foldl_cons]
    exact ih _ ev (by rw [podTearDown_events]; exact List.mem_cons_of_mem _ h)

theorem tearFoldl_event_mem (W : List PodM) (p : Nat) :
    ∀ (l : List Nat) (ps : PoolSt), p ∈ l →
      Ev.teardownHook p ∈ (l.foldl (fun s q => podTearDown W q s) ps).events := by
  intro l
  induction l with
  | nil => intro ps h; exact absurd h (by simp)
  | cons q l ih =>
    intro ps h
    rw [List.foldl_cons]
    rcases List.mem_cons.mp h with h1 | h1
    · subst h1
      exact tearFoldl_events_mono W l _ _
        (by rw [podTearDown_events]; exact List.mem_cons_self _ _)
    · exact ih _ h1

theorem mkCfg_imps_ge (W : List PodM) (impT : Nat → Nat → ExportRef) (p : Nat)
    (hp : W.length ≤ p) : (mkCfg W impT).imps p = [] := by
  show (((W.getD p dummyPodM).imports.enum).map fun ie =>
      (ie.2.core.path, (impT p ie.1).1,
        (expAt W (impT p ie.1).1 (impT p ie.1).2).core.path)) = []
  rw [List.getD_eq_default _ _ hp]
  rfl

theorem mkCfg_exps_ge (W : List PodM) (impT : Nat → Nat → ExportRef) (p : Nat)
    (hp : W.length ≤ p) : (mkCfg W impT).exps p = [] := by
  show (((W.getD p dummyPodM).exports.enum).map fun ee => (ee.1, ee.2.core.path)) = []
  rw [List.getD_eq_default _ _ hp]
  rfl

/-- A successful resolution's completion order is duplicate-free and
contains every pool pod (given a well-formed phase-3 view). -/
theorem resolve_ok_order (W : List PodM) (ps : PoolSt) (res : Resolved)
    (hWf : WfDeps (mkCfg W (resolve12 W ps.refIDs ps.flists).1.impT)
      (resolve12 W ps.refIDs ps.flists).1.flists)
    (h : (resolve W ps).2 = .ok res) :
    res.order.Nodup ∧ ∀ p, p < W.length → p ∈ res.order := by
  obtain ⟨hlink, h12, h3, hord⟩ := resolve_ok_state W ps res h
  obtain ⟨hInv, hleft⟩ := resolve3_ok_spec _ _ hWf h3
  constructor
  · rw [hord]
    exact hInv.nodup
  · intro p hp
    rw [hord]
    exact (hInv.orderLeft p).mpr (hleft p hp)

/-- The phase-3 view of the greeting pool is well formed: every dependency
edge targets one of its three pods. -/
theorem gWf : WfDeps gCfg gR12.flists := by
  intro p q h
  rcases h with ⟨ed, hed, hq⟩ | ⟨ep, hep, fi, hfi, hne⟩
  · match p with
    | 0 =>
      have hed' : ed ∈ ([] : List (String × Nat × String)) := hed
      exact absurd hed' (by simp)
    | 1 =>
      have hed' : ed ∈ [(("B.G" : String), (0 : Nat), ("A.G" : String))] := hed
      rw [List.mem_singleton] at hed'
      rw [hed'] at hq
      have hq0 : q = 0 := by simpa using hq.symm
      rw [hq0]
      decide
    | 2 =>
      have hed' : ed ∈ ([] : List (String × Nat × String)) := hed
      exact absurd hed' (by simp)
    | n + 3 =>
      have hed' : ed ∈ (mkCfg gPool gR12.impT).imps (n + 3) := hed
      rw [mkCfg_imps_ge gPool gR12.impT (n + 3) (by simp [gPool])] at hed'
      exact absurd hed' (by simp)
  · match p with
    | 0 =>
      have hep' : ep ∈ [((0 : Nat), ("A.G" : String))] := hep
      rw [List.mem_singleton] at hep'
      have hep1 : ep.1 = 0 := by rw [hep']
      have hfi' : (q, fi) ∈ gR12.flists 0 ep.1 := hfi
      rw [hep1] at hfi'
      have hfi'' : (q, fi) ∈ [((2 : Nat), (0 : Nat))] := hfi'
      rw [List.mem_singleton] at hfi''
      have hq2 : q = 2 := congrArg Prod.fst hfi''
      rw [hq2]
      decide
    | 1 =>
      have hep' : ep ∈ ([] : List (Nat × String)) := hep
      exact absurd hep' (by simp)
    | 2 =>
      have hep' : ep ∈ ([] : List (Nat × String)) := hep
      exact absurd hep' (by simp)
    | n + 3 =>
      have hep' : ep ∈ (mkCfg gPool gR12.impT).exps (n + 3) := hep
      rw [mkCfg_exps_ge gPool gR12.impT (n + 3) (by simp [gPool])] at hep'
      exact absurd hep' (by simp)

/-- C7 (amended): a successful `SetUp` followed by `TearDown` invokes each
pod's teardown hook and leaves every Import, Export and Filter entry field
of every pool pod zeroed; but repeating the setup-teardown round is NOT
guaranteed to reproduce identical states — equal-priority filters flip
under the re-sort (see the counterexample). -/
theorem claim_C7 (W : List PodM) (ps : PoolSt)
    (hWf : WfDeps (mkCfg W (resolve12 W ps.refIDs ps.flists).1.impT)
      (resolve12 W ps.refIDs ps.flists).1.flists)
    (hok : (poolSetUp W ps).2 = none) (p : Nat) (hp : p < W.length) :
    Ev.teardownHook p ∈ (poolTearDown W (poolSetUp W ps).1).events ∧
    (∀ i, i < (podAt W p).imports.length →
      (poolTearDown W (poolSetUp W ps).1).fields (FKey.imp p i) =
        zeroOf (impAt W p i).core.fieldTy) ∧
    (∀ e, e < (podAt W p).exports.length →
      (poolTearDown W (poolSetUp W ps).1).fields (FKey.exp p e) =
        zeroOf (expAt W p e).core.fieldTy) ∧
    ∀ fi, fi < (podAt W p).filters.length →
      (poolTearDown W (poolSetUp W ps).1).fields (FKey.flt p fi) =
        zeroOf (fltAt W p fi).core.fieldTy := by
  cases hres : (resolve W ps).2 with
  | error e =>
    rw [poolSetUp_of_resolve_err W ps e hres] at hok
    exact absurd hok (by simp)
  | ok res =>
    have hlink : (poolSetUp W ps).1.linked = some res.order := by
      rw [poolSetUp_of_resolve_ok W ps res hres, poolSetupLoop_linked,
        (resolve_ok_state W ps res hres).1]
    obtain ⟨hnd, hall⟩ := resolve_ok_order W ps res hWf hres
    have hmem : p ∈ res.order.reverse := List.mem_reverse.mpr (hall p hp)
    have htd : poolTearDown W (poolSetUp W ps).1 =
        res.order.reverse.foldl (fun ps p => podTearDown W p ps)
          (poolSetUp W ps).1 := by
      show (match (poolSetUp W ps).1.linked with
        | none => (poolSetUp W ps).1
        | some L => L.reverse.foldl (fun ps p => podTearDown W p ps)
            (poolSetUp W ps).1) = _
      rw [hlink]
    rw [htd]
    refine ⟨tearFoldl_event_mem W p res.order.reverse _ hmem, ?_, ?_, ?_⟩
    · intro i hi
      exact tearFoldl_fields_zero W p (FKey.imp p i) _ rfl
        (fun s => podTearDown_fields_imp W p s i hi) res.order.reverse _ hmem
    · intro e he
      exact tearFoldl_fields_zero W p (FKey.exp p e) _ rfl
        (fun s => podTearDown_fields_exp W p s e he) res.order.reverse _ hmem
    · intro fi hfi
      exact tearFoldl_fields_zero W p (FKey.flt p fi) _ rfl
        (fun s => podTearDown_fields_flt W p s fi hfi) res.order.reverse _ hmem

/-- Witness for C7 on the greeting pool: pod 1's teardown hook ran and
its import field ends zeroed. -/
theorem claim_C7_witness :
    Ev.teardownHook 1 ∈ (poolTearDown gPool (poolSetUp gPool (initPoolSt gPool)).1).events ∧
    (poolTearDown gPool (poolSetUp gPool (initPoolSt gPool)).1).fields (FKey.imp 1 0) =
      zeroOf (impAt gPool 1 0).core.fieldTy :=
  ⟨(claim_C7 gPool (initPoolSt gPool) gWf rfl 1 (by decide)).1,
   (claim_C7 gPool (initPoolSt gPool) gWf rfl 1 (by decide)).2.1 0 (by decide)⟩

theorem importResolve1_flists (W : List PodM) (p i : Nat) (st : R12St) :
    (importResolve1 W p i st).1.flists = st.flists := by
  simp only [importResolve1]
  split <;> rfl

theorem exportResolve1_flists (W : List PodM) (p e : Nat) (st : R12St) :
    (exportResolve1 W p e st).1.flists = st.flists := by
  simp only [exportResolve1]
  split
  · rfl
  · split
    · split <;> rfl
    · split <;> rfl

theorem filterResolve1_flists (W : List PodM) (p fi : Nat) (st : R12St) :
    (filterResolve1 W p fi st).1.flists = st.flists := by
  simp only [filterResolve1]
  split <;> rfl

theorem importResolve2_flists (W : List PodM) (p i : Nat) (st : R12St) :
    (importResolve2 W p i st).1.flists = st.flists := by
  simp only [importResolve2]
  split
  · split <;> rfl
  · split
    · rfl
    · split <;> rfl

/-- Phase 1 never touches the filter lists. -/
theorem podResolve1_flists (W : List PodM) (p : Nat) (st : R12St) :
    (podResolve1 W p st).1.flists = st.flists := by
  have hp1 : ∀ s : R12St, (foldStop (List.range (podAt W p).imports.length) s
      fun st i => importResolve1 W p i st).1.flists = s.flists :=
    fun s => foldStop_pres _ (fun st : R12St => st.flists)
      (fun s i => importResolve1_flists W p i s) _ s
  have hp2 : ∀ s : R12St, (foldStop (List.range (podAt W p).exports.length) s
      fun st e => exportResolve1 W p e st).1.flists = s.flists :=
    fun s => foldStop_pres _ (fun st : R12St => st.flists)
      (fun s e => exportResolve1_flists W p e s) _ s
  have hp3 : ∀ s : R12St, (foldStop (List.range (podAt W p).filters.length) s
      fun st fi => filterResolve1 W p fi st).1.flists = s.flists :=
    fun s => foldStop_pres _ (fun st : R12St => st.flists)
      (fun s fi => filterResolve1_flists W p fi s) _ s
  cases hr1 : (foldStop (List.range (podAt W p).imports.length) st
      fun st i => importResolve1 W p i st).2 with
  | some e =>
    have hres : (podResolve1 W p st).1 = (foldStop (List.range (podAt W p).imports.length)
        st fun st i => importResolve1 W p i st).1 := by
      simp only [podResolve1, hr1]
    rw [hres, hp1]
  | none =>
    cases hr2 : (foldStop (List.range (podAt W p).exports.length)
        (foldStop (List.range (podAt W p).imports.length) st
          fun st i => importResolve1 W p i st).1
        fun st e => exportResolve1 W p e st).2 with
    | some e =>
      have hres : (podResolve1 W p st).1 =
          (foldStop (List.range (podAt W p).exports.length)
            (foldStop (List.range (podAt W p).imports.length) st
              fun st i => importResolve1 W p i st).1
            fun st e => exportResolve1 W p e st).1 := by
        simp only [podResolve1, hr1, hr2]
      rw [hres, hp2, hp1]
    | none =>
      have hres : (podResolve1 W p st).1 =
          (foldStop (List.range (podAt W p).filters.length)
            (foldStop (List.range (podAt W p).exports.length)
              (foldStop (List.range (podAt W p).imports.length) st
                fun st i => importResolve1 W p i st).1
              fun st e => exportResolve1 W p e st).1
            fun st fi => filterResolve1 W p fi st).1 := by
        simp only [podResolve1, hr1, hr2]
      rw [hres, hp3, hp2, hp1]

/-- The phase-2 filter step appends the filter to its target's list only
when absent, so duplicate-free rows stay duplicate-free. -/
theorem filterResolve2_nodup (W : List PodM) (p fi : Nat) (st : R12St)
    (h : ∀ q e, (st.flists q e).Nodup) :
    ∀ q e, ((filterResolve2 W p fi st).1.flists q e).Nodup := by
  have hbind : ∀ tgt : ExportRef, ∀ q e,
      (((if (p, fi) ∈ st.flists tgt.1 tgt.2 then (st, (none : Option DErr))
        else ({ st with flists := (upd2 st.flists tgt.1 tgt.2 (st.flists tgt.1 tgt.2 ++ [(p, fi)])) }, none)).1.flists q e)).Nodup := by
    intro tgt q e
    by_cases hmem : (p, fi) ∈ st.flists tgt.1 tgt.2
    · rw [if_pos hmem]
      exact h q e
    · rw [if_neg hmem]
      show (upd2 st.flists tgt.1 tgt.2 (st.flists tgt.1 tgt.2 ++ [(p, fi)]) q e).Nodup
      by_cases hq : q = tgt.1 ∧ e = tgt.2
      · rw [show upd2 st.flists tgt.1 tgt.2 (st.flists tgt.1 tgt.2 ++ [(p, fi)]) q e =
            st.flists tgt.1 tgt.2 ++ [(p, fi)] from by
          rcases hq with ⟨rfl, rfl⟩
          exact upd2_same _ _ _ _]
        refine List.Nodup.append (h tgt.1 tgt.2) (List.nodup_singleton _) ?_
        intro a ha hb
        rw [List.mem_singleton] at hb
        exact hmem (hb ▸ ha)
      · rw [upd2_other _ _ _ _ _ _ hq]
        exact h q e
  intro q e
  simp only [filterResolve2]
  split
  · split
    · exact h q e
    · exact hbind _ q e
  · split
    · exact h q e
    · split
      · exact hbind _ q e
      · exact h q e

/-- Phase 2 on one pod keeps duplicate-free filter rows duplicate-free. -/
theorem podResolve2_nodup (W : List PodM) (p : Nat) (st : R12St)
    (h : ∀ q e, (st.flists q e).Nodup) :
    ∀ q e, ((podResolve2 W p st).1.flists q e).Nodup := by
  have hp1 : (foldStop (List.range (podAt W p).imports.length) st
      fun st i => importResolve2 W p i st).1.flists = st.flists :=
    foldStop_pres _ (fun st : R12St => st.flists)
      (fun s i => importResolve2_flists W p i s) _ st
  cases hr1 : (foldStop (List.range (podAt W p).imports.length) st
      fun st i => importResolve2 W p i st).2 with
  | some e =>
    intro q e'
    have hres : (podResolve2 W p st).1 = (foldStop (List.range (podAt W p).imports.length)
        st fun st i => importResolve2 W p i st).1 := by
      simp only [podResolve2, hr1]
    rw [hres, hp1]
    exact h q e'
  | none =>
    intro q e'
    have hres : (podResolve2 W p st).1 =
        (foldStop (List.range (podAt W p).filters.length)
          (foldStop (List.range (podAt W p).imports.length) st
            fun st i => importResolve2 W p i st).1
          fun st fi => filterResolve2 W p fi st).1 := by
      simp only [podResolve2, hr1]
    rw [hres]
    refine foldStop_inv _ (fun st : R12St => ∀ q e, (st.flists q e).Nodup)
      (fun s fi hs => filterResolve2_nodup W p fi s hs) _ _ ?_ q e'
    intro q' e''
    rw [hp1]
    exact h q' e''

/-- Phases 1-2 keep duplicate-free filter rows duplicate-free. -/
theorem resolve12_nodup (W : List PodM) (refIDs : FKey → String)
    (flists : Nat → Nat → List FilterRef) (h : ∀ q e, (flists q e).Nodup) :
    ∀ q e, ((resolve12 W refIDs flists).1.flists q e).Nodup := by
  have hp1 : ∀ s : R12St, (foldStop (List.range W.length) s
      fun st p => podResolve1 W p st).1.flists = s.flists :=
    fun s => foldStop_pres _ (fun st : R12St => st.flists)
      (fun s p => podResolve1_flists W p s) _ s
  cases hr1 : (foldStop (List.range W.length)
      ({ refIDs := refIDs, maps := { byType := [], byID := [] },
         flists := flists, impT := fun _ _ => (0, 0) } : R12St)
      fun st p => podResolve1 W p st).2 with
  | some e =>
    intro q e'
    have hres : (resolve12 W refIDs flists).1 = (foldStop (List.range W.length)
        ({ refIDs := refIDs, maps := { byType := [], byID := [] },
           flists := flists, impT := fun _ _ => (0, 0) } : R12St)
        fun st p => podResolve1 W p st).1 := by
      simp only [resolve12, hr1]
    rw [hres, hp1]
    exact h q e'
  | none =>
    intro q e'
    have hres : (resolve12 W refIDs flists).1 =
        (foldStop (List.range W.length)
          (foldStop (List.range W.length)
            ({ refIDs := refIDs, maps := { byType := [], byID := [] },
               flists := flists, impT := fun _ _ => (0, 0) } : R12St)
            fun st p => podResolve1 W p st).1
          fun st p => podResolve2 W p st).1 := by
      simp only [resolve12, hr1]
    rw [hres]
    refine foldStop_inv _ (fun st : R12St => ∀ q e, (st.flists q e).Nodup)
      (fun s p hs => podResolve2_nodup W p s hs) _ _ ?_ q e'
    intro q' e''
    rw [hp1]
    exact h q' e''

theorem leavePod_flists (st : R3) : (leavePod st).flists = st.flists := by
  cases h : st.stack with
  | nil => simp [leavePod, h]
  | cons f rest => simp [leavePod, h]

theorem appendPod_flists (st : R3) (p : Nat) : (appendPod st p).flists = st.flists := rfl

theorem r3Imports_rows_perm (C : R3Cfg) (rec : R3 → Nat → String → R3 × Option DErr)
    (hrec : ∀ st p t q e, ((rec st p t).1.flists q e).Perm (st.flists q e)) (p : Nat)
    (st : R3) (q e : Nat) : ((r3Imports C rec st p).1.flists q e).Perm (st.flists q e) := by
  refine foldStop_rows_perm _ ?_ (C.imps p) st q e
  intro s ed q' e'
  refine (hrec _ _ _ q' e').trans ?_
  rw [setActive_flists]

theorem r3Filters_rows_perm (C : R3Cfg) (rec : R3 → Nat → String → R3 × Option DErr)
    (hrec : ∀ st p t q e, ((rec st p t).1.flists q e).Perm (st.flists q e)) (p : Nat)
    (l : List FilterRef) (st : R3) (q e : Nat) :
    ((r3Filters C rec st p l).1.flists q e).Perm (st.flists q e) := by
  refine foldStop_rows_perm _ ?_ l st q e
  intro s f q' e'
  by_cases hf : f.1 = p
  · rw [if_pos hf]
  · rw [if_neg hf]
    exact hrec _ _ _ q' e'

theorem r3ExpStep_rows_perm (C : R3Cfg) (rec : R3 → Nat → String → R3 × Option DErr)
    (hrec : ∀ st p t q e, ((rec st p t).1.flists q e).Perm (st.flists q e)) (p : Nat)
    (s : R3) (ep : Nat × String) (q e : Nat) :
    ((r3ExpStep C rec p s ep).1.flists q e).Perm (s.flists q e) := by
  refine (r3Filters_rows_perm C rec hrec p _ _ q e).trans ?_
  show (upd2 (setActive s ep.2).flists p ep.1
      (sortFilters C.fprio ((setActive s ep.2).flists p ep.1)) q e).Perm (s.flists q e)
  rw [setActive_flists]
  by_cases hq : q = p ∧ e = ep.1
  · rw [show upd2 s.flists p ep.1 (sortFilters C.fprio (s.flists p ep.1)) q e =
        sortFilters C.fprio (s.flists p ep.1) from by
      rcases hq with ⟨rfl, rfl⟩
      exact upd2_same _ _ _ _]
    rcases hq with ⟨rfl, rfl⟩
    exact sortFilters_perm C.fprio (s.flists q ep.1)
  · rw [upd2_other _ _ _ _ _ _ hq]

theorem r3Exports_rows_perm (C : R3Cfg) (rec : R3 → Nat → String → R3 × Option DErr)
    (hrec : ∀ st p t q e, ((rec st p t).1.flists q e).Perm (st.flists q e)) (p : Nat)
    (st : R3) (q e : Nat) : ((r3Exports C rec st p).1.flists q e).Perm (st.flists q e) :=
  foldStop_rows_perm _ (fun s ep q' e' => r3ExpStep_rows_perm C rec hrec p s ep q' e')
    (C.exps p) st q e

theorem r3Body_rows_perm (C : R3Cfg) (rec : R3 → Nat → String → R3 × Option DErr)
    (hrec : ∀ st p t q e, ((rec st p t).1.flists q e).Perm (st.flists q e)) (p : Nat)
    (st : R3) (q e : Nat) : ((r3Body C rec st p).1.flists q e).Perm (st.flists q e) := by
  cases hr1 : (r3Imports C rec st p).2 with
  | some er =>
    have hres : (r3Body C rec st p).1 = (r3Imports C rec st p).1 := by
      simp only [r3Body, hr1]
    rw [hres]
    exact r3Imports_rows_perm C rec hrec p st q e
  | none =>
    cases hr2 : (r3Exports C rec (r3Imports C rec st p).1 p).2 with
    | some er =>
      have hres : (r3Body C rec st p).1 =
          (r3Exports C rec (r3Imports C rec st p).1 p).1 := by
        simp only [r3Body, hr1, hr2]
      rw [hres]
      exact (r3Exports_rows_perm C rec hrec p _ q e).trans
        (r3Imports_rows_perm C rec hrec p st q e)
    | none =>
      have hres : (r3Body C rec st p).1 =
          appendPod (leavePod (r3Exports C rec (r3Imports C rec st p).1 p).1) p := by
        simp only [r3Body, hr1, hr2]
      rw [hres, appendPod_flists, leavePod_flists]
      exact (r3Exports_rows_perm C rec hrec p _ q e).trans
        (r3Imports_rows_perm C rec hrec p st q e)

/-- The phase-3 traversal only permutes filter rows (by the in-place
sorts). -/
theorem doResolve3_rows_perm (C : R3Cfg) :
    ∀ (fuel : Nat) (st : R3) (p : Nat) (t : String) (q e : Nat),
      ((doResolve3 C fuel st p t).1.flists q e).Perm (st.flists q e) := by
  intro fuel
  induction fuel with
  | zero =>
    intro st p t q e
    cases hps : st.pstates p with
    | left =>
      have heq : doResolve3 C 0 st p t = (leavePod (enterPod st p t), none) := by
        simp only [doResolve3, hps]
      rw [heq]
      exact List.Perm.refl _
    | entered =>
      have heq : doResolve3 C 0 st p t =
          (enterPod st p t, some (.circular (dumpStack (enterPod st p t)))) := by
        simp only [doResolve3, hps]
      rw [heq]
      exact List.Perm.refl _
    | unvisited =>
      have heq : doResolve3 C 0 st p t = (enterPod st p t, some .fuelOut) := by
        simp only [doResolve3, hps]
      rw [heq]
      exact List.Perm.refl _
  | succ f ih =>
    intro st p t q e
    cases hps : st.pstates p with
    | left =>
      have heq : doResolve3 C (f + 1) st p t = (leavePod (enterPod st p t), none) := by
        simp only [doResolve3, hps]
      rw [heq]
      exact List.Perm.refl _
    | entered =>
      have heq : doResolve3 C (f + 1) st p t =
          (enterPod st p t, some (.circular (dumpStack (enterPod st p t)))) := by
        simp only [doResolve3, hps]
      rw [heq]
      exact List.Perm.refl _
    | unvisited =>
      have heq : doResolve3 C (f + 1) st p t =
          r3Body C (fun st q t => doResolve3 C f st q t) (enterPod st p t) p := by
        simp only [doResolve3, hps]
      rw [heq]
      exact r3Body_rows_perm C (fun st q t => doResolve3 C f st q t)
        (fun st' p' t' q' e' => ih st' p' t' q' e') p (enterPod st p t) q e

/-- Phase 3 end to end only permutes each filter row. -/
theorem resolve3_rows_perm (C : R3Cfg) (fl0 : Nat → Nat → List FilterRef)
    (q e : Nat) : ((resolve3 C fl0).1.flists q e).Perm (fl0 q e) :=
  foldStop_rows_perm (fun st p => doResolve3 C (C.n + 1) st p "")
    (fun s p q' e' => doResolve3_rows_perm C (C.n + 1) s p "" q' e')
    (List.range C.n) (initR3 fl0) q e

theorem count_inst_eq (l : List FilterRef) (x : FilterRef) :
    List.count x l = @List.count FilterRef instBEqOfDecidableEq x l := by
  induction l with
  | nil => rfl
  | cons a l ih =>
    rw [List.count_cons, @List.count_cons _ instBEqOfDecidableEq, ih]
    by_cases h : a = x <;> simp [h, instBEqOfDecidableEq]

/-- C8: entire resolutions keep every export's filter row duplicate-free —
phase 2 appends a filter only if absent, phase 3 only permutes rows — so a
filter bound to an export occurs in that export's list exactly once, and
re-running resolution (whose rows then still satisfy the hypothesis) leaves
it exactly once. -/
theorem claim_C8 (W : List PodM) (ps : PoolSt)
    (h : ∀ q e, (ps.flists q e).Nodup) :
    ∀ q e x, x ∈ (resolve W ps).1.flists q e →
      List.count x ((resolve W ps).1.flists q e) = 1 := by
  have hnd : ∀ q e, ((resolve W ps).1.flists q e).Nodup := by
    intro q e
    cases h12 : (resolve12 W ps.refIDs ps.flists).2 with
    | some e' =>
      have hres : (resolve W ps).1 =
          { ps with refIDs := (resolve12 W ps.refIDs ps.flists).1.refIDs
                    flists := (resolve12 W ps.refIDs ps.flists).1.flists } := by
        simp only [resolve, h12]
      rw [hres]
      exact resolve12_nodup W ps.refIDs ps.flists h q e
    | none =>
      have hperm := resolve3_rows_perm (mkCfg W (resolve12 W ps.refIDs ps.flists).1.impT)
        (resolve12 W ps.refIDs ps.flists).1.flists q e
      have hnd12 := resolve12_nodup W ps.refIDs ps.flists h q e
      cases h3 : (resolve3 (mkCfg W (resolve12 W ps.refIDs ps.flists).1.impT)
          (resolve12 W ps.refIDs ps.flists).1.flists).2 with
      | some e' =>
        have hres : (resolve W ps).1 =
            { ps with refIDs := (resolve12 W ps.refIDs ps.flists).1.refIDs
                      flists := (resolve3 (mkCfg W (resolve12 W ps.refIDs ps.flists).1.impT)
                        (resolve12 W ps.refIDs ps.flists).1.flists).1.flists } := by
          simp only [resolve, h12, h3]
        rw [hres]
        exact hperm.symm.nodup hnd12
      | none =>
        have hres : (resolve W ps).1 =
            { ps with refIDs := (resolve12 W ps.refIDs ps.flists).1.refIDs
                      flists := (resolve3 (mkCfg W (resolve12 W ps.refIDs ps.flists).1.impT)
                        (resolve12 W ps.refIDs ps.flists).1.flists).1.flists
                      linked := some (resolve3 (mkCfg W (resolve12 W ps.refIDs ps.flists).1.impT)
                        (resolve12 W ps.refIDs ps.flists).1.flists).1.order } := by
          simp only [resolve, h12, h3]
        rw [hres]
        exact hperm.symm.nodup hnd12
  intro q e x hx
  rw [count_inst_eq]
  exact List.count_eq_one_of_mem (hnd q e) hx

/-- Witness for C8: the greeting pool's only filter sits exactly once in
pod A's export filter list after resolution. -/
theorem claim_C8_witness :
    List.count ((2 : Nat), (0 : Nat)) ((resolve gPool (initPoolSt gPool)).1.flists 0 0) = 1 :=
  claim_C8 gPool (initPoolSt gPool) (fun _ _ => List.nodup_nil) 0 0 (2, 0) (by decide)

/-- Unfolding lemma: parsing an empty field list. -/
theorem parseStructure_nil (pre : String) (acc : ParsedPod) :
    parseStructure pre [] acc = (acc, none) := by
  rw [parseStructure]

/-- Unfolding lemma: an embedded struct is recursed into and the recursive
call's error is discarded (depinj.go line 321). -/
theorem parseStructure_anon (pre nm : String) (fs rest : List RawField)
    (acc : ParsedPod) :
    parseStructure pre (.anon nm fs :: rest) acc =
      parseStructure pre rest (parseStructure (pre ++ "." ++ nm) fs acc).1 := by
  rw [parseStructure]

/-- Unfolding lemma: a plain field whose parse fails stops this walk. -/
theorem parseStructure_plain_err (pre : String) (s : RawFieldSpec)
    (rest : List RawField) (acc : ParsedPod) (e : DErr)
    (h : parseField (pre ++ "." ++ s.name) s = .error e) :
    parseStructure pre (.plain s :: rest) acc = (acc, some e) := by
  rw [parseStructure, h]

/-- Unfolding lemma: a plain field without an entry tag is skipped. -/
theorem parseStructure_plain_skip (pre : String) (s : RawFieldSpec)
    (rest : List RawField) (acc : ParsedPod)
    (h : parseField (pre ++ "." ++ s.name) s = .ok none) :
    parseStructure pre (.plain s :: rest) acc = parseStructure pre rest acc := by
  rw [parseStructure, h]

/-- Unfolding lemma: a plain field parsed into an entry appends it. -/
theorem parseStructure_plain_ok (pre : String) (s : RawFieldSpec)
    (rest : List RawField) (acc : ParsedPod) (pe : PEntry)
    (h : parseField (pre ++ "." ++ s.name) s = .ok (some pe)) :
    parseStructure pre (.plain s :: rest) acc =
      parseStructure pre rest (acc.add pe) := by
  rw [parseStructure, h]

/-- C9: in the wiring where A exports the string `"Hi!"` under identifier
`"the_greeting"`, B imports `"the_greeting"`, and C filters
`"the_greeting"` at priority 0 with a hook appending `" Jack!"`, pool setup
succeeds and afterwards B's import field equals `"Hi! Jack!"`. -/
theorem claim_C9 :
    (poolSetUp gPool (initPoolSt gPool)).2 = none ∧
    (poolSetUp gPool (initPoolSt gPool)).1.fields (.imp 1 0) = .strV "Hi! Jack!" :=
  ⟨rfl, rfl⟩

/-- C10: errors produced while parsing entries inside an embedded
(anonymous) struct are discarded — the recursive `parseStructure` call's
error is ignored, parsing continues from whatever entries the embedded
group yielded before its failing field, and `AddPod` can succeed: concretely,
a pod whose embedded group holds a valid export, an invalid (unexported)
reference, and a second valid export parses successfully, keeping exactly the
entries before the failing one. -/
theorem claim_C10 :
    (∀ (pre nm : String) (fs rest : List RawField) (acc : ParsedPod),
      parseStructure pre (.anon nm fs :: rest) acc =
        parseStructure pre rest (parseStructure (pre ++ "." ++ nm) fs acc).1) ∧
    parseField "P.E.bad" c10bad = .error (.badImport "P.E.bad") ∧
    podParseRaw "P" c10fields =
      .ok { imps := [],
            exps := [{ path := "P.E.G", refID := "g", fieldTy := .base "int" }],
            flts := [] } := by
  refine ⟨fun pre nm fs rest acc => parseStructure_anon pre nm fs rest acc, rfl, ?_⟩
  have hInner :
      parseStructure "P.E" [.plain c10good, .plain c10bad, .plain c10good2]
        { imps := [], exps := [], flts := [] } =
      ({ imps := [], exps := [{ path := "P.E.G", refID := "g", fieldTy := .base "int" }],
         flts := [] }, some (.badImport "P.E.bad")) := by
    rw [parseStructure_plain_ok "P.E" c10good _ _
        (.exp { path := "P.E.G", refID := "g", fieldTy := .base "int" }) rfl,
      parseStructure_plain_err "P.E" c10bad _ _ (.badImport "P.E.bad") rfl]
    rfl
  have hTop :
      parseStructure "P" c10fields { imps := [], exps := [], flts := [] } =
      ({ imps := [], exps := [{ path := "P.E.G", refID := "g", fieldTy := .base "int" }],
         flts := [] }, none) := by
    show parseStructure "P" (.anon "E" [.plain c10good, .plain c10bad, .plain c10good2] :: []) _ = _
    rw [parseStructure_anon]
    have : ("P" ++ "." ++ "E" : String) = "P.E" := rfl
    rw [this, hInner, parseStructure_nil]
  show podParseRaw "P" c10fields = _
  rw [podParseRaw, hTop]
  rfl

/-- C1 counterexample: on the one-pod pool `hPool` resolution succeeds but
the setup hook fails, so no `SetUp` call ever succeeded on this pool; yet
`firstPod`/`lastPod` are set by the failed `SetUp`, and a subsequent
`TearDown` is not a no-op — it invokes the pod's teardown hook. -/
theorem claim_C1_cex :
    (poolSetUp hPool (initPoolSt hPool)).2 = some (.setupFailed 0 "boom") ∧
    (poolSetUp hPool (initPoolSt hPool)).1.linked = some [0] ∧
    (poolSetUp hPool (initPoolSt hPool)).1.linked ≠ none ∧
    (poolTearDown hPool (poolSetUp hPool (initPoolSt hPool)).1).events =
      [.teardownHook 0, .setupHook 0] ∧
    (poolTearDown hPool (poolSetUp hPool (initPoolSt hPool)).1).events ≠
      (poolSetUp hPool (initPoolSt hPool)).1.events := by
  refine ⟨rfl, rfl, by decide, rfl, by decide⟩

/-- C2 counterexample: in `eqPool` the export carries two filters of equal
priority, registered (discovered) in the order `[(1,0), (2,0)]`; after
resolution the list is `[(2,0), (1,0)]` — the equal-priority pair does NOT
keep its discovery order (the non-strict `>=` comparator of the unstable
`sort.Slice` swaps equal elements). -/
theorem claim_C2_cex :
    (resolve12 eqPool (initRefIDs eqPool) (fun _ _ => [])).1.flists 0 0 =
      [(1, 0), (2, 0)] ∧
    (fltAt eqPool 1 0).priority = (fltAt eqPool 2 0).priority ∧
    (resolve eqPool (initPoolSt eqPool)).1.flists 0 0 = [(2, 0), (1, 0)] ∧
    ([(2, 0), (1, 0)] : List FilterRef) ≠ [(1, 0), (2, 0)] := by
  refine ⟨rfl, rfl, rfl, by decide⟩

/-- C3 counterexample: in `bPool`, A (`bX`) exports an `int` by bare type
and its setup hook returns the export value 1, a filter adds 1, and B
(`bB`) imports the bare type; after a successful setup B's import field is
2, not the value 1 that A's export field held when A's setup hook returned
(before the filter ran). -/
theorem claim_C3_cex :
    bX.setupHook (initFields bPool) = .ok [(0, .intV 1)] ∧
    (poolSetUp bPool (initPoolSt bPool)).2 = none ∧
    (poolSetUp bPool (initPoolSt bPool)).1.fields (.imp 2 0) = .intV 2 ∧
    Val.intV 2 ≠ Val.intV 1 := by
  refine ⟨rfl, rfl, rfl, by decide⟩

/-- C5 counterexample: `cPool` has a dependency cycle (B and C import each
other) reached through two equal-priority filters on A's export; the first
resolution and the repeated resolution of the same pool both fail with
`CircularDependency`, but with DIFFERENT traces, because the equal-priority
filter pair alternates under the in-place re-sort. -/
theorem claim_C5_cex :
    (resolve cPool (initPoolSt cPool)).2 =
      .error (.circular "A.e ==> C.f ... C.i ==> B.e ... B.i ==> C.e") ∧
    (resolve cPool (resolve cPool (initPoolSt cPool)).1).2 =
      .error (.circular "A.e ==> B.f ... B.i ==> C.e ... C.i ==> B.e") ∧
    ("A.e ==> C.f ... C.i ==> B.e ... B.i ==> C.e" : String) ≠
      "A.e ==> B.f ... B.i ==> C.e ... C.i ==> B.e" := by
  refine ⟨rfl, rfl, by decide⟩

/-- C7 counterexample: on `eqPool` (two equal-priority filters, adding 1
and doubling) the first setup-teardown round succeeds and B's import field
is 21 during round 1, but 22 during round 2 — repeated rounds do NOT yield
the same states, because the equal-priority filter order alternates. -/
theorem claim_C7_cex :
    (poolSetUp eqPool (initPoolSt eqPool)).2 = none ∧
    (poolSetUp eqPool (initPoolSt eqPool)).1.fields (.imp 3 0) = .intV 21 ∧
    (poolRound eqPool (initPoolSt eqPool)).2 = none ∧
    (poolSetUp eqPool (poolRounds eqPool 1 (initPoolSt eqPool))).1.fields (.imp 3 0) =
      .intV 22 ∧
    Val.intV 21 ≠ Val.intV 22 := by
  refine ⟨rfl, rfl, rfl, rfl, by decide⟩

end Depinj
